import Mathlib

/-!
# Timestamp extraction and ingester configuration: a verification development

A shallow embedding of

* `timegrinder/processors.go` (the timestamp processors and their `Extract` methods),
* `ingesters/fileFollow/config.go` and `ingesters/s3Ingster/config.go` (configuration checks),
* `ingesters/singleFile/main.go` (the one-shot ingest loop),

followed by theorems about them.

Conventions.  A Go `[]byte` (a log line, a matched substring) is a `List Nat` of byte values.
Configuration strings, which the code only compares, concatenates and inspects at their
first characters, are Lean `String`s.  A Go `error` is an `Option String`; `none` is `nil`.
-/

set_option autoImplicit false
set_option maxRecDepth 100000

deriving instance DecidableEq for Except

/-! ## Basic conventions -/

/-- Go's `error`: `none` is `nil`, `some msg` an error carrying its message. -/
abbrev error := Option String

/-- The bytes of an ASCII string literal. -/
def ascii (s : String) : List Nat := s.data.map Char.toNat

/-- Go's `strings.HasPrefix`. -/
def HasPrefix (s pre : String) : Bool := pre.data.isPrefixOf s.data

/-- Go's `strings.TrimPrefix`: `s` without the leading `pre`, or `s` itself. -/
def TrimPrefix (s pre : String) : String :=
  if HasPrefix s pre then String.mk (s.data.drop pre.data.length) else s

/-- Go's `strings.ContainsAny`: some character of `chars` occurs in `s`. -/
def ContainsAny (s chars : String) : Bool := s.data.any (fun c => chars.data.contains c)


/-! ## Go's `time` package: locations, instants, the calendar

The parts of the standard library that the processors call, after `time/zoneinfo.go` and
`time/time.go`.  Years, days and seconds of the calendar are unbounded integers: Go
computes them in 64 bits without overflow for every year within 292 thousand million
years of the present, and wrap-around beyond that is not modelled.  A `Location`'s `extend` rule (the POSIX TZ string used past the
last transition) and its lookup cache, which does not change any result, are left out. -/

namespace time

/-- A `time.zone`: abbreviation, seconds east of UTC, daylight-saving flag. -/
structure zone where
  name : List Nat
  offset : Int
  isDST : Bool
deriving DecidableEq, Repr

/-- A `time.zoneTrans`: the instant of a transition and the index of the zone it starts. -/
structure zoneTrans where
  when : Int
  index : Nat
deriving DecidableEq, Repr

/-- A `time.Location`: a zone table and the transitions, sorted by `when`. -/
structure Location where
  name : List Nat
  zone : List zone
  tx : List zoneTrans
deriving DecidableEq, Repr

/-- The least and greatest `int64`, the ends of time in `lookup`. -/
def alpha : Int := -9223372036854775808
def omega : Int := 9223372036854775807

/-- The location `time.UTC` (`utcLoc`): no zones at all. -/
def UTC : Location := ⟨ascii "UTC", [], []⟩

/-- The function `time.FixedZone`. -/
def FixedZone (name : List Nat) (offset : Int) : Location :=
  ⟨name, [⟨name, offset, false⟩], [⟨alpha, 0⟩]⟩

/-- What `Location.lookup` returns. -/
structure ZoneSpan where
  name : List Nat
  offset : Int
  start : Int
  stop : Int
  isDST : Bool
deriving DecidableEq, Repr

/-- The zone at index `i` of the zone table. -/
def Location.zoneAt (l : Location) (i : Nat) : time.zone := l.zone.getD i ⟨[], 0, false⟩

/-- The method `Location.firstZoneUsed`. -/
def Location.firstZoneUsed (l : Location) : Bool := l.tx.any (fun t => t.index == 0)

/-- The downward loop of `lookupFirstZone`, case 2: the nearest non-DST zone below `n`. -/
def Location.lastStdBelow (l : Location) : Nat → Option Nat
  | 0 => none
  | n + 1 => if !(l.zoneAt n).isDST then some n else l.lastStdBelow n

/-- The method `Location.lookupFirstZone`: the zone to use before the first transition. -/
def Location.lookupFirstZone (l : Location) : Nat :=
  if !l.firstZoneUsed then 0
  else
    let case2 : Option Nat :=
      match l.tx with
      | t :: _ => if (l.zoneAt t.index).isDST then l.lastStdBelow t.index else none
      | [] => none
    match case2 with
    | some zi => zi
    | none =>
      match l.zone.findIdx? (fun z => !z.isDST) with
      | some zi => zi
      | none => 0

/-- The search of `lookup` for the last transition not after `sec`, with the start of the
next one; `cur` is a transition already known to be not after `sec`.  (Go bisects the
sorted table; the scan finds the same entry.) -/
def scanTx (sec : Int) : zoneTrans → List zoneTrans → zoneTrans × Int
  | cur, [] => (cur, omega)
  | cur, t :: rest => if sec < t.when then (cur, t.when) else scanTx sec t rest

/-- The method `Location.lookup`: the zone in force at the instant `sec`, and the period
`[start, stop)` over which it is. -/
def Location.lookup (l : Location) (sec : Int) : ZoneSpan :=
  if l.zone.length = 0 then ⟨ascii "UTC", 0, alpha, omega, false⟩
  else
    match l.tx with
    | [] =>
      let z := l.zoneAt l.lookupFirstZone
      ⟨z.name, z.offset, alpha, omega, z.isDST⟩
    | t0 :: rest =>
      if sec < t0.when then
        let z := l.zoneAt l.lookupFirstZone
        ⟨z.name, z.offset, alpha, t0.when, z.isDST⟩
      else
        let r := scanTx sec t0 rest
        let z := l.zoneAt r.1.index
        ⟨z.name, z.offset, r.1.when, r.2, z.isDST⟩

/-- The first loop of `Location.lookupName`. -/
def Location.lookupNameInEffect (l : Location) (name : List Nat) (unix : Int) :
    List time.zone → Option Int
  | [] => none
  | z :: rest =>
    if z.name = name ∧ (l.lookup (unix - z.offset)).name = z.name then
      some (l.lookup (unix - z.offset)).offset
    else l.lookupNameInEffect name unix rest

/-- The method `Location.lookupName`: the offset of the zone abbreviated `name`. -/
def Location.lookupName (l : Location) (name : List Nat) (unix : Int) : Option Int :=
  match l.lookupNameInEffect name unix l.zone with
  | some off => some off
  | none => (l.zone.find? (fun z => z.name = name)).map (fun z => z.offset)

/-- A `time.Time`, by what its methods read: the seconds since the Unix epoch, the
nanoseconds within the second, and the location (`Time.Location()`, never nil). -/
structure Time where
  sec : Int
  nsec : Int
  loc : Location
deriving DecidableEq, Repr

def secondsPerDay : Int := 86400
def daysPer400Years : Int := 146097
def daysPer100Years : Int := 36524
def daysPer4Years : Int := 1461
def absoluteZeroYear : Int := -292277022399
/-- `unixToInternal + internalToAbsolute`: from Unix seconds to seconds since the absolute
epoch, 1 January of `absoluteZeroYear`. -/
def unixToAbsolute : Int := 9223372028715321600

/-- The zero `time.Time{}`: 1 January of year 1, 00:00:00 UTC. -/
def Time.zero : Time := ⟨-62135596800, 0, UTC⟩

/-- The function `isLeap`. -/
def isLeap (year : Int) : Bool := year % 4 == 0 && (year % 100 != 0 || year % 400 == 0)

/-- The table `daysBefore`: days of a non-leap year before month `m + 1`. -/
def daysBefore (m : Int) : Int :=
  if m ≤ 0 then 0 else if m = 1 then 31 else if m = 2 then 59 else if m = 3 then 90
  else if m = 4 then 120 else if m = 5 then 151 else if m = 6 then 181
  else if m = 7 then 212 else if m = 8 then 243 else if m = 9 then 273
  else if m = 10 then 304 else if m = 11 then 334 else 365

/-- The function `daysIn`. -/
def daysIn (m : Int) (year : Int) : Int :=
  if m = 2 ∧ isLeap year then 29 else daysBefore m - daysBefore (m - 1)

/-- The function `norm`: `(hi, lo)` with `lo` brought into `[0, base)`. -/
def norm (hi lo base : Int) : Int × Int :=
  let (hi, lo) := if lo < 0 then
      let n := (-lo - 1) / base + 1
      (hi - n, lo + n * base)
    else (hi, lo)
  if lo ≥ base then
    let n := lo / base
    (hi + n, lo - n * base)
  else (hi, lo)

/-- The function `daysSinceEpoch`: days from the absolute epoch to 1 January of `year`. -/
def daysSinceEpoch (year : Int) : Int :=
  let y := year - absoluteZeroYear
  let n := y / 400
  let y := y - 400 * n
  let d := daysPer400Years * n
  let n := y / 100
  let y := y - 100 * n
  let d := d + daysPer100Years * n
  let n := y / 4
  let y := y - 4 * n
  let d := d + daysPer4Years * n
  let n := y
  d + 365 * n

/-- The method `Time.abs`: seconds since the absolute epoch of the wall clock in `t.loc`. -/
def Time.abs (t : Time) : Int := t.sec + (t.loc.lookup t.sec).offset + unixToAbsolute

/-- The year and the zero-based day of the year of an absolute time: the first half of
`absDate`. -/
def absYearDay (abs : Int) : Int × Int :=
  let d := abs / secondsPerDay
  let n := d / daysPer400Years
  let y := 400 * n
  let d := d - daysPer400Years * n
  let n := d / daysPer100Years
  let n := n - n / 4
  let y := y + 100 * n
  let d := d - daysPer100Years * n
  let n := d / daysPer4Years
  let y := y + 4 * n
  let d := d - daysPer4Years * n
  let n := d / 365
  let n := n - n / 4
  let y := y + n
  let d := d - 365 * n
  (y + absoluteZeroYear, d)

/-- The end of `absDate` ("estimate month on assumption that every month has 31 days"):
the month and the day of the month of the zero-based day `day` of a common year. -/
def monthOfDay (day : Int) : Int × Int :=
  let month := day / 31
  let stop := daysBefore (month + 1)
  let (month, begin) := if day ≥ stop then (month + 1, stop) else (month, daysBefore month)
  (month + 1, day - begin + 1)

/-- The second half of `absDate`: the month and the day of the month of the zero-based
day `yday` of a year that is a leap year or not. -/
def monthDay (leap : Bool) (yday : Int) : Int × Int :=
  if leap && yday == 31 + 29 - 1 then (2, 29)
  else monthOfDay (if leap && yday > 31 + 29 - 1 then yday - 1 else yday)

/-- The function `absDate` with `full = true`: year, month, day of the month, day of the
year. -/
def absDate (abs : Int) : Int × Int × Int × Int :=
  let (year, yday) := absYearDay abs
  let md := monthDay (isLeap year) yday
  (year, md.1, md.2, yday)

/-- The function `absClock`: hour, minute and second of an absolute time. -/
def absClock (abs : Int) : Int × Int × Int :=
  let sec := abs % secondsPerDay
  let hour := sec / 3600
  let sec := sec - hour * 3600
  let min := sec / 60
  (hour, min, sec - min * 60)

/-- The method `Time.Year`. -/
def Time.Year (t : Time) : Int := (absYearDay t.abs).1

/-- The method `Time.Date`: year, month, day. -/
def Time.Date (t : Time) : Int × Int × Int :=
  let r := absDate t.abs
  (r.1, r.2.1, r.2.2.1)

/-- The method `Time.Clock`: hour, minute, second. -/
def Time.Clock (t : Time) : Int × Int × Int := absClock t.abs

/-- The first half of `time.Date`, for fields already normalised: the seconds from the Unix
epoch to the given wall-clock reading taken as UTC ("compute days since the absolute
epoch" to "unix := ..."). -/
def wallSeconds (year month day hour min sec : Int) : Int :=
  let d := daysSinceEpoch year
  let d := d + daysBefore (month - 1)
  let d := if isLeap year && month ≥ 3 then d + 1 else d
  let d := d + (day - 1)
  let abs := d * secondsPerDay
  let abs := abs + (hour * 3600 + min * 60 + sec)
  abs - unixToAbsolute

/-- The second half of `time.Date` ("look for zone offset for expected time, so we can
adjust to UTC"): the instant at which `loc` is taken to show the wall-clock reading
`unix`. -/
def Location.unixOfWall (loc : Location) (unix : Int) : Int :=
  let z := loc.lookup unix
  if z.offset ≠ 0 then
    let utc := unix - z.offset
    let offset := if utc < z.start ∨ utc ≥ z.stop then (loc.lookup utc).offset else z.offset
    unix - offset
  else unix

/-- The function `time.Date`. -/
def Date (year month day hour min sec nsec : Int) (loc : Location) : Time :=
  let m := month - 1
  let (year, m) := norm year m 12
  let month := m + 1
  let (sec, nsec) := norm sec nsec 1000000000
  let (min, sec) := norm min sec 60
  let (hour, min) := norm hour min 60
  let (day, hour) := norm day hour 24
  ⟨loc.unixOfWall (wallSeconds year month day hour min sec), nsec, loc⟩

/-- The zone of `loc` shows the wall-clock reading `wall` at the instant `time.Date` picks
for it: no transition of the zone skips the reading. -/
def Location.shows (loc : Location) (wall : Int) : Prop :=
  loc.unixOfWall wall + (loc.lookup (loc.unixOfWall wall)).offset = wall

/-- The method `Time.AddDate`. -/
def Time.AddDate (t : Time) (years months days : Int) : Time :=
  let (year, month, day) := t.Date
  let (hour, min, sec) := t.Clock
  time.Date (year + years) (month + months) (day + days) hour min sec t.nsec t.loc

/-- The value an `int64` computation leaves: `x` modulo `2^64`, in `[-2^63, 2^63)`. -/
def wrap64 (x : Int) : Int := (x + 9223372036854775808) % 18446744073709551616 - 9223372036854775808

/-- The function `time.Unix`.  Its arguments are any two `int64`, so the additions wrap. -/
def Unix (sec nsec : Int) : Time :=
  if nsec < 0 ∨ nsec ≥ 1000000000 then
    let n := Int.tdiv nsec 1000000000
    let sec := wrap64 (sec + n)
    let nsec := nsec - n * 1000000000
    if nsec < 0 then ⟨wrap64 (sec - 1), nsec + 1000000000, UTC⟩ else ⟨sec, nsec, UTC⟩
  else ⟨sec, nsec, UTC⟩

/-- The method `Time.In`: the same instant, read in `loc`. -/
def Time.In (t : Time) (loc : Location) : Time := { t with loc := loc }

/-- The method `Time.Unix`. -/
def Time.Unix (t : Time) : Int := t.sec

/-- The method `Time.Nanosecond`. -/
def Time.Nanosecond (t : Time) : Int := t.nsec

end time

/-! ## Go's `regexp` package, for the patterns of `processors.go`

Every pattern of `processors.go` is a sequence of character classes, each repeated greedily
between a minimum and a maximum number of times, with `\A` in one of them and no
alternation.  A compiled pattern is modelled as that sequence, and matching as the
backtracking search whose first result Go's engine is specified to return (leftmost
match, and among the leftmost the one preferring more repetitions of earlier items).
The input is decoded rune by rune, as `regexp` does on a `[]byte`. -/

namespace regexp

/-- The rune `utf8.RuneError`. -/
def RuneError : Nat := 0xFFFD

/-- The part of `utf8.DecodeRune` for a first byte `p0` that announces two, three or four
bytes: `lo` and `hi` are the bounds the table `acceptRanges` puts on the second byte. -/
def decodeMulti (p0 lo hi : Nat) (rest : List Nat) : Nat × Nat :=
  match rest with
  | [] => (RuneError, 1)
  | b1 :: rest =>
    if b1 < lo ∨ hi < b1 then (RuneError, 1)
    else if p0 < 0xE0 then ((p0 % 0x20) * 0x40 + b1 % 0x40, 2)
    else
      match rest with
      | [] => (RuneError, 1)
      | b2 :: rest =>
        if b2 < 0x80 ∨ 0xBF < b2 then (RuneError, 1)
        else if p0 < 0xF0 then
          ((p0 % 0x10) * 0x1000 + (b1 % 0x40) * 0x40 + b2 % 0x40, 3)
        else
          match rest with
          | [] => (RuneError, 1)
          | b3 :: _ =>
            if b3 < 0x80 ∨ 0xBF < b3 then (RuneError, 1)
            else ((p0 % 0x08) * 0x40000 + (b1 % 0x40) * 0x1000 + (b2 % 0x40) * 0x40
              + b3 % 0x40, 4)

/-- The function `utf8.DecodeRune`: the first rune of `p` and its width in bytes. -/
def DecodeRune (p : List Nat) : Nat × Nat :=
  match p with
  | [] => (RuneError, 0)
  | p0 :: rest =>
    if p0 < 0x80 then (p0, 1)
    else if p0 < 0xC2 ∨ 0xF4 < p0 then (RuneError, 1)
    else
      decodeMulti p0 (if p0 = 0xE0 then 0xA0 else if p0 = 0xF0 then 0x90 else 0x80)
        (if p0 = 0xED then 0x9F else if p0 = 0xF4 then 0x8F else 0xBF) rest

/-- A character class, as the inclusive ranges of runes it holds. -/
abbrev CharClass := List (Nat × Nat)

def CharClass.has (c : CharClass) (r : Nat) : Bool := c.any (fun p => p.1 ≤ r && r ≤ p.2)

/-- The class of the listed ASCII characters, as in `[JFMASOND]`. -/
def chars (s : String) : CharClass := s.data.map (fun c => (c.toNat, c.toNat))

/-- The classes `\d`, `\s`, `[A-Z]` and `.` (any rune but newline). -/
def digit : CharClass := [(0x30, 0x39)]
def space : CharClass := [(0x09, 0x0A), (0x0C, 0x0D), (0x20, 0x20)]
def upper : CharClass := [(0x41, 0x5A)]
def anyNotNL : CharClass := [(0, 0x09), (0x0B, 0x10FFFF)]

/-- One item of a pattern. -/
inductive Inst where
  /-- a class repeated greedily `min` to `max` times (`none`: unbounded) -/
  | rep (cls : CharClass) (min : Nat) (max : Option Nat)
  /-- the assertion `\A`, beginning of text -/
  | beginText
deriving DecidableEq, Repr

/-- The forms `x`, `x+`, `x*`, `x?`, `x{n}`, `x{m,n}` and a literal character. -/
def one (c : CharClass) : Inst := .rep c 1 (some 1)
def plus (c : CharClass) : Inst := .rep c 1 none
def star (c : CharClass) : Inst := .rep c 0 none
def quest (c : CharClass) : Inst := .rep c 0 (some 1)
def times (c : CharClass) (n : Nat) : Inst := .rep c n (some n)
def range (c : CharClass) (m n : Nat) : Inst := .rep c m (some n)
def lit (c : Char) : Inst := one [(c.toNat, c.toNat)]

/-- A compiled pattern: its items, and for each capture group, in order, the range
`[i, j)` of items inside its parentheses. -/
structure Regexp where
  prog : List Inst
  groups : List (Nat × Nat)
deriving DecidableEq, Repr

/-- The width of the rune at the head of `inp` if it is in the class. -/
def stepClass (cls : CharClass) (inp : List Nat) : Option Nat :=
  match inp with
  | [] => none
  | _ :: _ => if cls.has (DecodeRune inp).1 then some (DecodeRune inp).2 else none

/-- Greedy repetition with backtracking: having taken `k` runes (the bytes `acc`), take
one more if allowed and possible and go on; if the rest of the pattern (`cont`) then
fails, or no more can be taken, stop here provided `min ≤ k`.  The result lists the text
matched by each item, this one first.  `fuel` bounds the runes still to take; the
length of the input is enough. -/
def matchRep (cls : CharClass) (min : Nat) (max : Option Nat)
    (cont : List Nat → Option (List (List Nat))) :
    Nat → Nat → List Nat → List Nat → Option (List (List Nat))
  | 0, k, acc, inp => if min ≤ k then (cont inp).map (fun m => acc :: m) else none
  | fuel + 1, k, acc, inp =>
    let more : Option (List (List Nat)) :=
      if (match max with | some h => decide (k < h) | none => true) then
        match stepClass cls inp with
        | some w => matchRep cls min max cont fuel (k + 1) (acc ++ inp.take w) (inp.drop w)
        | none => none
      else none
    match more with
    | some m => some m
    | none => if min ≤ k then (cont inp).map (fun m => acc :: m) else none

/-- A match of the items `prog` beginning exactly at the head of `inp`; `atStart` tells
whether that is the beginning of the text. -/
def matchHere : List Inst → Bool → List Nat → Option (List (List Nat))
  | [], _, _ => some []
  | .beginText :: rest, atStart, inp =>
    if atStart then (matchHere rest atStart inp).map (fun m => [] :: m) else none
  | .rep cls min max :: rest, atStart, inp =>
    matchRep cls min max
      (fun inp' => matchHere rest (atStart && inp'.length == inp.length) inp')
      inp.length 0 [] inp

/-- The leftmost match: try the current position, then move on by one rune.  Returns the
bytes skipped before the match and the text matched by each item.  `fuel` bounds the
positions still to try. -/
def searchFrom (prog : List Inst) : Nat → Bool → List Nat → List Nat →
    Option (List Nat × List (List Nat))
  | 0, atStart, skipped, inp => (matchHere prog atStart inp).map (fun m => (skipped, m))
  | fuel + 1, atStart, skipped, inp =>
    match matchHere prog atStart inp with
    | some m => some (skipped, m)
    | none =>
      if inp.length = 0 then none
      else
        searchFrom prog fuel false (skipped ++ inp.take (DecodeRune inp).2)
          (inp.drop (DecodeRune inp).2)

/-- The leftmost match of the pattern in `b`. -/
def Regexp.search (re : Regexp) (b : List Nat) : Option (List Nat × List (List Nat)) :=
  searchFrom re.prog b.length true [] b

/-- The method `Regexp.Find`: the text of the leftmost match, `none` (nil) without one. -/
def Regexp.Find (re : Regexp) (b : List Nat) : Option (List Nat) :=
  (re.search b).map (fun r => r.2.flatten)

/-- The method `Regexp.FindSubmatch`: the leftmost match followed by the text of each
capture group, `none` (nil) without a match. -/
def Regexp.FindSubmatch (re : Regexp) (b : List Nat) : Option (List (List Nat)) :=
  (re.search b).map (fun r =>
    r.2.flatten :: re.groups.map (fun g => ((r.2.take g.2).drop g.1).flatten))

/-- Go's `len` of a slice that may be nil. -/
def len {α : Type} (s : Option (List α)) : Nat :=
  match s with
  | none => 0
  | some l => l.length

/-- `Boundary d k`: decoding `d` rune by rune from its start, a rune begins at the byte
offset `k` (or `d` ends there).  These are the offsets at which the search tries a
match. -/
inductive Boundary : List Nat → Nat → Prop where
  | start (d : List Nat) : Boundary d 0
  | next (d : List Nat) (k : Nat) :
      d ≠ [] → Boundary (d.drop (DecodeRune d).2) k → Boundary d ((DecodeRune d).2 + k)

/-- The pattern matches at the byte offset `k` of `d`, its items matching the texts `m`. -/
def Regexp.MatchesAt (re : Regexp) (d : List Nat) (k : Nat) (m : List (List Nat)) : Prop :=
  matchHere re.prog (k == 0) (d.drop k) = some m

/-- The match at offset `k` with texts `m` is the leftmost one: `k` is the first offset
tried at which the pattern matches. -/
def Regexp.LeftmostAt (re : Regexp) (d : List Nat) (k : Nat) (m : List (List Nat)) : Prop :=
  Boundary d k ∧ re.MatchesAt d k m
    ∧ ∀ j, j < k → Boundary d j → matchHere re.prog (j == 0) (d.drop j) = none

end regexp

/-! ## Go's `time.ParseInLocation`

After `time/format.go`.  A layout is kept as the sequence of chunks that `nextStdChunk`
cuts it into: each a literal prefix followed by one standard element, and a literal
suffix at the end.  The elements modelled are those that occur in the layouts of
`processors.go`. -/

namespace time

/-- The standard elements of a layout (`std...` in `format.go`), named by their reference
text. -/
inductive Std where
  /-- `Jan` -/
  | stdMonth
  /-- `01` -/
  | stdZeroMonth
  /-- `02` -/
  | stdZeroDay
  /-- `_2` -/
  | stdUnderDay
  /-- `15` -/
  | stdHour
  /-- `04` -/
  | stdZeroMinute
  /-- `05` -/
  | stdZeroSecond
  /-- `2006` -/
  | stdLongYear
  /-- `06` -/
  | stdYear
  /-- `MST` -/
  | stdTZ
  /-- `Z0700` -/
  | stdISO8601TZ
  /-- `Z07:00` -/
  | stdISO8601ColonTZ
  /-- `-0700` -/
  | stdNumTZ
  /-- `-07:00` -/
  | stdNumColonTZ
  /-- `.000` or `,000`, with the number of digits -/
  | stdFracSecond0 (digits : Nat)
  /-- `.999` or `,999`, with the number of digits -/
  | stdFracSecond9 (digits : Nat)
deriving DecidableEq, Repr

/-- A layout, cut into chunks. -/
structure Layout where
  chunks : List (List Nat × Std)
  suffix : List Nat
deriving DecidableEq, Repr

/-- The errors of `Parse`. -/
inductive ParseError where
  /-- `errBad`, or a literal of the layout that the value does not have -/
  | bad
  /-- a value out of range, by the name of the field -/
  | range (field : String)
  /-- text left after the layout is exhausted -/
  | extraText
  /-- the day does not exist in the month -/
  | dayOutOfRange
deriving DecidableEq, Repr

def isDigitByte (c : Nat) : Bool := 0x30 ≤ c && c ≤ 0x39

/-- The function `isDigit`: `s[i]` exists and is a decimal digit. -/
def isDigit (s : List Nat) (i : Nat) : Bool :=
  match s.get? i with
  | some c => isDigitByte c
  | none => false

/-- The function `commaOrPeriod`. -/
def commaOrPeriod (c : Nat) : Bool := c == 0x2E || c == 0x2C

/-- The function `cutspace`: `s` without its leading spaces. -/
def cutspace : List Nat → List Nat
  | [] => []
  | c :: s => if c = 0x20 then cutspace s else c :: s

/-- The function `skip`: removes the literal `pre` from the front of `value`, a run of
spaces counting as any other run of spaces.  `fuel` bounds the iterations; the length
of `pre` is enough. -/
def skip : Nat → List Nat → List Nat → Option (List Nat)
  | 0, value, pre => if pre.length = 0 then some value else none
  | fuel + 1, value, pre =>
    match pre with
    | [] => some value
    | p :: ptail =>
      if p = 0x20 then
        match value with
        | v :: _ => if v ≠ 0x20 then none else skip fuel (cutspace value) (cutspace pre)
        | [] => skip fuel (cutspace value) (cutspace pre)
      else
        match value with
        | [] => none
        | v :: vtail => if v ≠ p then none else skip fuel vtail ptail

/-- The digits at the front of `s` as a number, with the rest: `leadingInt`, whose
overflow check no caller below can trigger (at most nine digits are passed). -/
def leadingInt : Nat → List Nat → Nat × List Nat
  | x, [] => (x, [])
  | x, c :: s => if isDigitByte c then leadingInt (x * 10 + (c - 0x30)) s else (x, c :: s)

/-- The function `atoi`: an optional sign and digits, nothing else. -/
def atoi (s : List Nat) : Option Int :=
  let neg : Bool := decide (s.head? = some 0x2D)
  let s := if s.head? = some 0x2D ∨ s.head? = some 0x2B then s.tail else s
  let r := leadingInt 0 s
  if r.2.length > 0 then none
  else if neg then some (-(r.1 : Int)) else some (r.1 : Int)

/-- The function `getnum`: a one- or two-digit number, two digits required when `fixed`. -/
def getnum (s : List Nat) (fixed : Bool) : Option (Int × List Nat) :=
  if !isDigit s 0 then none
  else if !isDigit s 1 then
    if fixed then none
    else
      match s with
      | c :: t => some ((c : Int) - 0x30, t)
      | [] => none
  else
    match s with
    | c0 :: c1 :: t => some (((c0 : Int) - 0x30) * 10 + ((c1 : Int) - 0x30), t)
    | _ => none

/-- The function `match`: equality of two strings of the same length, ignoring case. -/
def matchFold : List Nat → List Nat → Bool
  | c1 :: s1, c2 :: s2 =>
    (c1 == c2 || ((c1 ||| 0x20) == (c2 ||| 0x20) && 0x61 ≤ (c1 ||| 0x20)
      && (c1 ||| 0x20) ≤ 0x7A)) && matchFold s1 s2
  | _, _ => true

/-- The function `lookup`: the index of the first name of `tab` that `val` begins with,
ignoring case, and the rest of `val`. -/
def lookup (tab : List (List Nat)) (val : List Nat) : Option (Nat × List Nat) :=
  match tab.findIdx? (fun v => decide (val.length ≥ v.length) && matchFold (val.take v.length) v) with
  | some i => some (i, val.drop (tab.getD i []).length)
  | none => none

def shortMonthNames : List (List Nat) :=
  [ascii "Jan", ascii "Feb", ascii "Mar", ascii "Apr", ascii "May", ascii "Jun",
   ascii "Jul", ascii "Aug", ascii "Sep", ascii "Oct", ascii "Nov", ascii "Dec"]

/-- The function `parseNanoseconds`: the nanoseconds of a fraction `.ddd` that takes up the
first `nbytes` bytes of `value`; the error is `bad` or a range error. -/
def parseNanoseconds (value : List Nat) (nbytes : Nat) : Except ParseError Int :=
  match value with
  | [] => .error .bad
  | c :: _ =>
    if !commaOrPeriod c then .error .bad
    else
      let nbytes := if nbytes > 10 then 10 else nbytes
      match atoi ((value.take nbytes).drop 1) with
      | none => .error .bad
      | some ns =>
        if ns < 0 then .error (.range "fractional second")
        else .ok (ns * 10 ^ (10 - nbytes))

/-- The function `parseSignedOffset`: the length of a leading `+hh` or `-hh` with
`hh ≤ 23`, or 0. -/
def parseSignedOffset (value : List Nat) : Nat :=
  match value with
  | [] => 0
  | sign :: rest =>
    if sign ≠ 0x2D ∧ sign ≠ 0x2B then 0
    else
      let r := leadingInt 0 rest
      if r.2.length = rest.length then 0
      else if r.1 > 23 then 0
      else value.length - r.2.length

/-- The count of upper-case letters at the front of `value`, up to `limit`. -/
def countUpper : Nat → List Nat → Nat
  | 0, _ => 0
  | _ + 1, [] => 0
  | limit + 1, c :: s => if c < 0x41 ∨ 0x5A < c then 0 else countUpper limit s + 1

/-- The function `parseTimeZone`: the length of the time zone abbreviation at the front of
`value`, if there is one. -/
def parseTimeZone (value : List Nat) : Option Nat :=
  if value.length < 3 then none
  else if value.length ≥ 4 ∧ (value.take 4 = ascii "ChST" ∨ value.take 4 = ascii "MeST") then
    some 4
  else if value.take 3 = ascii "GMT" then
    some (if (value.drop 3).length = 0 then 3 else 3 + parseSignedOffset (value.drop 3))
  else if value.head? = some 0x2B ∨ value.head? = some 0x2D then
    if parseSignedOffset value > 0 then some (parseSignedOffset value) else none
  else
    match countUpper 6 value with
    | 5 => if value.get? 4 = some 0x54 then some 5 else none
    | 4 => if value.get? 3 = some 0x54 ∨ value.take 4 = ascii "WITA" then some 4 else none
    | 3 => some 3
    | _ => none

/-- The variables of `parse` ("Time being constructed"). -/
structure Fields where
  year : Int
  month : Int
  day : Int
  hour : Int
  min : Int
  sec : Int
  nsec : Int
  z : Option Location
  zoneOffset : Int
  zoneName : List Nat
deriving DecidableEq, Repr

/-- Their initial values. -/
def Fields.init : Fields :=
  { year := 0, month := -1, day := -1, hour := 0, min := 0, sec := 0, nsec := 0,
    z := none, zoneOffset := -1, zoneName := [] }

/-- The numeric zone cases of `parse`: a sign, hours and minutes, with a colon between
them when `colon`; the offset in seconds and the rest of the value. -/
def parseNumTZ (colon : Bool) (value : List Nat) : Option (Int × List Nat) :=
  let need := if colon then 6 else 5
  if value.length < need then none
  else if colon ∧ value.get? 3 ≠ some 0x3A then none
  else
    let sign := value.headD 0
    let hour := (value.drop 1).take 2
    let min := if colon then (value.drop 4).take 2 else (value.drop 3).take 2
    match getnum hour true, getnum min true with
    | some (hr, _), some (mm, _) =>
      let zoneOffset := (hr * 60 + mm) * 60
      if sign = 0x2B then some (zoneOffset, value.drop need)
      else if sign = 0x2D then some (-zoneOffset, value.drop need)
      else none
    | _, _ => none

/-- One case of the `switch std & stdMask` of `parse`: reads the element `std` at the front
of `value`; `next` is the element that follows in the layout, if any. -/
def parseStd (std : Std) (next : Option Std) (f : Fields) (value : List Nat) :
    Except ParseError (Fields × List Nat) :=
  match std with
  | .stdYear =>
    if value.length < 2 then .error .bad
    else
      match atoi (value.take 2) with
      | none => .error .bad
      | some year =>
        .ok ({ f with year := if year ≥ 69 then year + 1900 else year + 2000 }, value.drop 2)
  | .stdLongYear =>
    if value.length < 4 ∨ !isDigit value 0 then .error .bad
    else
      match atoi (value.take 4) with
      | none => .error .bad
      | some year => .ok ({ f with year := year }, value.drop 4)
  | .stdMonth =>
    match lookup shortMonthNames value with
    | none => .error .bad
    | some (i, value) => .ok ({ f with month := (i : Int) + 1 }, value)
  | .stdZeroMonth =>
    match getnum value true with
    | none => .error .bad
    | some (month, value) =>
      if month ≤ 0 ∨ 12 < month then .error (.range "month")
      else .ok ({ f with month := month }, value)
  | .stdZeroDay =>
    match getnum value true with
    | none => .error .bad
    | some (day, value) => .ok ({ f with day := day }, value)
  | .stdUnderDay =>
    let value := match value with
      | c :: t => if c = 0x20 then t else c :: t
      | [] => []
    match getnum value false with
    | none => .error .bad
    | some (day, value) => .ok ({ f with day := day }, value)
  | .stdHour =>
    match getnum value false with
    | none => .error .bad
    | some (hour, value) =>
      if hour < 0 ∨ 24 ≤ hour then .error (.range "hour")
      else .ok ({ f with hour := hour }, value)
  | .stdZeroMinute =>
    match getnum value true with
    | none => .error .bad
    | some (min, value) =>
      if min < 0 ∨ 60 ≤ min then .error (.range "minute")
      else .ok ({ f with min := min }, value)
  | .stdZeroSecond =>
    match getnum value true with
    | none => .error .bad
    | some (sec, value) =>
      if sec < 0 ∨ 60 ≤ sec then .error (.range "second")
      else
        let f := { f with sec := sec }
        let fracFollows : Bool := match value with
          | c0 :: _ :: _ => commaOrPeriod c0 && isDigit value 1
          | _ => false
        let fracInLayout : Bool := match next with
          | some (.stdFracSecond0 _) => true
          | some (.stdFracSecond9 _) => true
          | _ => false
        if fracFollows ∧ !fracInLayout then
          let n := 2 + ((value.drop 2).takeWhile isDigitByte).length
          match parseNanoseconds value n with
          | .error e => .error e
          | .ok nsec => .ok ({ f with nsec := nsec }, value.drop n)
        else .ok (f, value)
  | .stdISO8601TZ | .stdISO8601ColonTZ | .stdNumTZ | .stdNumColonTZ =>
    if (std = .stdISO8601TZ ∨ std = .stdISO8601ColonTZ) ∧ value.head? = some 0x5A then
      .ok ({ f with z := some UTC }, value.drop 1)
    else
      match parseNumTZ (decide (std = .stdISO8601ColonTZ ∨ std = .stdNumColonTZ)) value with
      | none => .error .bad
      | some (zoneOffset, value) => .ok ({ f with zoneOffset := zoneOffset }, value)
  | .stdTZ =>
    if value.length ≥ 3 ∧ value.take 3 = ascii "UTC" then
      .ok ({ f with z := some UTC }, value.drop 3)
    else
      match parseTimeZone value with
      | none => .error .bad
      | some n => .ok ({ f with zoneName := value.take n }, value.drop n)
  | .stdFracSecond0 digits =>
    let ndigit := 1 + digits
    if value.length < ndigit then .error .bad
    else
      match parseNanoseconds value ndigit with
      | .error e => .error e
      | .ok nsec => .ok ({ f with nsec := nsec }, value.drop ndigit)
  | .stdFracSecond9 _ =>
    let omitted : Bool := match value with
      | c0 :: c1 :: _ => !commaOrPeriod c0 || !isDigitByte c1
      | _ => true
    if omitted then .ok (f, value)
    else
      let n := 1 + ((value.drop 1).takeWhile isDigitByte).length
      match parseNanoseconds value n with
      | .error e => .error e
      | .ok nsec => .ok ({ f with nsec := nsec }, value.drop n)

/-- The loop of `parse` ("each iteration processes one std value"): skips the literal
prefix of each chunk and reads its element; at the end skips the suffix and requires the
value to be used up. -/
def parseLoop (suffix : List Nat) :
    List (List Nat × Std) → Fields → List Nat → Except ParseError Fields
  | [], f, value =>
    match skip suffix.length value suffix with
    | none => .error .bad
    | some value => if value.length ≠ 0 then .error .extraText else .ok f
  | (pre, std) :: rest, f, value =>
    match skip pre.length value pre with
    | none => .error .bad
    | some value =>
      match parseStd std (rest.head?.map (fun c => c.2)) f value with
      | .error e => .error e
      | .ok (f, value) => parseLoop suffix rest f value

/-- The end of `parse`: the time that the fields read denote, given the location to
assume without zone information and the location whose zones are tried first. -/
def buildTime (f : Fields) (defaultLocation loc : Location) : Except ParseError Time :=
  let month := if f.month < 0 then 1 else f.month
  let day := if f.day < 0 then 1 else f.day
  if day < 1 ∨ day > daysIn month f.year then .error .dayOutOfRange
  else
    match f.z with
    | some z => .ok (Date f.year month day f.hour f.min f.sec f.nsec z)
    | none =>
      if f.zoneOffset ≠ -1 then
        let t := Date f.year month day f.hour f.min f.sec f.nsec UTC
        let t := { t with sec := t.sec - f.zoneOffset }
        let z := loc.lookup t.sec
        if z.offset = f.zoneOffset ∧ (f.zoneName = [] ∨ z.name = f.zoneName) then
          .ok { t with loc := loc }
        else .ok { t with loc := FixedZone f.zoneName f.zoneOffset }
      else if f.zoneName ≠ [] then
        let t := Date f.year month day f.hour f.min f.sec f.nsec UTC
        match loc.lookupName f.zoneName t.sec with
        | some offset => .ok { t with sec := t.sec - offset, loc := loc }
        | none =>
          let offset : Int :=
            if f.zoneName.length > 3 ∧ f.zoneName.take 3 = ascii "GMT" then
              (atoi (f.zoneName.drop 3)).getD 0 * 3600
            else 0
          .ok { t with loc := FixedZone f.zoneName offset }
      else .ok (Date f.year month day f.hour f.min f.sec f.nsec defaultLocation)

/-- The function `parse`. -/
def parse (layout : Layout) (value : List Nat) (defaultLocation loc : Location) :
    Except ParseError Time :=
  match parseLoop layout.suffix layout.chunks Fields.init value with
  | .error e => .error e
  | .ok f => buildTime f defaultLocation loc

/-- The function `time.ParseInLocation`. -/
def ParseInLocation (layout : Layout) (value : List Nat) (loc : Location) :
    Except ParseError Time :=
  parse layout value loc loc

/-- The element reads a year. -/
def Std.isYear : Std → Bool
  | .stdYear | .stdLongYear => true
  | _ => false

/-- The element reads a time zone. -/
def Std.isZone : Std → Bool
  | .stdTZ | .stdISO8601TZ | .stdISO8601ColonTZ | .stdNumTZ | .stdNumColonTZ => true
  | _ => false

/-- The layout has no year element. -/
def Layout.yearless (l : Layout) : Bool := l.chunks.all (fun c => !c.2.isYear)

/-- The layout has no time zone element ("zone-naive"). -/
def Layout.zoneNaive (l : Layout) : Bool := l.chunks.all (fun c => !c.2.isZone)

/-- The fields read so far are within the ranges that `Date` takes without normalising:
`parse` rejects the others as it reads them. -/
def Fields.inRange (f : Fields) : Prop :=
  0 ≤ f.hour ∧ f.hour < 24 ∧ 0 ≤ f.min ∧ f.min < 60 ∧ 0 ≤ f.sec ∧ f.sec < 60
    ∧ 0 ≤ f.nsec ∧ f.nsec < 1000000000 ∧ (f.month = -1 ∨ (1 ≤ f.month ∧ f.month ≤ 12))

end time

/-! ## Go's `float64` and `strconv.ParseFloat`

A finite `float64` is an integer multiple of `2^-1074` whose magnitude has at most 53
significant bits; it is kept as that integer multiple (`units`).  Arithmetic is exact
arithmetic followed by IEEE 754 rounding to nearest, ties to even, which is also how
`ParseFloat` is specified to round. -/

namespace strconv

/-- The number of bits of `n`, by halving; `fuel` bounds the halvings, `n` is enough. -/
def bitLenAux : Nat → Nat → Nat
  | 0, _ => 0
  | fuel + 1, n => if n = 0 then 0 else bitLenAux fuel (n / 2) + 1

def bitLen (n : Nat) : Nat := bitLenAux n n

/-- A finite `float64`, as its value in units of `2^-1074`. -/
structure float64 where
  units : Int
deriving DecidableEq, Repr

/-- The magnitude `n / d` (in units), rounded to a whole number of units with at most 53
significant bits: nearest, ties to even. -/
def roundMag (n d : Nat) : Nat :=
  let shift := bitLen (n / d) - 53
  let d := d * 2 ^ shift
  let q := n / d
  let r := n % d
  let q := if 2 * r > d ∨ (2 * r = d ∧ q % 2 = 1) then q + 1 else q
  q * 2 ^ shift

/-- The float64 nearest to `n / d` units; `none` when it is infinite (magnitude `2^1024`
or more after rounding). -/
def roundUnits (n : Int) (d : Nat) : Option float64 :=
  let m := roundMag n.natAbs d
  if m ≥ 2 ^ 2098 then none
  else some ⟨if n < 0 then -(m : Int) else (m : Int)⟩

/-- The conversion `float64(n)` of an integer. -/
def float64.ofInt (n : Int) : float64 := (roundUnits (n * 2 ^ 1074) 1).getD ⟨0⟩

/-- The difference `a - b`, which is finite whenever it is taken below. -/
def float64.sub (a b : float64) : float64 := (roundUnits (a.units - b.units) 1).getD ⟨0⟩

/-- The product `a * b`; `none` when it is infinite. -/
def float64.mul (a b : float64) : Option float64 := roundUnits (a.units * b.units) (2 ^ 1074)

/-- The conversion `int64(x)`: truncation toward zero.  When the value does not fit an
`int64` or is infinite, the Go specification leaves the result to the implementation:
that result is the parameter `impl` (on amd64 the least `int64`). -/
def int64 (impl : Int) (x : Option float64) : Int :=
  match x with
  | none => impl
  | some x =>
    let t := Int.tdiv x.units (2 ^ 1074)
    if -9223372036854775808 ≤ t ∧ t ≤ 9223372036854775807 then t else impl

/-- The errors of `ParseFloat`. -/
inductive NumError where
  | ErrSyntax
  | ErrRange
deriving DecidableEq, Repr

/-- The value of a string of decimal digits. -/
def digitsVal (ds : List Nat) : Nat := ds.foldl (fun x c => x * 10 + (c - 0x30)) 0

/-- The function `strconv.ParseFloat(s, 64)` on decimal numbers `<digits>.<digits>`, the
only strings the numeric-epoch pattern captures: the nearest float64, or `ErrRange` when
that is infinite.  Any other string is a syntax error here (Go accepts further forms:
signs, exponents, hexadecimal, `inf`, `nan`). -/
def ParseFloat (s : List Nat) : Except NumError float64 :=
  let ip := s.takeWhile time.isDigitByte
  match s.dropWhile time.isDigitByte with
  | c :: fp =>
    if c = 0x2E ∧ ip ≠ [] ∧ fp ≠ [] ∧ fp.all time.isDigitByte then
      match roundUnits ((digitsVal (ip ++ fp) : Int) * 2 ^ 1074) (10 ^ fp.length) with
      | some x => .ok x
      | none => .error .ErrRange
    else .error .ErrSyntax
  | [] => .error .ErrSyntax

end strconv

/-! ## `timegrinder/processors.go` -/

namespace timegrinder

open regexp time

/-- The type `processor`: a compiled pattern and the layout that parses what it matches.
The field `format`, a layout string in the source, is kept as the chunks of that string. -/
structure processor where
  rxp : Regexp
  format : Layout
deriving DecidableEq, Repr

/-- The method `(p *processor) Format`. -/
def processor.Format (p : processor) : Layout := p.format

/-- The layout constants that `processors.go` uses and another file of the package
declares. -/
structure Formats where
  APACHE_FORMAT : Layout
  APACHE_NO_TZ_FORMAT : Layout
  NGINX_FORMAT : Layout
  SYSLOG_FORMAT : Layout
  SYSLOG_FILE_FORMAT : Layout
  DPKG_MSG_FORMAT : Layout
  CUSTOM1_MILLI_MSG_FORMAT : Layout
  ZONELESS_RFC3339_FORMAT : Layout
  SYSLOG_VARIANT : Layout

/-- The classes `[JFMASOND]`, `[anebriyunlgpctov]` and `[\-|\+]`. -/
def monthInitial : CharClass := chars "JFMASOND"
def monthLetters : CharClass := chars "anebriyunlgpctov"
def signOrBar : CharClass := chars "-|+"

/-- The items of `\d\d:\d\d:\d\d`. -/
def clockItems : List Inst :=
  [one digit, one digit, lit ':', one digit, one digit, lit ':', one digit, one digit]

/-- The chunks of `15:04:05` after a literal `pre`. -/
def clockChunks (pre : String) : List (List Nat × Std) :=
  [(ascii pre, .stdHour), (ascii ":", .stdZeroMinute), (ascii ":", .stdZeroSecond)]

/-- Pattern `[JFMASOND][anebriyunlgpctov]+\s+\d{1,2}\s+\d\d:\d\d:\d\d\s+\d{4}`,
layout `Jan _2 15:04:05 2006`. -/
def NewAnsiCProcessor : processor :=
  { rxp := ⟨[one monthInitial, plus monthLetters, plus space, range digit 1 2, plus space]
      ++ clockItems ++ [plus space, times digit 4], []⟩
    format := ⟨[([], .stdMonth), (ascii " ", .stdUnderDay)] ++ clockChunks " "
      ++ [(ascii " ", .stdLongYear)], []⟩ }

/-- Pattern `[JFMASOND][anebriyunlgpctov]+\s+\d{1,2}\s+\d\d:\d\d:\d\d\s+[A-Z]{3}\s+\d{4}`,
layout `Jan _2 15:04:05 MST 2006`. -/
def NewUnixProcessor : processor :=
  { rxp := ⟨[one monthInitial, plus monthLetters, plus space, range digit 1 2, plus space]
      ++ clockItems ++ [plus space, times upper 3, plus space, times digit 4], []⟩
    format := ⟨[([], .stdMonth), (ascii " ", .stdUnderDay)] ++ clockChunks " "
      ++ [(ascii " ", .stdTZ), (ascii " ", .stdLongYear)], []⟩ }

/-- Pattern
`[JFMASOND][anebriyunlgpctov]+\s+\d{2}\s+\d\d:\d\d:\d\d\s+[\-|\+]\d{4}\s+\d{4}`,
layout `Jan _2 15:04:05 -0700 2006`. -/
def NewRubyProcessor : processor :=
  { rxp := ⟨[one monthInitial, plus monthLetters, plus space, times digit 2, plus space]
      ++ clockItems ++ [plus space, one signOrBar, times digit 4, plus space, times digit 4],
      []⟩
    format := ⟨[([], .stdMonth), (ascii " ", .stdUnderDay)] ++ clockChunks " "
      ++ [(ascii " ", .stdNumTZ), (ascii " ", .stdLongYear)], []⟩ }

/-- Pattern `\d{2}\s[JFMASOND][anebriyunlgpctov]+\s+\d{2}\s\d\d:\d\d\s[A-Z]{3}`,
layout `time.RFC822`, `02 Jan 06 15:04 MST`. -/
def NewRFC822Processor : processor :=
  { rxp := ⟨[times digit 2, one space, one monthInitial, plus monthLetters, plus space,
      times digit 2, one space, one digit, one digit, lit ':', one digit, one digit,
      one space, times upper 3], []⟩
    format := ⟨[([], .stdZeroDay), (ascii " ", .stdMonth), (ascii " ", .stdYear),
      (ascii " ", .stdHour), (ascii ":", .stdZeroMinute), (ascii " ", .stdTZ)], []⟩ }

/-- Pattern `\d{2}\s[JFMASOND][anebriyunlgpctov]+\s+\d{2}\s\d\d:\d\d\s[\-|\+]\d{4}`,
layout `time.RFC822Z`, `02 Jan 06 15:04 -0700`. -/
def NewRFC822ZProcessor : processor :=
  { rxp := ⟨[times digit 2, one space, one monthInitial, plus monthLetters, plus space,
      times digit 2, one space, one digit, one digit, lit ':', one digit, one digit,
      one space, one signOrBar, times digit 4], []⟩
    format := ⟨[([], .stdZeroDay), (ascii " ", .stdMonth), (ascii " ", .stdYear),
      (ascii " ", .stdHour), (ascii ":", .stdZeroMinute), (ascii " ", .stdNumTZ)], []⟩ }

/-- Pattern `\d{2}\-[JFMASOND][anebriyunlgpctov]+\-\d{2}\s\d\d:\d\d:\d\d\s[A-Z]{3}`,
layout `02-Jan-06 15:04:05 MST`. -/
def NewRFC850Processor : processor :=
  { rxp := ⟨[times digit 2, lit '-', one monthInitial, plus monthLetters, lit '-',
      times digit 2, one space] ++ clockItems ++ [one space, times upper 3], []⟩
    format := ⟨[([], .stdZeroDay), (ascii "-", .stdMonth), (ascii "-", .stdYear)]
      ++ clockChunks " " ++ [(ascii " ", .stdTZ)], []⟩ }

/-- Pattern `\d{2} [JFMASOND][anebriyunlgpctov]+ \d{4}\s\d\d:\d\d:\d\d\s[A-Z]{3}`,
layout `02 Jan 2006 15:04:05 MST`. -/
def NewRFC1123Processor : processor :=
  { rxp := ⟨[times digit 2, lit ' ', one monthInitial, plus monthLetters, lit ' ',
      times digit 4, one space] ++ clockItems ++ [one space, times upper 3], []⟩
    format := ⟨[([], .stdZeroDay), (ascii " ", .stdMonth), (ascii " ", .stdLongYear)]
      ++ clockChunks " " ++ [(ascii " ", .stdTZ)], []⟩ }

/-- Pattern `\d{2} [JFMASOND][anebriyunlgpctov]+ \d{4}\s\d\d:\d\d:\d\d\s[\-|\+]\d{4}`,
layout `02 Jan 2006 15:04:05 -0700`. -/
def NewRFC1123ZProcessor : processor :=
  { rxp := ⟨[times digit 2, lit ' ', one monthInitial, plus monthLetters, lit ' ',
      times digit 4, one space] ++ clockItems ++ [one space, one signOrBar, times digit 4],
      []⟩
    format := ⟨[([], .stdZeroDay), (ascii " ", .stdMonth), (ascii " ", .stdLongYear)]
      ++ clockChunks " " ++ [(ascii " ", .stdNumTZ)], []⟩ }

/-- The items of `\d{4}-\d{2}-\d{2}T`. -/
def isoDateItems : List Inst :=
  [times digit 4, lit '-', times digit 2, lit '-', times digit 2, lit 'T']

/-- The chunks of `2006-01-02T15:04:05`. -/
def isoChunks : List (List Nat × Std) :=
  [([], .stdLongYear), (ascii "-", .stdZeroMonth), (ascii "-", .stdZeroDay)] ++ clockChunks "T"

/-- Pattern `\d{4}-\d{2}-\d{2}T\d\d:\d\d:\d\dZ`,
layout `time.RFC3339`, `2006-01-02T15:04:05Z07:00`. -/
def NewRFC3339Processor : processor :=
  { rxp := ⟨isoDateItems ++ clockItems ++ [lit 'Z'], []⟩
    format := ⟨isoChunks ++ [([], .stdISO8601ColonTZ)], []⟩ }

/-- Pattern `\d{4}-\d{2}-\d{2}T\d\d:\d\d:\d\d.\d+Z` (the period is not escaped),
layout `time.RFC3339Nano`, `2006-01-02T15:04:05.999999999Z07:00`. -/
def NewRFC3339NanoProcessor : processor :=
  { rxp := ⟨isoDateItems ++ clockItems ++ [one anyNotNL, plus digit, lit 'Z'], []⟩
    format := ⟨isoChunks ++ [([], .stdFracSecond9 9), ([], .stdISO8601ColonTZ)], []⟩ }

/-- Pattern `\d{1,2}/[JFMASOND][anebriyunlgpctov]+/\d{4}:\d\d:\d\d:\d\d\s[\-|\+]\d{4}`,
layout `APACHE_FORMAT`. -/
def NewApacheProcessor (c : Formats) : processor :=
  { rxp := ⟨[range digit 1 2, lit '/', one monthInitial, plus monthLetters, lit '/',
      times digit 4, lit ':'] ++ clockItems ++ [one space, one signOrBar, times digit 4], []⟩
    format := c.APACHE_FORMAT }

/-- Pattern `\d{1,2}/[JFMASOND][anebriyunlgpctov]+/\d{4}:\d\d:\d\d:\d\d`,
layout `APACHE_NO_TZ_FORMAT`. -/
def NewApacheNoTZProcessor (c : Formats) : processor :=
  { rxp := ⟨[range digit 1 2, lit '/', one monthInitial, plus monthLetters, lit '/',
      times digit 4, lit ':'] ++ clockItems, []⟩
    format := c.APACHE_NO_TZ_FORMAT }

/-- Pattern `\d{4}-\d{2}-\d{2}T\d\d:\d\d:\d+\.?\d*[-+]\d\d:\d\d`,
layout `SYSLOG_FILE_FORMAT`. -/
def NewSyslogFileProcessor (c : Formats) : processor :=
  { rxp := ⟨isoDateItems ++ [one digit, one digit, lit ':', one digit, one digit, lit ':',
      plus digit, quest (chars "."), star digit, one (chars "-+"), one digit, one digit,
      lit ':', one digit, one digit], []⟩
    format := c.SYSLOG_FILE_FORMAT }

/-- Pattern `(?P<ts>\d\d\d\d-\d\d-\d\d\s\d\d:\d\d:\d\d)`, layout `DPKG_MSG_FORMAT`. -/
def NewDPKGProcessor (c : Formats) : processor :=
  { rxp := ⟨[one digit, one digit, one digit, one digit, lit '-', one digit, one digit,
      lit '-', one digit, one digit, one space] ++ clockItems, [(0, 19)]⟩
    format := c.DPKG_MSG_FORMAT }

/-- Pattern `(?P<ts>\d\d-\d\d-\d\d\d\d\s\d\d:\d\d:\d\d\.\d)`,
layout `CUSTOM1_MILLI_MSG_FORMAT`. -/
def NewCustom1MilliProcessor (c : Formats) : processor :=
  { rxp := ⟨[one digit, one digit, lit '-', one digit, one digit, lit '-', one digit,
      one digit, one digit, one digit, one space] ++ clockItems ++ [lit '.', one digit],
      [(0, 21)]⟩
    format := c.CUSTOM1_MILLI_MSG_FORMAT }

/-- Pattern `(?P<ts>\d{4}\/\d{2}\/\d{2}\s+\d{2}:\d{2}:\d{2})`, layout `NGINX_FORMAT`. -/
def NewNGINXProcessor (c : Formats) : processor :=
  { rxp := ⟨[times digit 4, lit '/', times digit 2, lit '/', times digit 2, plus space,
      times digit 2, lit ':', times digit 2, lit ':', times digit 2], [(0, 11)]⟩
    format := c.NGINX_FORMAT }

/-- Pattern `(?P<ts>\d{4}-\d{2}-\d{2}T\d{2}:\d{2}:\d{2}\.*\d*)`,
layout `ZONELESS_RFC3339_FORMAT`. -/
def NewZonelessRFC3339 (c : Formats) : processor :=
  { rxp := ⟨isoDateItems ++ [times digit 2, lit ':', times digit 2, lit ':', times digit 2,
      star (chars "."), star digit], [(0, 13)]⟩
    format := c.ZONELESS_RFC3339_FORMAT }

/-- Pattern `[JFMASOND][anebriyunlgpctov]+\s+\d{2}\s+\d\d\d\d\s+\d\d:\d\d:\d\d`,
layout `SYSLOG_VARIANT`. -/
def NewSyslogVariant (c : Formats) : processor :=
  { rxp := ⟨[one monthInitial, plus monthLetters, plus space, times digit 2, plus space,
      one digit, one digit, one digit, one digit, plus space] ++ clockItems, []⟩
    format := c.SYSLOG_VARIANT }

/-- The type `syslogProcessor`. -/
structure syslogProcessor where
  toProcessor : processor
deriving DecidableEq, Repr

/-- Pattern `[JFMASOND][anebriyunlgpctov]+\s+\d+\s+\d\d:\d\d:\d\d`,
layout `SYSLOG_FORMAT`. -/
def NewSyslogProcessor (c : Formats) : syslogProcessor :=
  { toProcessor :=
    { rxp := ⟨[one monthInitial, plus monthLetters, plus space, plus digit, plus space]
        ++ clockItems, []⟩
      format := c.SYSLOG_FORMAT } }

/-- The type `unixProcessor`. -/
structure unixProcessor where
  re : Regexp
  format : String
deriving DecidableEq, Repr

/-- Pattern `(\A\d+\.\d+)\s`. -/
def NewUnixMilliTimeProcessor : unixProcessor :=
  { re := ⟨[.beginText, plus digit, lit '.', plus digit, one space], [(0, 4)]⟩
    format := "(\\A\\d+\\.\\d+)\\s" }

/-- The method `(up *unixProcessor) Format`. -/
def unixProcessor.Format (up : unixProcessor) : String := up.format

/-- The method `(a processor) Extract`. -/
def processor.Extract (a : processor) (d : List Nat) (loc : Location) : Time × Bool :=
  let sub := a.rxp.Find d
  if len sub = 0 then (Time.zero, false)
  else
    match ParseInLocation a.format (sub.getD []) loc with
    | .error _ => (Time.zero, false)
    | .ok t => (t, true)

/-- The method `(sp syslogProcessor) Extract`; `now` is what `time.Now()` returns at the
call. -/
def syslogProcessor.Extract (sp : syslogProcessor) (now : Time) (d : List Nat)
    (loc : Location) : Time × Bool :=
  let r := sp.toProcessor.Extract d loc
  if !r.2 then (Time.zero, false)
  else if r.1.Year = 0 then (r.1.AddDate now.Year 0 0, true)
  else (r.1, true)

/-- The constant `1000000000.0`. -/
def billion : strconv.float64 := ⟨1000000000 * 2 ^ 1074⟩

/-- The method `(up unixProcessor) Extract`; `impl` is the `int64` that the platform gives
for a `float64` out of the range of `int64`. -/
def unixProcessor.Extract (up : unixProcessor) (impl : Int) (d : List Nat) (loc : Location) :
    Time × Bool :=
  let subs := up.re.FindSubmatch d
  if len subs < 2 ∨ ((subs.getD []).getD 1 []).length = 0 then (Time.zero, false)
  else
    match strconv.ParseFloat ((subs.getD []).getD 1 []) with
    | .error _ => (Time.zero, false)
    | .ok s =>
      let sec := strconv.int64 impl (some s)
      let nsec := strconv.int64 impl ((s.sub (strconv.float64.ofInt sec)).mul billion)
      ((Unix sec nsec).In loc, true)

/-- The interface `Processor`, as the three types of this file that implement it. -/
inductive Processor where
  | standard (p : processor)
  | syslog (sp : syslogProcessor)
  | unix (up : unixProcessor)

/-- The method `Extract` of the interface, by dynamic dispatch. -/
def Processor.Extract (now : Time) (impl : Int) (p : Processor) (d : List Nat)
    (loc : Location) : Time × Bool :=
  match p with
  | .standard p => p.Extract d loc
  | .syslog sp => sp.Extract now d loc
  | .unix up => up.Extract impl d loc

/-- The processor misses on `d`: its recognition pattern does not match `d`, or what the
pattern matched fails to parse (with the layout, in `loc`; for the numeric-epoch
processor, as a floating-point number). -/
def Processor.misses (p : Processor) (d : List Nat) (loc : Location) : Prop :=
  match p with
  | .standard a =>
    a.rxp.Find d = none
      ∨ ∃ sub e, a.rxp.Find d = some sub ∧ ParseInLocation a.format sub loc = .error e
  | .syslog sp =>
    sp.toProcessor.rxp.Find d = none
      ∨ ∃ sub e, sp.toProcessor.rxp.Find d = some sub
          ∧ ParseInLocation sp.toProcessor.format sub loc = .error e
  | .unix up =>
    up.re.FindSubmatch d = none
      ∨ ∃ subs e, up.re.FindSubmatch d = some subs
          ∧ strconv.ParseFloat (subs.getD 1 []) = .error e

/-- The line `d` begins with a token `<digits>.<digits>`: one or more decimal digits, a
period, one or more decimal digits. -/
def beginsWithEpochToken (d : List Nat) : Bool :=
  (d.takeWhile isDigitByte).length ≠ 0
    && (d.dropWhile isDigitByte).head? == some 0x2E
    && (((d.dropWhile isDigitByte).drop 1).takeWhile isDigitByte).length ≠ 0

end timegrinder

/-! ## `ingesters/fileFollow/config.go` -/

namespace fileFollow

def ErrInvalidStateStoreLocation : String := "Empty state storage location"

def ErrTimestampDelimiterMissingOverride : String :=
  "Timestamp delimiting requires a defined timestamp override"

structure follower where
  Base_Directory : String
  File_Filter : String
  Tag_Name : String
  Ignore_Timestamps : Bool
  Assume_Local_Timezone : Bool
  Recursive : Bool
  Ignore_Line_Prefix : List String
  Timestamp_Format_Override : String
  Timestamp_Delimited : Bool
  Timezone_Override : String
  Preprocessor : List String

/-- The results of the calls `verifyConfig` makes outside this file. -/
structure Externals where
  /-- `config.IngestConfig.Verify()` on the embedded global section -/
  ingestVerify : error
  /-- `processors.ProcessorConfig.Validate()` -/
  preprocessorValidate : error
  /-- `ingest.FORBIDDEN_TAG_SET` -/
  FORBIDDEN_TAG_SET : String
  /-- `time.LoadLocation`, of which only the error is used -/
  LoadLocation : String → error
  /-- `processors.ProcessorConfig.CheckProcessors` -/
  CheckProcessors : List String → error

/-- The `global` section; `config.IngestConfig` is kept by the result of its `Verify`. -/
structure global where
  Max_Files_Watched : Int
  State_Store_Location : String

/-- The type `cfgType`.  The `Follower` map is given as the list of its entries in the
order in which `range` visits them, an order Go leaves unspecified. -/
structure cfgType where
  toGlobal : global
  Follower : List (String × follower)

/-- The method `(g *global) Verify`. -/
def global.Verify (x : Externals) (g : global) : error :=
  match x.ingestVerify with
  | some e => some e
  | none => if g.State_Store_Location = "" then some ErrInvalidStateStoreLocation else none

/-- One iteration of the `range c.Follower` loop of `verifyConfig`: the error it returns
with, or `none` when the loop goes on to the next follower. -/
def verifyFollower (x : Externals) (k : String) (v : follower) : error :=
  if v.Base_Directory.length = 0 then
    some ("No Base-Directory provided for " ++ k)
  else
    let Tag_Name := if v.Tag_Name.length = 0 then "default" else v.Tag_Name
    if v.Timestamp_Delimited && v.Timestamp_Format_Override == "" then
      some ErrTimestampDelimiterMissingOverride
    else if ContainsAny Tag_Name x.FORBIDDEN_TAG_SET then
      some ("Invalid characters in the Tag-Name for " ++ k)
    else
      let tz : error :=
        if v.Timezone_Override ≠ "" then
          if v.Assume_Local_Timezone then
            some ("Cannot specify Assume-Local-Timezone and Timezone-Override in the same follower "
              ++ k)
          else
            match x.LoadLocation v.Timezone_Override with
            | some e => some ("Invalid timezone override " ++ v.Timezone_Override
                ++ " in follower " ++ k ++ ": " ++ e)
            | none => none
        else none
      match tz with
      | some e => some e
      | none =>
        match x.CheckProcessors v.Preprocessor with
        | some e => some ("Follower " ++ k ++ " preprocessor invalid: " ++ e)
        | none => none

/-- The loop `for k, v := range c.Follower` of `verifyConfig`. -/
def verifyFollowers (x : Externals) : List (String × follower) → error
  | [] => none
  | (k, v) :: rest =>
    match verifyFollower x k v with
    | some e => some e
    | none => verifyFollowers x rest

/-- The function `verifyConfig`, as the error it returns. -/
def verifyConfig (x : Externals) (c : cfgType) : error :=
  match c.toGlobal.Verify x with
  | some e => some e
  | none =>
    if c.Follower.length = 0 then some "No Followers specified"
    else
      match x.preprocessorValidate with
      | some e => some e
      | none => verifyFollowers x c.Follower

/-- The function `GetConfig`, as the error it returns (`none`: it returns the
configuration).  `load` is the outcome of `config.LoadConfigFile` with the `cfgType` built
from what was read, `uuid` the outcome of the block "Verify and set UUID". -/
def GetConfig (x : Externals) (load : Except String cfgType) (uuid : error) : error :=
  match load with
  | .error e => some e
  | .ok c =>
    match verifyConfig x c with
    | some e => some e
    | none => uuid

/-- The calls `follower.TimestampDelimited` makes into the timegrinder package and into
`regexp`: `timegrinder.New`, `TimeGrinder.OverrideProcessor`, `Processor.ExtractionRegex`
and `regexp.Compile` (of which only the error is used). -/
structure GrinderAPI (TG P : Type) where
  New : String → Except String TG
  OverrideProcessor : TG → Except String P
  ExtractionRegex : P → String
  Compile : String → error

/-- The lines of `TimestampDelimited` under the comment "fixup the regex string to fit on
line breaks": a leading `\A`, then a leading `^`, is replaced by `\n`. -/
def fixupRegex (rex : String) : String :=
  let rex := if HasPrefix rex "\\A" then "\\n" ++ TrimPrefix rex "\\A" else rex
  if HasPrefix rex "^" then "\\n" ++ TrimPrefix rex "^" else rex

/-- The method `follower.TimestampDelimited`, returning `(rex, ok, err)`. -/
def follower.TimestampDelimited {TG P : Type} (api : GrinderAPI TG P) (f : follower) :
    String × Bool × error :=
  if !f.Timestamp_Delimited then ("", false, none)
  else if f.Timestamp_Format_Override = "" then
    ("", false, some ErrTimestampDelimiterMissingOverride)
  else
    match api.New f.Timestamp_Format_Override with
    | .error e => ("", false, some e)
    | .ok tg =>
      match api.OverrideProcessor tg with
      | .error e => ("", false, some e)
      | .ok proc =>
        let rex := api.ExtractionRegex proc
        if rex = "" then ("", false, some "Missing timestamp processor extraction string")
        else
          let rex := fixupRegex rex
          match api.Compile rex with
          | some e => (rex, false, some e)
          | none => (rex, true, none)

end fileFollow

/-! ## `ingesters/s3Ingster/config.go` -/

namespace s3Ingester

structure TimeConfig where
  Ignore_Timestamps : Bool
  Assume_Local_Timezone : Bool
  Timezone_Override : String
  Timestamp_Format_Override : String

/-- The type `bucket`; `AuthConfig` is declared outside this file and kept abstract. -/
structure bucket (AuthConfig : Type) where
  toTimeConfig : TimeConfig
  toAuthConfig : AuthConfig
  Tag_Name : String
  Source_Override : String
  File_Filters : List String
  Preprocessor : List String

/-- The results of the calls `verifyConfig` makes outside this file. -/
structure Externals (AuthConfig : Type) where
  /-- `config.IngestConfig.Verify()` -/
  ingestVerify : error
  /-- `processors.ProcessorConfig.Validate()` -/
  preprocessorValidate : error
  /-- `config.CustomTimeFormat.Validate()` -/
  timeFormatValidate : error
  /-- `entry.DefaultTagName` -/
  DefaultTagName : String
  /-- `ingest.FORBIDDEN_TAG_SET` -/
  FORBIDDEN_TAG_SET : String
  /-- `time.LoadLocation`, of which only the error is used -/
  LoadLocation : String → error
  /-- `net.ParseIP(s) == nil` -/
  ParseIPisNil : String → Bool
  /-- `processors.ProcessorConfig.CheckProcessors` -/
  CheckProcessors : List String → error
  /-- `AuthConfig.validate` -/
  authValidate : AuthConfig → error

/-- The type `cfgType`, with the `Bucket` map as the list of its entries in `range` order. -/
structure cfgType (AuthConfig : Type) where
  State_Store_Location : String
  Bucket : List (String × bucket AuthConfig)

/-- One iteration of the `range c.Bucket` loop of `verifyConfig`. -/
def verifyBucket {A : Type} (x : Externals A) (k : String) (v : bucket A) : error :=
  let Tag_Name := if v.Tag_Name.length = 0 then x.DefaultTagName else v.Tag_Name
  if ContainsAny Tag_Name x.FORBIDDEN_TAG_SET then
    some ("Invalid characters in the Tag-Name for " ++ k)
  else
    let tz : error :=
      if v.toTimeConfig.Timezone_Override ≠ "" then
        if v.toTimeConfig.Assume_Local_Timezone then
          some ("Cannot specify Assume-Local-Timezone and Timezone-Override in the same listener "
            ++ k)
        else
          match x.LoadLocation v.toTimeConfig.Timezone_Override with
          | some e => some ("Invalid timezone override " ++ v.toTimeConfig.Timezone_Override
              ++ " in listener " ++ k ++ ": " ++ e)
          | none => none
      else none
    match tz with
    | some e => some e
    | none =>
      if v.Source_Override ≠ "" && x.ParseIPisNil v.Source_Override then
        some ("Source-Override " ++ v.Source_Override ++ " is not a valid IP address")
      else
        match x.CheckProcessors v.Preprocessor with
        | some e => some ("Listener " ++ k ++ " preprocessor invalid: " ++ e)
        | none => x.authValidate v.toAuthConfig

/-- The loop `for k, v := range c.Bucket` of `verifyConfig`. -/
def verifyBuckets {A : Type} (x : Externals A) : List (String × bucket A) → error
  | [] => none
  | (k, v) :: rest =>
    match verifyBucket x k v with
    | some e => some e
    | none => verifyBuckets x rest

/-- The function `verifyConfig`, as the error it returns. -/
def verifyConfig {A : Type} (x : Externals A) (c : cfgType A) : error :=
  match x.ingestVerify with
  | some e => some e
  | none =>
    if c.Bucket.length = 0 then some "No buckets specified"
    else
      match x.preprocessorValidate with
      | some e => some e
      | none =>
        match x.timeFormatValidate with
        | some e => some e
        | none => verifyBuckets x c.Bucket

/-- The function `GetConfig`, as the error it returns (`none`: it returns the
configuration).  `load` is the outcome of `config.LoadConfigFile` and
`config.LoadConfigOverlays` with the `cfgType` built from what was read, `uuid` the outcome
of the block "Verify and set UUID". -/
def GetConfig {A : Type} (x : Externals A) (load : Except String (cfgType A)) (uuid : error) :
    error :=
  match load with
  | .error e => some e
  | .ok c =>
    match verifyConfig x c with
    | some e => some e
    | none => if c.State_Store_Location = "" then some "Missing State-Store-Location" else uuid

end s3Ingester


/-! ## `ingesters/singleFile/main.go` -/

namespace singleFile

open time

/-- The function `dropCR`. -/
def dropCR (data : List Nat) : List Nat :=
  if data.length > 0 ∧ data.getLast? = some 0x0D then data.dropLast else data

/-- The function `trimQuotes`. -/
def trimQuotes (data : List Nat) : List Nat :=
  if data.length ≥ 2 then
    if data.head? = some 0x22 ∧ data.getLast? = some 0x22 then (data.drop 1).dropLast
    else data
  else data

/-- Go's `bytes.TrimSuffix(b, nlBytes)`: `b` without one trailing newline. -/
def trimNewline (b : List Nat) : List Nat :=
  if b.getLast? = some 0x0A then b.dropLast else b

/-- The package variables that `init` sets from the command line and `ingestFile` reads. -/
structure Flags where
  /-- `*tzo` -/
  tzo : String
  /-- `*utc` -/
  utc : Bool
  /-- `*quotable` -/
  quotable : Bool
  /-- `*cleanQuotes` -/
  cleanQuotes : Bool
  /-- `*verbose` -/
  verbose : Bool
  noTg : Bool
  bsize : Nat
  ignorePrefixFlag : Bool
  ignorePrefix : List Nat
  srcOverride : Option (List Nat)

/-- An `entry.Entry`; the timestamp is kept as the `time.Time` it is converted from. -/
structure Entry where
  TS : Time
  Tag : Nat
  SRC : List Nat
  Data : List Nat
deriving DecidableEq, Repr

/-- One token of the scanner together with what the collaborators answer while it is
processed: the time grinder's `Extract`, the clock, and the muxer's `WriteEntry` or
`WriteBatch`. -/
structure Scanned where
  /-- `scn.Bytes()` -/
  bytes : List Nat
  /-- `tg.Extract(bts)`: instant, found, error -/
  extract : Time × Bool × error
  /-- `time.Now()` -/
  now : Time
  /-- `igst.WriteEntry(ent)`, or `igst.WriteBatch(blk)` when the block is full -/
  write : error

/-- The variables that the loop of `ingestFile` updates, and the entries handed to the
muxer so far, oldest first. -/
structure LoopState where
  blk : List Entry
  count : Nat
  totalBytes : Nat
  sent : List Entry
deriving DecidableEq, Repr

/-- The outcome of one iteration of the loop `for scn.Scan()`. -/
inductive Iteration where
  /-- `continue` before an entry is built -/
  | skipped
  /-- `return err` -/
  | returned (err : String)
  /-- an entry was built and the loop goes on with the new state -/
  | ingested (ent : Entry) (st : LoopState)
deriving DecidableEq, Repr

/-- The first part of the loop body: the bytes of the entry to build, or `none` when the
line is skipped with `continue`. -/
def payload (fl : Flags) (bytes : List Nat) : Option (List Nat) :=
  let bts := trimNewline bytes
  if bts.length = 0 then none
  else
    let bts := if fl.cleanQuotes then trimQuotes bts else bts
    if fl.cleanQuotes ∧ bts.length = 0 then none
    else if fl.ignorePrefixFlag ∧ fl.ignorePrefix.isPrefixOf bts then none
    else some bts

/-- The second part, `if noTg { ... } else if ts, ok, err = tg.Extract(bts); err != nil
{ ... } else if !ok { ... }`: the timestamp of the entry, or the error returned. -/
def stamp (fl : Flags) (s : Scanned) : Except String Time :=
  if fl.noTg then .ok s.now
  else
    match s.extract.2.2 with
    | some err => .error err
    | none => if !s.extract.2.1 then .ok s.now else .ok s.extract.1

/-- The third part: the entry is written, or appended to the block, which is written
when full; then the counters are advanced. -/
def emit (fl : Flags) (st : LoopState) (ent : Entry) (write : error) : Iteration :=
  let done : LoopState → Iteration := fun st =>
    .ingested ent { st with count := st.count + 1,
                            totalBytes := st.totalBytes + ent.Data.length }
  if fl.bsize = 0 then
    match write with
    | some err => .returned err
    | none => done { st with sent := st.sent ++ [ent] }
  else
    let blk := st.blk ++ [ent]
    if blk.length ≥ fl.bsize then
      match write with
      | some err => .returned err
      | none => done { st with blk := [], sent := st.sent ++ blk }
    else done { st with blk := blk }

/-- The body of the loop `for scn.Scan()` of `ingestFile`. -/
def ingestLine (fl : Flags) (tag : Nat) (src : List Nat) (st : LoopState) (s : Scanned) :
    Iteration :=
  match payload fl s.bytes with
  | none => .skipped
  | some bts =>
    match stamp fl s with
    | .error err => .returned err
    | .ok ts => emit fl st { TS := ts, Tag := tag, SRC := src, Data := bts } s.write

/-- The loop `for scn.Scan()` of `ingestFile` over the tokens the scanner yields. -/
def ingestLines (fl : Flags) (tag : Nat) (src : List Nat) :
    LoopState → List Scanned → Except String LoopState
  | st, [] => .ok st
  | st, s :: rest =>
    match ingestLine fl tag src st s with
    | .skipped => ingestLines fl tag src st rest
    | .returned err => .error err
    | .ingested _ st => ingestLines fl tag src st rest

/-- What the collaborators answer outside the loop of `ingestFile`. -/
structure Setup where
  /-- `timegrinder.NewTimeGrinder(c)`, of which only the error is used here -/
  NewTimeGrinder : error
  /-- `tg.SetTimezone(*tzo)` -/
  SetTimezone : error
  /-- `igst.SourceIP()` -/
  SourceIP : Except String (List Nat)
  /-- `igst.WriteBatch(blk)` for the block left after the loop -/
  lastWrite : error
  /-- `scn.Err()` -/
  scanErr : error

/-- The function `ingestFile`: the error it returns, or the final state when it returns
`nil`. -/
def ingestFile (fl : Flags) (x : Setup) (tag : Nat) (tokens : List Scanned) :
    Except String LoopState :=
  let grinder : error :=
    if !fl.noTg then
      match x.NewTimeGrinder with
      | some err => some err
      | none => if fl.tzo ≠ "" then x.SetTimezone else none
    else none
  match grinder with
  | some err => .error err
  | none =>
    let src : Except String (List Nat) :=
      match fl.srcOverride with
      | some ip => .ok ip
      | none => x.SourceIP
    match src with
    | .error err => .error err
    | .ok src =>
      match ingestLines fl tag src ⟨[], 0, 0, []⟩ tokens with
      | .error err => .error err
      | .ok st =>
        let last : Except String LoopState :=
          if st.blk.length > 0 then
            match x.lastWrite with
            | some err => .error err
            | none => .ok { st with blk := [], sent := st.sent ++ st.blk }
          else .ok st
        match last with
        | .error err => .error err
        | .ok st =>
          match x.scanErr with
          | some err => .error err
          | none => .ok st

end singleFile

/-! ## The time grinder as `ingestFile` calls it -/

namespace timegrinder

/-- Modelled from the spec: the method `TimeGrinder.Extract`, which is not in the sources,
by what it returns for one line.  The spec gives the call as
`extract(line) -> (instant, found)` and says of it that a miss resolves "to not-found,
never to a thrown error that aborts the calling pipeline": with the pair `outcome` that
the engine arrives at, the error returned is nil. -/
def TimeGrinder.Extract (outcome : time.Time × Bool) : time.Time × Bool × error :=
  (outcome.1, outcome.2, none)

end timegrinder

/-! ## The split function of `ingesters/singleFile/main.go` -/

namespace singleFile

/-- The loop `for i := 0; i < len(data); i += width` of `quotableSplitter`, from the index
`i` on with the loop's variables `openQuote` and `escaped`: the index of the newline at
which the loop returns, `none` when it runs to the end of `data`.  Every round moves `i`
on by at least one byte, so `fuel` rounds are enough once `fuel` is the length of `data`. -/
def quotableLoop (data : List Nat) : Nat → Nat → Bool → Bool → Option Nat
  | 0, _, _, _ => none
  | fuel + 1, i, openQuote, escaped =>
    if i < data.length then
      let r := (regexp.DecodeRune (data.drop i)).1
      let width := (regexp.DecodeRune (data.drop i)).2
      if escaped then quotableLoop data fuel (i + width) openQuote false
      else if r = 0x5C then quotableLoop data fuel (i + width) openQuote true
      else if r = 0x22 then quotableLoop data fuel (i + width) (!openQuote) escaped
      else if r = 0x0A ∧ openQuote = false then some i
      else quotableLoop data fuel (i + width) openQuote escaped
    else none

/-- The function `quotableSplitter`, a `bufio.SplitFunc`: the advance, the token (`none`
for nil) and the error. -/
def quotableSplitter (data : List Nat) (atEOF : Bool) : Nat × Option (List Nat) × error :=
  if atEOF = true ∧ data.length = 0 then (0, none, none)
  else
    match quotableLoop data data.length 0 false false with
    | some i => (i + 1, some (dropCR (data.take i)), none)
    | none =>
      if atEOF then (data.length, some (dropCR data), none)
      else (0, none, none)

/-- Following the words of the claim, "escaped by a preceding backslash": the number of
backslashes that stand in a row right before the index `n` of `d`. -/
def backslashRun (d : List Nat) : Nat → Nat
  | 0 => 0
  | n + 1 => if d.getD n 0 = 0x5C then backslashRun d n + 1 else 0

/-- Following the words of the claim: the byte at index `n` is escaped when an odd number
of backslashes stand right before it (of two backslashes in a row the second is the one
escaped, and what follows them is not). -/
def escapedAt (d : List Nat) (n : Nat) : Bool := backslashRun d n % 2 == 1

/-- Following the words of the claim, "inside an open double-quoted region": the number of
double quotes before the index `n` that are not escaped. -/
def quoteCount (d : List Nat) : Nat → Nat
  | 0 => 0
  | n + 1 => quoteCount d n + (if d.getD n 0 = 0x22 ∧ escapedAt d n = false then 1 else 0)

/-- Following the words of the claim: the index `n` is inside an open double-quoted region
when an odd number of unescaped double quotes come before it. -/
def insideQuotes (d : List Nat) (n : Nat) : Bool := quoteCount d n % 2 == 1

/-- Following the words of the claim: at the index `i` of `d` there is a newline that is
neither inside an open double-quoted region nor escaped by a preceding backslash. -/
def splitPoint (d : List Nat) (i : Nat) : Bool :=
  decide (i < d.length) && d.getD i 0 == 0x0A && !escapedAt d i && !insideQuotes d i

end singleFile

/-! ## `client/client.go`

The methods of `Client` are modelled as functions from the client before the call to the
client after it and the values returned.  Of the fields of `Client`, those that hold plain
data are kept; the URL, the HTTP client (but for its `Timeout`), the query map, the user
details, the logger and the TLS settings are left out, as no method below reads them.  The
mutex is left out too: the calls are taken one at a time.  A `Client` here is one that
`NewClient` built, so that its `hm` and `mtx` are not nil. -/

namespace client

/-- The constant `defaultRequestTimeout`, `time.Hour * 24`, in nanoseconds as a
`time.Duration` is. -/
def defaultRequestTimeout : Int := 3600000000000 * 24

def clientUserAgent : String := "GravwellCLI"

def authHeaderName : String := "Authorization"

def ErrNoLogin : String := "Not logged in"

/-- The type `ActiveSession`. -/
structure ActiveSession where
  JWT : String
  LastNotificationID : Nat
deriving DecidableEq, Repr

/-- The constants of type `clientState`.  Their declaration is not in the sources, so
their values are parameters. -/
structure States where
  STATE_NEW : Nat
  STATE_AUTHED : Nat
  STATE_CLOSED : Nat
  STATE_LOGGED_OFF : Nat

/-- The type `headerMap` with `newHeaderMap` and the method `add`: their declarations
are not in the sources, so the type `H` and the two operations are parameters. -/
structure headerMapOps (H : Type) where
  newHeaderMap : H
  add : H → String → String → H

/-- The type `Client`, by the fields listed in the header of this section;
`clntTimeout` is `clnt.Timeout`. -/
structure Client (H : Type) where
  hm : H
  server : String
  clntTimeout : Int
  timeout : Int
  state : Nat
  lastNotifId : Nat
  enforceCert : Bool
  sessionData : ActiveSession
  wsScheme : String
  httpScheme : String
  userAgent : String

/-- How a call of `NewClient` ends: it returns a client, it returns an error, or
`log.Fatal` ends the process. -/
inductive Constructed (H : Type) where
  | client (c : Client H)
  | failed (err : String)
  | fatal (err : String)

/-- The function `NewClient`.  `urlParse` is the error of `url.Parse` and `jar` the error
of `cookiejar.New`; the logger passed in is not modelled. -/
def NewClient {H : Type} (ops : headerMapOps H) (st : States) (urlParse : String → error)
    (jar : error) (server : String) (enforceCertificate useHttps : Bool) : Constructed H :=
  if server = "" then .failed "invalid base URL"
  else
    let wsScheme := if useHttps then "wss" else "ws"
    let httpScheme := if useHttps then "https" else "http"
    match urlParse (httpScheme ++ "://" ++ server) with
    | some err => .failed err
    | none =>
      match jar with
      | some err => .fatal err
      | none =>
        let hdrMap := ops.add ops.newHeaderMap "User-Agent" clientUserAgent
        .client
          { server := server
            clntTimeout := defaultRequestTimeout
            timeout := defaultRequestTimeout
            state := st.STATE_NEW
            lastNotifId := 0
            enforceCert := enforceCertificate
            sessionData := ⟨"", 0⟩
            hm := hdrMap
            wsScheme := wsScheme
            httpScheme := httpScheme
            userAgent := clientUserAgent }

/-- The method `importLoginToken`: the client afterwards and the error returned. -/
def Client.importLoginToken {H : Type} (ops : headerMapOps H) (st : States) (c : Client H)
    (token : String) : Client H × error :=
  if token.length = 0 then (c, some "invalid token")
  else
    ({ c with
        hm := ops.add c.hm authHeaderName ("Bearer " ++ token)
        sessionData := { JWT := token, LastNotificationID := 0 }
        state := st.STATE_AUTHED }, none)

/-- The method `ImportLoginToken`: `importLoginToken` between `Lock` and `Unlock`. -/
def Client.ImportLoginToken {H : Type} (ops : headerMapOps H) (st : States) (c : Client H)
    (token : String) : Client H × error :=
  c.importLoginToken ops st token

/-- The method `LoggedIn`. -/
def Client.LoggedIn {H : Type} (st : States) (c : Client H) : Bool :=
  c.state == st.STATE_AUTHED

/-- The method `SessionData`. -/
def Client.SessionData {H : Type} (st : States) (c : Client H) : ActiveSession × error :=
  if c.state ≠ st.STATE_AUTHED then (⟨"", 0⟩, some ErrNoLogin)
  else (c.sessionData, none)

/-- The method `Close`; closing the transport's idle connections is not modelled. -/
def Client.Close {H : Type} (st : States) (c : Client H) : Client H × error :=
  if c.state = st.STATE_CLOSED then (c, some "Client already closed")
  else ({ c with state := st.STATE_CLOSED }, none)

/-- The method `SetRequestTimeout`: the client afterwards and the error returned; `to'`
is the argument `to`. -/
def Client.SetRequestTimeout {H : Type} (st : States) (c : Client H) (to' : Int) :
    Client H × error :=
  if c.state = st.STATE_CLOSED then (c, some "Client already closed")
  else if to' ≤ 0 then (c, some "invalid timeout")
  else ({ c with clntTimeout := to', timeout := to' }, none)

/-- The method `RequestTimeout`. -/
def Client.RequestTimeout {H : Type} (st : States) (c : Client H) : Int × error :=
  if c.state = st.STATE_CLOSED then (0, some "Client already closed")
  else (c.timeout, none)

/-- The type `http.Header`, a map from a header's name to its values, by its entries. -/
abbrev Header := List (String × List String)

/-- Of `http.Request`, what `redirectPolicy` reads and writes: `URL.Path` and `Header`. -/
structure Request where
  Path : String
  Header : Header

/-- The loop `for k, v := range lReq.Header` of `redirectPolicy`, `src` being the entries
of `lReq.Header` in the order in which `range` visits them and `dst` being `req.Header`:
an entry whose key `req.Header` does not have yet is put into it. -/
def copyHeaders (src dst : Header) : Header :=
  src.foldl (fun h kv => if (h.lookup kv.1).isSome then h else (kv.1, kv.2) :: h) dst

/-- The function `redirectPolicy`: the request `req` afterwards and the error returned.
`Clean` is `path.Clean`. -/
def redirectPolicy (Clean : String → String) (req : Request) (via : List Request) :
    Request × error :=
  if via.length ≥ 2 then (req, some "Disallowed multiple redirects")
  else if via.length = 1 then
    match via[0]?, via[via.length - 1]? with
    | some first, some lReq =>
      if Clean req.Path = Clean first.Path then
        ({ req with Header := copyHeaders lReq.Header req.Header }, none)
      else (req, some "Disallowed non-equivelent redirects")
    | _, _ => (req, some "Uknown redirect chain")
  else (req, some "Uknown redirect chain")

end client

/-! ## Concrete inputs used in the theorems below -/

/-- A follower that asks for local time and names a time zone. -/
def conflictingFollower : fileFollow.follower :=
  { Base_Directory := "/var/log", File_Filter := "*.log", Tag_Name := "syslog",
    Ignore_Timestamps := false, Assume_Local_Timezone := true, Recursive := false,
    Ignore_Line_Prefix := [], Timestamp_Format_Override := "", Timestamp_Delimited := false,
    Timezone_Override := "America/Chicago", Preprocessor := [] }

/-- A follower without a time zone setting. -/
def plainFollower : fileFollow.follower :=
  { conflictingFollower with Assume_Local_Timezone := false, Timezone_Override := "" }

/-- A bucket that asks for local time and names a time zone. -/
def conflictingBucket : s3Ingester.bucket Unit :=
  { toTimeConfig := ⟨false, true, "America/Chicago", ""⟩, toAuthConfig := (),
    Tag_Name := "s3", Source_Override := "", File_Filters := [], Preprocessor := [] }

/-- Collaborators that accept everything. -/
def lenientFollow : fileFollow.Externals :=
  { ingestVerify := none, preprocessorValidate := none, FORBIDDEN_TAG_SET := "!@#$%^&*()=+<>,.:;",
    LoadLocation := fun _ => none, CheckProcessors := fun _ => none }

def lenientS3 : s3Ingester.Externals Unit :=
  { ingestVerify := none, preprocessorValidate := none, timeFormatValidate := none,
    DefaultTagName := "default", FORBIDDEN_TAG_SET := "!@#$%^&*()=+<>,.:;",
    LoadLocation := fun _ => none, ParseIPisNil := fun _ => false,
    CheckProcessors := fun _ => none, authValidate := fun _ => none }

/-- A follower in timestamp-delimited mode with the numeric-epoch format as override. -/
def delimitedFollower : fileFollow.follower :=
  { plainFollower with Timestamp_Format_Override := "UnixMilli", Timestamp_Delimited := true }

/-- A timegrinder whose override processor is the numeric-epoch processor of
`processors.go` and reports that processor's pattern string; every pattern compiles. -/
def epochGrinder : fileFollow.GrinderAPI Unit timegrinder.unixProcessor :=
  { New := fun _ => .ok (),
    OverrideProcessor := fun _ => .ok timegrinder.NewUnixMilliTimeProcessor,
    ExtractionRegex := fun p => p.Format,
    Compile := fun _ => none }

/-- A timegrinder whose override processor reports the extraction pattern `\A\d+\.\d+\s`. -/
def anchoredGrinder : fileFollow.GrinderAPI Unit String :=
  { New := fun _ => .ok (),
    OverrideProcessor := fun _ => .ok "\\A\\d+\\.\\d+\\s",
    ExtractionRegex := fun p => p,
    Compile := fun _ => none }

/-- The flags of a plain run: time grinding on, no block mode, nothing skipped by prefix. -/
def plainFlags : singleFile.Flags :=
  { tzo := "", utc := false, quotable := false, cleanQuotes := false, verbose := false,
    noTg := false, bsize := 0, ignorePrefixFlag := false, ignorePrefix := [],
    srcOverride := none }

/-- A line without a timestamp, which the muxer accepts. -/
def plainLine : singleFile.Scanned :=
  { bytes := ascii "some message\n",
    extract := timegrinder.TimeGrinder.Extract (time.Time.zero, false),
    now := time.Unix 1700000000 0, write := none }

/-- A line on which the time grinder finds an instant. -/
def stampedLine : singleFile.Scanned :=
  { bytes := ascii "1700000000.500 some message\n",
    extract := timegrinder.TimeGrinder.Extract (time.Unix 1700000000 500000000, true),
    now := time.Unix 1700000123 0, write := none }

/-- Collaborators of `ingestFile` that all succeed. -/
def plainSetup : singleFile.Setup :=
  { NewTimeGrinder := none, SetTimezone := none, SourceIP := .ok [127, 0, 0, 1],
    lastWrite := none, scanErr := none }

/-- A zone of two offsets in the manner of `America/New_York` in 2023: five hours behind
UTC until 12 March 2023 07:00:00 UTC, four hours behind from then on, so that the
wall-clock readings from 02:00 to 03:00 of that day are skipped. -/
def springForward : time.Location :=
  { name := ascii "America/New_York"
    zone := [⟨ascii "EST", -18000, false⟩, ⟨ascii "EDT", -14400, true⟩]
    tx := [⟨1678604400, 1⟩] }

/-- A zone of two offsets in the manner of `Pacific/Kiritimati`: ten hours behind UTC
until 31 December 1994 10:00:00 UTC, fourteen hours ahead from then on, so that the
wall-clock readings of 31 December 1994 are skipped. -/
def dateLineMove : time.Location :=
  { name := ascii "Pacific/Kiritimati"
    zone := [⟨ascii "-10", -36000, false⟩, ⟨ascii "+14", 50400, false⟩]
    tx := [⟨788868000, 1⟩] }

/-- The layout `Jan _2 15:04:05` of classic syslog: no year, no zone. -/
def classicSyslogLayout : time.Layout :=
  ⟨[([], .stdMonth), (ascii " ", .stdUnderDay)] ++ timegrinder.clockChunks " ", []⟩

/-- An assignment of the layout constants: classic syslog for `SYSLOG_FORMAT`, and for the
others layouts of the kind their patterns match (`2006-01-02 15:04:05` for the DPKG
format, and so on). -/
def sampleFormats : timegrinder.Formats :=
  { APACHE_FORMAT := ⟨[([], .stdUnderDay), (ascii "/", .stdMonth), (ascii "/", .stdLongYear)]
      ++ timegrinder.clockChunks ":" ++ [(ascii " ", .stdNumTZ)], []⟩
    APACHE_NO_TZ_FORMAT := ⟨[([], .stdUnderDay), (ascii "/", .stdMonth),
      (ascii "/", .stdLongYear)] ++ timegrinder.clockChunks ":", []⟩
    NGINX_FORMAT := ⟨[([], .stdLongYear), (ascii "/", .stdZeroMonth), (ascii "/", .stdZeroDay)]
      ++ timegrinder.clockChunks " ", []⟩
    SYSLOG_FORMAT := classicSyslogLayout
    SYSLOG_FILE_FORMAT := ⟨timegrinder.isoChunks ++ [([], .stdFracSecond9 9),
      ([], .stdNumColonTZ)], []⟩
    DPKG_MSG_FORMAT := ⟨[([], .stdLongYear), (ascii "-", .stdZeroMonth),
      (ascii "-", .stdZeroDay)] ++ timegrinder.clockChunks " ", []⟩
    CUSTOM1_MILLI_MSG_FORMAT := ⟨[([], .stdZeroMonth), (ascii "-", .stdZeroDay),
      (ascii "-", .stdLongYear)] ++ timegrinder.clockChunks " " ++ [([], .stdFracSecond0 1)], []⟩
    ZONELESS_RFC3339_FORMAT := ⟨timegrinder.isoChunks ++ [([], .stdFracSecond9 9)], []⟩
    SYSLOG_VARIANT := ⟨[([], .stdMonth), (ascii " ", .stdZeroDay), (ascii " ", .stdLongYear)]
      ++ timegrinder.clockChunks " ", []⟩ }

/-- The standard variants whose layout is written out in `processors.go` or is a constant
of Go's `time` package, each with an illustrative timestamp: the reference time of Go's
layouts, 2 January 2006 15:04:05, as the variant writes it. -/
def illustrations : List (timegrinder.processor × List Nat) :=
  [(timegrinder.NewAnsiCProcessor, ascii "Jan  2 15:04:05 2006"),
   (timegrinder.NewUnixProcessor, ascii "Jan  2 15:04:05 MST 2006"),
   (timegrinder.NewRubyProcessor, ascii "Jan 02 15:04:05 -0700 2006"),
   (timegrinder.NewRFC822Processor, ascii "02 Jan 06 15:04 MST"),
   (timegrinder.NewRFC822ZProcessor, ascii "02 Jan 06 15:04 -0700"),
   (timegrinder.NewRFC850Processor, ascii "02-Jan-06 15:04:05 MST"),
   (timegrinder.NewRFC1123Processor, ascii "02 Jan 2006 15:04:05 MST"),
   (timegrinder.NewRFC1123ZProcessor, ascii "02 Jan 2006 15:04:05 -0700"),
   (timegrinder.NewRFC3339Processor, ascii "2006-01-02T15:04:05Z"),
   (timegrinder.NewRFC3339NanoProcessor, ascii "2006-01-02T15:04:05.999999999Z")]

/-- The four client states numbered in the order in which the sources name them. -/
def numberedStates : client.States :=
  { STATE_NEW := 0, STATE_AUTHED := 1, STATE_CLOSED := 2, STATE_LOGGED_OFF := 3 }

/-- A header map kept as the list of its entries, `add` replacing the entry of its key. -/
def listHeaders : client.headerMapOps (List (String × String)) :=
  { newHeaderMap := []
    add := fun h k v => (k, v) :: h.filter (fun e => e.1 != k) }

/-- A stand-in for `path.Clean` that only drops a slash that follows a slash. -/
def dropDoubleSlash : List Char → List Char
  | '/' :: '/' :: rest => dropDoubleSlash ('/' :: rest)
  | c :: rest => c :: dropDoubleSlash rest
  | [] => []

def cleanSlashes (p : String) : String := String.mk (dropDoubleSlash p.data)

/-- A buffer with a newline inside double quotes, then a carriage return and a newline. -/
def quotedRecord : List Nat := ascii "a,\"x\ny\"\r\nrest"

/-! # Theorems -/

open time timegrinder regexp strconv

/-! ## Configuration checks -/

theorem fileFollow.verifyFollower_conflict (x : fileFollow.Externals) (k : String)
    (v : fileFollow.follower) (hl : v.Assume_Local_Timezone = true)
    (hz : v.Timezone_Override ≠ "") : fileFollow.verifyFollower x k v ≠ none := by
  unfold fileFollow.verifyFollower
  simp only [hl, hz]
  split_ifs <;> simp

theorem fileFollow.verifyFollowers_conflict (x : fileFollow.Externals)
    (l : List (String × fileFollow.follower))
    (h : ∃ kv ∈ l, kv.2.Assume_Local_Timezone = true ∧ kv.2.Timezone_Override ≠ "") :
    fileFollow.verifyFollowers x l ≠ none := by
  induction l with
  | nil => simp at h
  | cons hd tl ih =>
    obtain ⟨k, v⟩ := hd
    unfold fileFollow.verifyFollowers
    cases hv : fileFollow.verifyFollower x k v with
    | some e => simp
    | none =>
      simp only
      apply ih
      obtain ⟨kv, hmem, h1, h2⟩ := h
      rcases List.mem_cons.mp hmem with rfl | hmem
      · exact absurd hv (fileFollow.verifyFollower_conflict x _ _ h1 h2)
      · exact ⟨kv, hmem, h1, h2⟩

theorem fileFollow.verifyConfig_follower_conflict (x : fileFollow.Externals) (c : fileFollow.cfgType)
    (h : ∃ kv ∈ c.Follower, kv.2.Assume_Local_Timezone = true ∧ kv.2.Timezone_Override ≠ "") :
    fileFollow.verifyConfig x c ≠ none := by
  unfold fileFollow.verifyConfig
  cases c.toGlobal.Verify x with
  | some e => simp
  | none =>
    simp only
    split_ifs with h0
    · simp
    · cases x.preprocessorValidate with
      | some e => simp
      | none => exact fileFollow.verifyFollowers_conflict x _ h

theorem s3Ingester.verifyBucket_conflict {A : Type} (x : s3Ingester.Externals A) (k : String)
    (v : s3Ingester.bucket A) (hl : v.toTimeConfig.Assume_Local_Timezone = true)
    (hz : v.toTimeConfig.Timezone_Override ≠ "") : s3Ingester.verifyBucket x k v ≠ none := by
  unfold s3Ingester.verifyBucket
  simp only [hl, hz]
  split_ifs <;> simp

theorem s3Ingester.verifyBuckets_conflict {A : Type} (x : s3Ingester.Externals A)
    (l : List (String × s3Ingester.bucket A))
    (h : ∃ kv ∈ l, kv.2.toTimeConfig.Assume_Local_Timezone = true
      ∧ kv.2.toTimeConfig.Timezone_Override ≠ "") :
    s3Ingester.verifyBuckets x l ≠ none := by
  induction l with
  | nil => simp at h
  | cons hd tl ih =>
    obtain ⟨k, v⟩ := hd
    unfold s3Ingester.verifyBuckets
    cases hv : s3Ingester.verifyBucket x k v with
    | some e => simp
    | none =>
      simp only
      apply ih
      obtain ⟨kv, hmem, h1, h2⟩ := h
      rcases List.mem_cons.mp hmem with rfl | hmem
      · exact absurd hv (s3Ingester.verifyBucket_conflict x _ _ h1 h2)
      · exact ⟨kv, hmem, h1, h2⟩

theorem s3Ingester.verifyConfig_bucket_conflict {A : Type} (x : s3Ingester.Externals A)
    (c : s3Ingester.cfgType A)
    (h : ∃ kv ∈ c.Bucket, kv.2.toTimeConfig.Assume_Local_Timezone = true
      ∧ kv.2.toTimeConfig.Timezone_Override ≠ "") :
    s3Ingester.verifyConfig x c ≠ none := by
  unfold s3Ingester.verifyConfig
  cases x.ingestVerify with
  | some e => simp
  | none =>
    simp only
    split_ifs with h0
    · simp
    · cases x.preprocessorValidate with
      | some e => simp
      | none =>
        cases x.timeFormatValidate with
        | some e => simp
        | none => exact s3Ingester.verifyBuckets_conflict x _ h

/-- C8.  A file-follower configuration in which some follower sets both
`Assume_Local_Timezone` and a non-empty `Timezone_Override`, and an S3 configuration in
which some bucket does, are rejected: `verifyConfig` returns a non-nil error in whatever
order the map is iterated (`order` is any rearrangement of the entries), and so does
`GetConfig`, so that no caller obtains a configuration to build a grinder from. -/
theorem verifyConfig_rejects_local_timezone_with_override {A : Type}
    (x : fileFollow.Externals) (c : fileFollow.cfgType)
    (y : s3Ingester.Externals A) (b : s3Ingester.cfgType A) :
    ((∃ kv ∈ c.Follower, kv.2.Assume_Local_Timezone = true ∧ kv.2.Timezone_Override ≠ "") →
      ∀ order : List (String × fileFollow.follower), order.Perm c.Follower →
        fileFollow.verifyConfig x { c with Follower := order } ≠ none ∧
        ∀ uuid, fileFollow.GetConfig x (.ok { c with Follower := order }) uuid ≠ none) ∧
    ((∃ kv ∈ b.Bucket, kv.2.toTimeConfig.Assume_Local_Timezone = true
        ∧ kv.2.toTimeConfig.Timezone_Override ≠ "") →
      ∀ order : List (String × s3Ingester.bucket A), order.Perm b.Bucket →
        s3Ingester.verifyConfig y { b with Bucket := order } ≠ none ∧
        ∀ uuid, s3Ingester.GetConfig y (.ok { b with Bucket := order }) uuid ≠ none) := by
  constructor
  · rintro ⟨kv, hmem, h1, h2⟩ order hperm
    have hv : fileFollow.verifyConfig x { c with Follower := order } ≠ none :=
      fileFollow.verifyConfig_follower_conflict x _ ⟨kv, hperm.symm.subset hmem, h1, h2⟩
    refine ⟨hv, fun uuid => ?_⟩
    unfold fileFollow.GetConfig
    cases hc : fileFollow.verifyConfig x { c with Follower := order } with
    | some e => simp [hc]
    | none => exact absurd hc hv
  · rintro ⟨kv, hmem, h1, h2⟩ order hperm
    have hv : s3Ingester.verifyConfig y { b with Bucket := order } ≠ none :=
      s3Ingester.verifyConfig_bucket_conflict y _ ⟨kv, hperm.symm.subset hmem, h1, h2⟩
    refine ⟨hv, fun uuid => ?_⟩
    unfold s3Ingester.GetConfig
    cases hc : s3Ingester.verifyConfig y { b with Bucket := order } with
    | some e => simp [hc]
    | none => exact absurd hc hv

/-- C8 at a configuration of two followers, the second in conflict, visited in either
order, and at a configuration of one bucket in conflict. -/
theorem verifyConfig_rejects_local_timezone_with_override_witness :
    (fileFollow.verifyConfig lenientFollow
        ⟨⟨0, "/tmp/state"⟩, [("b", conflictingFollower), ("a", plainFollower)]⟩ ≠ none ∧
      ∀ uuid, fileFollow.GetConfig lenientFollow
        (.ok ⟨⟨0, "/tmp/state"⟩, [("b", conflictingFollower), ("a", plainFollower)]⟩) uuid
          ≠ none) ∧
    (s3Ingester.verifyConfig lenientS3 ⟨"/tmp/state", [("k", conflictingBucket)]⟩ ≠ none ∧
      ∀ uuid, s3Ingester.GetConfig lenientS3
        (.ok ⟨"/tmp/state", [("k", conflictingBucket)]⟩) uuid ≠ none) :=
  ⟨(verifyConfig_rejects_local_timezone_with_override lenientFollow
      ⟨⟨0, "/tmp/state"⟩, [("a", plainFollower), ("b", conflictingFollower)]⟩
      lenientS3 ⟨"/tmp/state", [("k", conflictingBucket)]⟩).1
      ⟨("b", conflictingFollower), by simp, by decide, by decide⟩
      [("b", conflictingFollower), ("a", plainFollower)] (List.Perm.swap _ _ _),
   (verifyConfig_rejects_local_timezone_with_override lenientFollow
      ⟨⟨0, "/tmp/state"⟩, [("a", plainFollower), ("b", conflictingFollower)]⟩
      lenientS3 ⟨"/tmp/state", [("k", conflictingBucket)]⟩).2
      ⟨("k", conflictingBucket), by simp, by decide, by decide⟩
      [("k", conflictingBucket)] (List.Perm.refl _)⟩

/-! ## The record-boundary pattern -/

theorem HasPrefix_iff (s pre : String) : HasPrefix s pre = true ↔ pre.data <+: s.data := by
  unfold HasPrefix
  exact List.isPrefixOf_iff_prefix

theorem fixupRegex_beginText (rex : String) (h : HasPrefix rex "\\A" = true) :
    fileFollow.fixupRegex rex = "\\n" ++ String.mk (rex.data.drop 2) := by
  have h2 : HasPrefix ("\\n" ++ TrimPrefix rex "\\A") "^" = false := by
    simp [HasPrefix, String.data_append, List.isPrefixOf]
  unfold fileFollow.fixupRegex
  simp only [h, if_true, h2]
  simp [TrimPrefix, h]

theorem fixupRegex_caret (rex : String) (h : HasPrefix rex "\\A" = false)
    (h' : HasPrefix rex "^" = true) :
    fileFollow.fixupRegex rex = "\\n" ++ String.mk (rex.data.drop 1) := by
  unfold fileFollow.fixupRegex
  simp only [h, h', if_true, Bool.false_eq_true, if_false]
  simp [TrimPrefix, h']

theorem fixupRegex_other (rex : String) (h : HasPrefix rex "\\A" = false)
    (h' : HasPrefix rex "^" = false) : fileFollow.fixupRegex rex = rex := by
  unfold fileFollow.fixupRegex
  simp [h, h']

theorem fixupRegex_no_leading_anchor (rex : String) :
    HasPrefix (fileFollow.fixupRegex rex) "\\A" = false
      ∧ HasPrefix (fileFollow.fixupRegex rex) "^" = false := by
  have hn : ∀ t : String, HasPrefix ("\\n" ++ t) "\\A" = false
      ∧ HasPrefix ("\\n" ++ t) "^" = false := by
    intro t
    constructor <;> simp [HasPrefix, String.data_append, List.isPrefixOf]
  cases h : HasPrefix rex "\\A" with
  | true => rw [fixupRegex_beginText rex h]; exact hn _
  | false =>
    cases h' : HasPrefix rex "^" with
    | true => rw [fixupRegex_caret rex h h']; exact hn _
    | false => rw [fixupRegex_other rex h h']; exact ⟨h, h'⟩

/-- What the fix-up does when `TimestampDelimited` succeeds: the pattern returned is the
override processor's extraction pattern with a leading `\A` replaced by `\n`, or else a
leading `^` replaced by `\n`, the rest unchanged; a pattern that begins with neither
comes back as it is.  The result never begins with a start-of-text anchor. -/
theorem TimestampDelimited_replaces_leading_anchor {TG P : Type}
    (api : fileFollow.GrinderAPI TG P) (f : fileFollow.follower) (rex : String)
    (h : f.TimestampDelimited api = (rex, true, none)) :
    ∃ tg proc, api.New f.Timestamp_Format_Override = .ok tg
      ∧ api.OverrideProcessor tg = .ok proc
      ∧ (HasPrefix (api.ExtractionRegex proc) "\\A" = true →
          rex = "\\n" ++ String.mk ((api.ExtractionRegex proc).data.drop 2))
      ∧ (HasPrefix (api.ExtractionRegex proc) "\\A" = false →
          HasPrefix (api.ExtractionRegex proc) "^" = true →
          rex = "\\n" ++ String.mk ((api.ExtractionRegex proc).data.drop 1))
      ∧ (HasPrefix (api.ExtractionRegex proc) "\\A" = false →
          HasPrefix (api.ExtractionRegex proc) "^" = false →
          rex = api.ExtractionRegex proc)
      ∧ HasPrefix rex "\\A" = false ∧ HasPrefix rex "^" = false := by
  unfold fileFollow.follower.TimestampDelimited at h
  split_ifs at h with h1 h2
  · simp at h
  · simp at h
  · cases hn : api.New f.Timestamp_Format_Override with
    | error e => simp [hn] at h
    | ok tg =>
      cases ho : api.OverrideProcessor tg with
      | error e => simp [hn, ho] at h
      | ok proc =>
        simp only [hn, ho] at h
        split_ifs at h with h3
        · simp at h
        · cases hc : api.Compile (fileFollow.fixupRegex (api.ExtractionRegex proc)) with
          | some e => simp [hc] at h
          | none =>
            simp only [hc, Prod.mk.injEq, and_true] at h
            subst h
            refine ⟨tg, proc, rfl, ho, fixupRegex_beginText _, fixupRegex_caret _,
              fixupRegex_other _, fixupRegex_no_leading_anchor _⟩

/-- The fix-up at a follower whose override processor reports the pattern
`\A\d+\.\d+\s`: the record-boundary pattern is `\n\d+\.\d+\s`. -/
theorem TimestampDelimited_replaces_leading_anchor_witness :
    delimitedFollower.TimestampDelimited anchoredGrinder = ("\\n\\d+\\.\\d+\\s", true, none)
    ∧ ∃ tg proc, anchoredGrinder.New delimitedFollower.Timestamp_Format_Override = .ok tg
      ∧ anchoredGrinder.OverrideProcessor tg = .ok proc
      ∧ (HasPrefix (anchoredGrinder.ExtractionRegex proc) "\\A" = true →
          "\\n\\d+\\.\\d+\\s"
            = "\\n" ++ String.mk ((anchoredGrinder.ExtractionRegex proc).data.drop 2))
      ∧ (HasPrefix (anchoredGrinder.ExtractionRegex proc) "\\A" = false →
          HasPrefix (anchoredGrinder.ExtractionRegex proc) "^" = true →
          "\\n\\d+\\.\\d+\\s"
            = "\\n" ++ String.mk ((anchoredGrinder.ExtractionRegex proc).data.drop 1))
      ∧ (HasPrefix (anchoredGrinder.ExtractionRegex proc) "\\A" = false →
          HasPrefix (anchoredGrinder.ExtractionRegex proc) "^" = false →
          "\\n\\d+\\.\\d+\\s" = anchoredGrinder.ExtractionRegex proc)
      ∧ HasPrefix "\\n\\d+\\.\\d+\\s" "\\A" = false
      ∧ HasPrefix "\\n\\d+\\.\\d+\\s" "^" = false :=
  ⟨by decide,
   TimestampDelimited_replaces_leading_anchor anchoredGrinder delimitedFollower
     "\\n\\d+\\.\\d+\\s" (by decide)⟩

/-- C9.  The code at the failing input: with the numeric-epoch processor of
`processors.go` as override, whose pattern string is `(\A\d+\.\d+)\s`,
`TimestampDelimited` succeeds and returns that string unchanged.  The anchor `\A`, which
follows the parenthesis, is still in it and no `\n` has been put in its place, where the
claim and the comments of the code ("remove the at beginning of text sequence and replace
with newline") have the anchor replaced: the code tests for the anchor at the very
beginning of the pattern only. -/
theorem TimestampDelimited_keeps_inner_anchor :
    delimitedFollower.TimestampDelimited epochGrinder = ("(\\A\\d+\\.\\d+)\\s", true, none)
      ∧ "\\A".data <:+: (delimitedFollower.TimestampDelimited epochGrinder).1.data
      ∧ ¬ "\\n".data <:+: (delimitedFollower.TimestampDelimited epochGrinder).1.data := by
  have h : delimitedFollower.TimestampDelimited epochGrinder
      = ("(\\A\\d+\\.\\d+)\\s", true, none) := by decide
  rw [h]
  refine ⟨rfl, by decide, by decide⟩

/-! ## The ingest loop -/

theorem singleFile.emit_cases (fl : singleFile.Flags) (st : singleFile.LoopState)
    (ent : singleFile.Entry) (write : error) :
    (∃ st', singleFile.emit fl st ent write = .ingested ent st')
      ∨ (∃ e, write = some e ∧ singleFile.emit fl st ent write = .returned e) := by
  unfold singleFile.emit
  cases write with
  | some e =>
    simp only
    split_ifs
    · exact Or.inr ⟨e, rfl, rfl⟩
    · exact Or.inr ⟨e, rfl, rfl⟩
    · exact Or.inl ⟨_, rfl⟩
  | none =>
    simp only
    split_ifs
    · exact Or.inl ⟨_, rfl⟩
    · exact Or.inl ⟨_, rfl⟩
    · exact Or.inl ⟨_, rfl⟩

theorem singleFile.ingestLines_cons (fl : singleFile.Flags) (tag : Nat) (src : List Nat)
    (st : singleFile.LoopState) (s : singleFile.Scanned) (rest : List singleFile.Scanned) :
    singleFile.ingestLines fl tag src st (s :: rest)
      = match singleFile.ingestLine fl tag src st s with
        | .skipped => singleFile.ingestLines fl tag src st rest
        | .returned err => .error err
        | .ingested _ st => singleFile.ingestLines fl tag src st rest := by
  rw [singleFile.ingestLines]
  try (cases singleFile.ingestLine fl tag src st s <;> rfl)

theorem singleFile.stamp_of_grinder (fl : singleFile.Flags) (s : singleFile.Scanned)
    (outcome : Time × Bool) :
    singleFile.stamp fl { s with extract := TimeGrinder.Extract outcome }
      = .ok (if fl.noTg then s.now else if outcome.2 then outcome.1 else s.now) := by
  unfold singleFile.stamp TimeGrinder.Extract
  cases hn : fl.noTg
  · cases hf : outcome.2 <;> simp [hf]
  · simp

/-- With a grinder that returns no error and a muxer that accepts every entry, the loop of
`ingestFile` runs through all the lines. -/
theorem singleFile.ingestLines_total (fl : singleFile.Flags) (tag : Nat) (src : List Nat)
    (tokens : List (singleFile.Scanned × (Time × Bool)))
    (hw : ∀ p ∈ tokens, p.1.write = none) (st : singleFile.LoopState) :
    ∃ st', singleFile.ingestLines fl tag src st
      (tokens.map (fun p => { p.1 with extract := TimeGrinder.Extract p.2 })) = .ok st' := by
  induction tokens generalizing st with
  | nil => exact ⟨st, rfl⟩
  | cons p rest ih =>
    have hrest : ∀ q ∈ rest, q.1.write = none := fun q hq => hw q (List.mem_cons_of_mem _ hq)
    have hp : p.1.write = none := hw p (List.mem_cons_self _ _)
    rw [List.map_cons, singleFile.ingestLines_cons]
    cases hline : singleFile.ingestLine fl tag src st
        { p.1 with extract := TimeGrinder.Extract p.2 } with
    | skipped => exact ih hrest st
    | ingested ent st1 => exact ih hrest st1
    | returned e =>
      exfalso
      unfold singleFile.ingestLine at hline
      cases hpay : singleFile.payload fl p.1.bytes with
      | none => simp [hpay] at hline
      | some bts =>
        simp only [hpay, singleFile.stamp_of_grinder] at hline
        rcases singleFile.emit_cases fl st
          ⟨if fl.noTg then p.1.now else if p.2.2 then p.2.1 else p.1.now, tag, src, bts⟩
          p.1.write with ⟨st', h⟩ | ⟨e', hwe, _⟩
        · rw [h] at hline
          cases hline
        · rw [hp] at hwe
          cases hwe

/-- C10.  In `ingestFile`, with the time grinder as the spec gives it (`Extract` returns an
instant and whether one was found, and a nil error), what extraction yields never ends
the loop.  For every line that is not skipped, the timestamp chosen is the extracted
instant when the grinder reports found, and the current time when timestamps are ignored
or the grinder does not report found; an entry with that timestamp is built and handed on
to the muxer; and once the muxer has taken it the loop goes on with the next line.  Over
any number of lines that the muxer takes, the loop returns no error. -/
theorem ingestFile_goes_on_after_extraction (fl : singleFile.Flags) (tag : Nat)
    (src : List Nat) (st : singleFile.LoopState) (s : singleFile.Scanned)
    (outcome : Time × Bool) (rest : List singleFile.Scanned)
    (hskip : singleFile.ingestLine fl tag src st
      { s with extract := TimeGrinder.Extract outcome } ≠ .skipped) :
    singleFile.stamp fl { s with extract := TimeGrinder.Extract outcome }
        = .ok (if fl.noTg then s.now else if outcome.2 then outcome.1 else s.now)
    ∧ (∃ bts, singleFile.payload fl s.bytes = some bts
        ∧ singleFile.ingestLine fl tag src st { s with extract := TimeGrinder.Extract outcome }
          = singleFile.emit fl st
              ⟨if fl.noTg then s.now else if outcome.2 then outcome.1 else s.now, tag, src, bts⟩
              s.write)
    ∧ (s.write = none →
        ∃ ent st', singleFile.ingestLine fl tag src st
              { s with extract := TimeGrinder.Extract outcome } = .ingested ent st'
          ∧ ent.TS = (if fl.noTg then s.now else if outcome.2 then outcome.1 else s.now)
          ∧ singleFile.ingestLines fl tag src st
              ({ s with extract := TimeGrinder.Extract outcome } :: rest)
              = singleFile.ingestLines fl tag src st' rest)
    ∧ (∀ tokens : List (singleFile.Scanned × (Time × Bool)),
        (∀ p ∈ tokens, p.1.write = none) →
        ∃ st', singleFile.ingestLines fl tag src st
          (tokens.map (fun p => { p.1 with extract := TimeGrinder.Extract p.2 })) = .ok st') := by
  have hst := singleFile.stamp_of_grinder fl s outcome
  have step := singleFile.ingestLines_cons fl tag src st
    { s with extract := TimeGrinder.Extract outcome } rest
  cases hp : singleFile.payload fl s.bytes with
  | none => exact absurd (by simp only [singleFile.ingestLine, hp]) hskip
  | some bts =>
    have hline : singleFile.ingestLine fl tag src st
          { s with extract := TimeGrinder.Extract outcome }
        = singleFile.emit fl st
            ⟨if fl.noTg then s.now else if outcome.2 then outcome.1 else s.now, tag, src, bts⟩
            s.write := by
      simp only [singleFile.ingestLine, hp, hst]
    refine ⟨hst, ⟨bts, rfl, hline⟩, ?_, fun tokens hw =>
      singleFile.ingestLines_total fl tag src tokens hw st⟩
    intro hw
    rcases singleFile.emit_cases fl st
      ⟨if fl.noTg then s.now else if outcome.2 then outcome.1 else s.now, tag, src, bts⟩
      s.write with ⟨st', h⟩ | ⟨e, hwe, _⟩
    · rw [h] at hline
      exact ⟨_, st', hline, rfl, by rw [step, hline]⟩
    · rw [hw] at hwe
      cases hwe

/-- C10 at a line on which the grinder finds an instant, followed by a line on which it
finds none: the first entry carries the instant found, and `ingestFile` over the two
lines returns no error, with the second entry carrying the current time. -/
theorem ingestFile_goes_on_after_extraction_witness :
    singleFile.ingestLine plainFlags 7 [127, 0, 0, 1] ⟨[], 0, 0, []⟩
        { stampedLine with
          extract := TimeGrinder.Extract (Unix 1700000000 500000000, true) } ≠ .skipped
    ∧ (∃ ent st', singleFile.ingestLine plainFlags 7 [127, 0, 0, 1] ⟨[], 0, 0, []⟩
            { stampedLine with
              extract := TimeGrinder.Extract (Unix 1700000000 500000000, true) }
            = .ingested ent st'
          ∧ ent.TS = (if plainFlags.noTg then stampedLine.now
              else if (Unix 1700000000 500000000, true).2
                then (Unix 1700000000 500000000, true).1 else stampedLine.now)
          ∧ singleFile.ingestLines plainFlags 7 [127, 0, 0, 1] ⟨[], 0, 0, []⟩
              ({ stampedLine with
                  extract := TimeGrinder.Extract (Unix 1700000000 500000000, true) }
                :: [plainLine])
              = singleFile.ingestLines plainFlags 7 [127, 0, 0, 1] st' [plainLine])
    ∧ (singleFile.ingestFile plainFlags plainSetup 7 [stampedLine, plainLine]).toOption.map
          (fun st => st.sent.map (fun e => e.TS))
        = some [Unix 1700000000 500000000, Unix 1700000000 0] :=
  ⟨by decide,
   (ingestFile_goes_on_after_extraction plainFlags 7 [127, 0, 0, 1] ⟨[], 0, 0, []⟩
      stampedLine (Unix 1700000000 500000000, true) [plainLine] (by decide)).2.2.1
      (by decide),
   by decide⟩

/-! ## The calendar: `Date` and `absDate` are inverse to each other -/

/-- The arithmetic at the heart of `daysSinceEpoch` and `absDate`: cutting the days into
cycles of 400, 100, 4 and 1 years undoes the sum over those cycles, also on the last day
of a leap year, for which the counts of 100-year and 1-year cycles come out as 4. -/
theorem time.yearDay_core (ya yd d : Int) (hyd : 0 ≤ yd)
    (hyd2 : yd < 365 ∨ (yd = 365 ∧ ya % 4 = 3 ∧ (ya % 100 ≠ 99 ∨ ya % 400 = 399)))
    (hd : d = 146097 * (ya / 400) + 36524 * ((ya - 400 * (ya / 400)) / 100)
      + 1461 * ((ya - 400 * (ya / 400) - 100 * ((ya - 400 * (ya / 400)) / 100)) / 4)
      + 365 * (ya - 400 * (ya / 400) - 100 * ((ya - 400 * (ya / 400)) / 100)
          - 4 * ((ya - 400 * (ya / 400) - 100 * ((ya - 400 * (ya / 400)) / 100)) / 4)) + yd) :
    400 * (d / 146097)
      + 100 * ((d - 146097 * (d / 146097)) / 36524 - (d - 146097 * (d / 146097)) / 36524 / 4)
      + 4 * ((d - 146097 * (d / 146097) - 36524 * ((d - 146097 * (d / 146097)) / 36524
          - (d - 146097 * (d / 146097)) / 36524 / 4)) / 1461)
      + ((d - 146097 * (d / 146097) - 36524 * ((d - 146097 * (d / 146097)) / 36524
          - (d - 146097 * (d / 146097)) / 36524 / 4)
          - 1461 * ((d - 146097 * (d / 146097) - 36524 * ((d - 146097 * (d / 146097)) / 36524
          - (d - 146097 * (d / 146097)) / 36524 / 4)) / 1461)) / 365
        - (d - 146097 * (d / 146097) - 36524 * ((d - 146097 * (d / 146097)) / 36524
          - (d - 146097 * (d / 146097)) / 36524 / 4)
          - 1461 * ((d - 146097 * (d / 146097) - 36524 * ((d - 146097 * (d / 146097)) / 36524
          - (d - 146097 * (d / 146097)) / 36524 / 4)) / 1461)) / 365 / 4) = ya
    ∧ (d - 146097 * (d / 146097) - 36524 * ((d - 146097 * (d / 146097)) / 36524
          - (d - 146097 * (d / 146097)) / 36524 / 4)
          - 1461 * ((d - 146097 * (d / 146097) - 36524 * ((d - 146097 * (d / 146097)) / 36524
          - (d - 146097 * (d / 146097)) / 36524 / 4)) / 1461))
        - 365 * ((d - 146097 * (d / 146097) - 36524 * ((d - 146097 * (d / 146097)) / 36524
          - (d - 146097 * (d / 146097)) / 36524 / 4)
          - 1461 * ((d - 146097 * (d / 146097) - 36524 * ((d - 146097 * (d / 146097)) / 36524
          - (d - 146097 * (d / 146097)) / 36524 / 4)) / 1461)) / 365
        - (d - 146097 * (d / 146097) - 36524 * ((d - 146097 * (d / 146097)) / 36524
          - (d - 146097 * (d / 146097)) / 36524 / 4)
          - 1461 * ((d - 146097 * (d / 146097) - 36524 * ((d - 146097 * (d / 146097)) / 36524
          - (d - 146097 * (d / 146097)) / 36524 / 4)) / 1461)) / 365 / 4) = yd := by
  -- the digits of `ya` in the mixed radix 400 / 100 / 4 / 1
  obtain ⟨n1, hn1⟩ : ∃ n, n = ya / 400 := ⟨_, rfl⟩
  obtain ⟨n2, hn2⟩ : ∃ n, n = (ya - 400 * n1) / 100 := ⟨_, rfl⟩
  obtain ⟨n3, hn3⟩ : ∃ n, n = (ya - 400 * n1 - 100 * n2) / 4 := ⟨_, rfl⟩
  obtain ⟨y3, hy3⟩ : ∃ n, n = ya - 400 * n1 - 100 * n2 - 4 * n3 := ⟨_, rfl⟩
  rw [← hn1, ← hn2, ← hn3, ← hy3] at hd
  have e2 : 0 ≤ n2 ∧ n2 ≤ 3 := by omega
  have e4 : 0 ≤ n3 ∧ n3 ≤ 24 := by omega
  have e5 : 0 ≤ y3 ∧ y3 ≤ 3 := by omega
  have hleap : yd < 365 ∨ (yd = 365 ∧ y3 = 3 ∧ (n3 ≠ 24 ∨ n2 = 3)) := by
    rcases hyd2 with h | ⟨h1, h2, h3⟩
    · exact Or.inl h
    · right
      refine ⟨h1, by omega, ?_⟩
      omega
  obtain ⟨m1, hm1⟩ : ∃ n, n = d / 146097 := ⟨_, rfl⟩
  rw [← hm1]
  have hm1' : m1 = n1 := by omega
  obtain ⟨d1, hd1⟩ : ∃ n, n = d - 146097 * m1 := ⟨_, rfl⟩
  rw [← hd1]
  have hd1' : d1 = 36524 * n2 + 1461 * n3 + 365 * y3 + yd := by omega
  obtain ⟨m2, hm2⟩ : ∃ n, n = d1 / 36524 := ⟨_, rfl⟩
  rw [← hm2]
  have hm2' : m2 - m2 / 4 = n2 := by
    rcases hleap with h | ⟨h1, h2, h3⟩
    · have : m2 = n2 := by omega
      omega
    · rcases h3 with h3 | h3
      · have : m2 = n2 := by omega
        omega
      · have : m2 = 3 ∨ m2 = 4 := by omega
        omega
  rw [hm2']
  obtain ⟨d2, hd2⟩ : ∃ n, n = d1 - 36524 * n2 := ⟨_, rfl⟩
  rw [← hd2]
  have hd2' : d2 = 1461 * n3 + 365 * y3 + yd := by omega
  obtain ⟨m3, hm3⟩ : ∃ n, n = d2 / 1461 := ⟨_, rfl⟩
  rw [← hm3]
  have hm3' : m3 = n3 := by omega
  obtain ⟨d3, hd3⟩ : ∃ n, n = d2 - 1461 * m3 := ⟨_, rfl⟩
  rw [← hd3]
  have hd3' : d3 = 365 * y3 + yd := by omega
  obtain ⟨m4, hm4⟩ : ∃ n, n = d3 / 365 := ⟨_, rfl⟩
  rw [← hm4]
  have hm4' : m4 - m4 / 4 = y3 := by
    rcases hleap with h | ⟨h1, h2, h3⟩
    · have : m4 = y3 := by omega
      omega
    · have : m4 = 4 := by omega
      omega
  rw [hm4']
  constructor <;> omega

theorem time.isLeap_iff (year : Int) :
    time.isLeap year = true ↔ (year % 4 = 0 ∧ (year % 100 ≠ 0 ∨ year % 400 = 0)) := by
  unfold time.isLeap
  simp

/-- `absDate` recovers the year and the day of the year that `daysSinceEpoch` counts
from. -/
theorem time.absYearDay_days (year yd secs : Int) (hyd : 0 ≤ yd)
    (hyd2 : yd < 365 ∨ (yd = 365 ∧ time.isLeap year = true))
    (hs : 0 ≤ secs) (hs2 : secs < 86400) :
    time.absYearDay ((time.daysSinceEpoch year + yd) * 86400 + secs) = (year, yd) := by
  have hdiv : ((time.daysSinceEpoch year + yd) * 86400 + secs) / 86400
      = time.daysSinceEpoch year + yd := by omega
  unfold time.absYearDay
  simp only [time.secondsPerDay, hdiv, time.daysPer400Years, time.daysPer100Years,
    time.daysPer4Years]
  have hleap : yd < 365 ∨ (yd = 365 ∧ (year - time.absoluteZeroYear) % 4 = 3
      ∧ ((year - time.absoluteZeroYear) % 100 ≠ 99
        ∨ (year - time.absoluteZeroYear) % 400 = 399)) := by
    rcases hyd2 with h | ⟨h1, h2⟩
    · exact Or.inl h
    · right
      rw [time.isLeap_iff] at h2
      unfold time.absoluteZeroYear
      refine ⟨h1, by omega, by omega⟩
  have key := time.yearDay_core (year - time.absoluteZeroYear) yd
    (time.daysSinceEpoch year + yd) hyd hleap
    (by simp only [time.daysSinceEpoch, time.daysPer400Years, time.daysPer100Years,
          time.daysPer4Years])
  obtain ⟨k1, k2⟩ := key
  rw [k1, k2]
  simp

theorem time.wallSeconds_eq (y m d h mi s : Int) :
    time.wallSeconds y m d h mi s + time.unixToAbsolute
      = (time.daysSinceEpoch y
          + (time.daysBefore (m - 1) + (if time.isLeap y = true ∧ 3 ≤ m then 1 else 0) + (d - 1)))
          * 86400 + (h * 3600 + mi * 60 + s) := by
  unfold time.wallSeconds
  simp only [time.secondsPerDay]
  cases hL : time.isLeap y <;> by_cases h3 : 3 ≤ m <;> simp [h3] <;> ring

theorem time.absClock_wall (days h mi s : Int) (hh : 0 ≤ h) (hh2 : h < 24) (hmi : 0 ≤ mi)
    (hmi2 : mi < 60) (hs : 0 ≤ s) (hs2 : s < 60) :
    time.absClock (days * 86400 + (h * 3600 + mi * 60 + s)) = (h, mi, s) := by
  unfold time.absClock
  simp only [time.secondsPerDay]
  have h1 : (days * 86400 + (h * 3600 + mi * 60 + s)) % 86400 = h * 3600 + mi * 60 + s := by
    omega
  rw [h1]
  have h2 : (h * 3600 + mi * 60 + s) / 3600 = h := by omega
  rw [h2]
  have h3 : (h * 3600 + mi * 60 + s - h * 3600) / 60 = mi := by omega
  rw [h3]
  simp only [Prod.mk.injEq, true_and]
  omega

/-- The day of the year that `Date` counts for a month and a day of the month. -/
theorem time.yearDay_bounds (y m d : Int) (hm : 1 ≤ m) (hm2 : m ≤ 12) (hd : 1 ≤ d)
    (hd2 : d ≤ time.daysIn m 0) :
    0 ≤ time.daysBefore (m - 1) + (if time.isLeap y = true ∧ 3 ≤ m then 1 else 0) + (d - 1)
    ∧ (time.daysBefore (m - 1) + (if time.isLeap y = true ∧ 3 ≤ m then 1 else 0) + (d - 1) < 365
      ∨ (time.daysBefore (m - 1) + (if time.isLeap y = true ∧ 3 ≤ m then 1 else 0) + (d - 1)
          = 365 ∧ time.isLeap y = true)) := by
  have hm' : m = 1 ∨ m = 2 ∨ m = 3 ∨ m = 4 ∨ m = 5 ∨ m = 6 ∨ m = 7 ∨ m = 8 ∨ m = 9
      ∨ m = 10 ∨ m = 11 ∨ m = 12 := by omega
  rcases hm' with rfl | rfl | rfl | rfl | rfl | rfl | rfl | rfl | rfl | rfl | rfl | rfl <;>
    simp [time.daysIn, time.daysBefore, time.isLeap] at hd2 <;>
    cases hL : time.isLeap y <;>
    simp [time.daysBefore] <;> omega

/-- The year of a wall-clock reading is the year given to `Date`, for every day that
some year has in the month; 29 February of a common year falls on 1 March. -/
theorem time.absYearDay_wallSeconds (y m d h mi s : Int) (hm : 1 ≤ m) (hm2 : m ≤ 12)
    (hd : 1 ≤ d) (hd2 : d ≤ time.daysIn m 0) (hh : 0 ≤ h) (hh2 : h < 24) (hmi : 0 ≤ mi)
    (hmi2 : mi < 60) (hs : 0 ≤ s) (hs2 : s < 60) :
    (time.absYearDay (time.wallSeconds y m d h mi s + time.unixToAbsolute)).1 = y := by
  rw [time.wallSeconds_eq]
  obtain ⟨b1, b2⟩ := time.yearDay_bounds y m d hm hm2 hd hd2
  rw [time.absYearDay_days y _ _ b1 b2 (by omega) (by omega)]

/-- The month estimate of `absDate` is right: the day `e` of month `m`, counted from the
start of a common year, is found again. -/
theorem time.monthOfDay_daysBefore (m e : Int) (hm : 1 ≤ m) (hm2 : m ≤ 12) (he : 0 ≤ e)
    (he2 : e < time.daysBefore m - time.daysBefore (m - 1)) :
    time.monthOfDay (time.daysBefore (m - 1) + e) = (m, e + 1) := by
  unfold time.monthOfDay
  simp only
  have hm' : m = 1 ∨ m = 2 ∨ m = 3 ∨ m = 4 ∨ m = 5 ∨ m = 6 ∨ m = 7 ∨ m = 8 ∨ m = 9
      ∨ m = 10 ∨ m = 11 ∨ m = 12 := by omega
  rcases hm' with rfl | rfl | rfl | rfl | rfl | rfl | rfl | rfl | rfl | rfl | rfl | rfl <;>
    simp only [time.daysBefore] at he2 <;> norm_num at he2 <;>
    generalize hq : (time.daysBefore _ + e) / 31 = q <;>
    simp only [time.daysBefore] at hq <;> norm_num at hq <;>
    (have hq' : q = 0 ∨ q = 1 ∨ q = 2 ∨ q = 3 ∨ q = 4 ∨ q = 5 ∨ q = 6 ∨ q = 7 ∨ q = 8
        ∨ q = 9 ∨ q = 10 ∨ q = 11 := by omega) <;>
    rcases hq' with rfl | rfl | rfl | rfl | rfl | rfl | rfl | rfl | rfl | rfl | rfl | rfl <;>
    first
      | omega
      | (simp only [time.daysBefore]; norm_num; omega)
      | (simp only [time.daysBefore]; norm_num; split_ifs <;> simp <;> omega)

theorem time.monthDay_yearDay (leap : Bool) (m d : Int) (hm : 1 ≤ m) (hm2 : m ≤ 12)
    (hd : 1 ≤ d)
    (hd2 : d ≤ (if m = 2 ∧ leap = true then 29 else time.daysBefore m - time.daysBefore (m - 1))) :
    time.monthDay leap
      (time.daysBefore (m - 1) + (if leap = true ∧ 3 ≤ m then 1 else 0) + (d - 1)) = (m, d) := by
  have key := time.monthOfDay_daysBefore m (d - 1) hm hm2 (by omega)
  unfold time.monthDay
  cases leap with
  | false =>
    simp only [Bool.false_eq_true, and_false, false_and, if_false, Bool.false_and] at hd2 ⊢
    rw [add_zero, key (by omega)]
    simp
  | true =>
    by_cases h29 : m = 2 ∧ d = 29
    · obtain ⟨rfl, rfl⟩ := h29
      simp [time.daysBefore]
    · have hd3 : d - 1 < time.daysBefore m - time.daysBefore (m - 1) := by
        split_ifs at hd2 with h
        · obtain ⟨rfl, _⟩ := h
          simp only [time.daysBefore]
          norm_num
          omega
        · omega
      have hm' : m = 1 ∨ m = 2 ∨ 3 ≤ m := by omega
      rcases hm' with rfl | rfl | h3
      · simp only [time.daysBefore] at hd3 key ⊢
        norm_num at hd3 key ⊢
        have h1 : ¬ (d - 1 = 59) := by omega
        have h2 : ¬ (59 < d - 1) := by omega
        simp only [h1, h2, if_false]
        exact key hd3
      · simp only [time.daysBefore] at hd3 key ⊢
        norm_num at hd3 key ⊢
        have h1 : ¬ (31 + (d - 1) = 59) := by omega
        have h2 : ¬ (59 < 31 + (d - 1)) := by omega
        simp only [h1, h2, if_false]
        exact key hd3
      · have hb : 59 ≤ time.daysBefore (m - 1) := by
          have hm' : m = 3 ∨ m = 4 ∨ m = 5 ∨ m = 6 ∨ m = 7 ∨ m = 8 ∨ m = 9
            ∨ m = 10 ∨ m = 11 ∨ m = 12 := by omega
          rcases hm' with rfl | rfl | rfl | rfl | rfl | rfl | rfl | rfl | rfl | rfl <;>
            simp [time.daysBefore]
        simp only [h3, and_self, if_true, Bool.true_and, beq_iff_eq, decide_eq_true_eq]
        have h1 : ¬ (time.daysBefore (m - 1) + 1 + (d - 1) = 31 + 29 - 1) := by omega
        have h2 : time.daysBefore (m - 1) + 1 + (d - 1) > 31 + 29 - 1 := by omega
        simp only [h1, h2, if_false, if_true]
        have : time.daysBefore (m - 1) + 1 + (d - 1) - 1 = time.daysBefore (m - 1) + (d - 1) := by
          omega
        rw [this, key hd3]
        simp

theorem time.daysIn_le_leap (m y : Int) : time.daysIn m y ≤ time.daysIn m 0 := by
  unfold time.daysIn
  by_cases h2 : m = 2
  · subst h2
    cases hL : time.isLeap y <;> simp [time.isLeap, time.daysBefore]
  · simp [h2]

/-- `absDate` and `absClock` undo `Date`: a wall-clock reading with a valid date and time
of day is read back field by field. -/
theorem time.absDate_wallSeconds (y m d h mi s : Int) (hm : 1 ≤ m) (hm2 : m ≤ 12)
    (hd : 1 ≤ d) (hd2 : d ≤ time.daysIn m y) (hh : 0 ≤ h) (hh2 : h < 24) (hmi : 0 ≤ mi)
    (hmi2 : mi < 60) (hs : 0 ≤ s) (hs2 : s < 60) :
    (time.absDate (time.wallSeconds y m d h mi s + time.unixToAbsolute)).1 = y
    ∧ (time.absDate (time.wallSeconds y m d h mi s + time.unixToAbsolute)).2.1 = m
    ∧ (time.absDate (time.wallSeconds y m d h mi s + time.unixToAbsolute)).2.2.1 = d
    ∧ time.absClock (time.wallSeconds y m d h mi s + time.unixToAbsolute) = (h, mi, s) := by
  have hd0 : d ≤ time.daysIn m 0 := le_trans hd2 (time.daysIn_le_leap m y)
  rw [time.wallSeconds_eq]
  obtain ⟨b1, b2⟩ := time.yearDay_bounds y m d hm hm2 hd hd0
  have hY := time.absYearDay_days y _ (h * 3600 + mi * 60 + s) b1 b2 (by omega) (by omega)
  unfold time.daysIn at hd2
  have hMD := time.monthDay_yearDay (time.isLeap y) m d hm hm2 hd hd2
  refine ⟨?_, ?_, ?_, time.absClock_wall _ h mi s hh hh2 hmi hmi2 hs hs2⟩ <;>
    simp only [time.absDate, hY, hMD]

theorem time.norm_inRange (hi lo base : Int) (h0 : 0 ≤ lo) (h1 : lo < base) :
    time.norm hi lo base = (hi, lo) := by
  unfold time.norm
  have a : ¬ lo < 0 := by omega
  have b : ¬ lo ≥ base := by omega
  simp [a, b]

/-- `Date` on fields that need no normalising. -/
theorem time.Date_inRange (y m d h mi s ns : Int) (loc : time.Location) (hm : 1 ≤ m)
    (hm2 : m ≤ 12) (hh : 0 ≤ h) (hh2 : h < 24) (hmi : 0 ≤ mi) (hmi2 : mi < 60) (hs : 0 ≤ s)
    (hs2 : s < 60) (hns : 0 ≤ ns) (hns2 : ns < 1000000000) :
    time.Date y m d h mi s ns loc = ⟨loc.unixOfWall (time.wallSeconds y m d h mi s), ns, loc⟩ := by
  unfold time.Date
  simp only [time.norm_inRange y (m - 1) 12 (by omega) (by omega),
    time.norm_inRange s ns 1000000000 hns hns2, time.norm_inRange mi s 60 hs hs2,
    time.norm_inRange h mi 60 hmi hmi2, time.norm_inRange d h 24 hh hh2]
  simp

/-- In a zone that shows the wall-clock reading `w`, the time `Date` builds for it reads
back as `w`. -/
theorem time.abs_of_shows (loc : time.Location) (w ns : Int) (h : loc.shows w) :
    (⟨loc.unixOfWall w, ns, loc⟩ : time.Time).abs = w + time.unixToAbsolute := by
  unfold time.Time.abs
  unfold time.Location.shows at h
  simp only
  omega

theorem time.lookup_UTC (sec : Int) : (time.UTC.lookup sec).offset = 0 := by
  simp [time.Location.lookup, time.UTC]

theorem time.unixOfWall_UTC (w : Int) : time.UTC.unixOfWall w = w := by
  simp [time.Location.unixOfWall, time.lookup_UTC]

theorem time.shows_UTC (w : Int) : time.UTC.shows w := by
  simp [time.Location.shows, time.unixOfWall_UTC, time.lookup_UTC]

/-! ## Invariants of `time.ParseInLocation` -/

theorem time.parseStd_year (std : Std) (next : Option Std) (f f' : Fields) (v v' : List Nat)
    (hy : std.isYear = false) (h : parseStd std next f v = .ok (f', v')) : f'.year = f.year := by
  cases std <;> simp only [Std.isYear] at hy <;> simp only [parseStd] at h <;>
    (repeat' split at h) <;> simp_all <;> (try (obtain ⟨rfl, _⟩ := h; rfl))

theorem time.parseStd_zone (std : Std) (next : Option Std) (f f' : Fields) (v v' : List Nat)
    (hz : std.isZone = false) (h : parseStd std next f v = .ok (f', v')) :
    f'.z = f.z ∧ f'.zoneOffset = f.zoneOffset ∧ f'.zoneName = f.zoneName := by
  cases std <;> simp only [Std.isZone] at hz <;> simp only [parseStd] at h <;>
    (repeat' split at h) <;> simp_all <;> (try (obtain ⟨rfl, _⟩ := h; exact ⟨rfl, rfl, rfl⟩))

theorem time.leadingInt_bound (s : List Nat) (x : Nat) (r : Nat) (rest : List Nat)
    (h : leadingInt x s = (r, rest)) (hr : rest.length = 0) :
    r < (x + 1) * 10 ^ s.length := by
  induction s generalizing x with
  | nil =>
    simp only [leadingInt, Prod.mk.injEq] at h
    obtain ⟨rfl, _⟩ := h
    simp
  | cons c t ih =>
    unfold leadingInt at h
    split_ifs at h with hc
    · have := ih _ h
      simp only [isDigitByte, Bool.and_eq_true, decide_eq_true_eq] at hc
      have h9 : c - 0x30 ≤ 9 := by omega
      calc r < (x * 10 + (c - 0x30) + 1) * 10 ^ t.length := this
        _ ≤ ((x + 1) * 10) * 10 ^ t.length := by
            apply Nat.mul_le_mul_right
            omega
        _ = (x + 1) * 10 ^ (c :: t).length := by
            simp only [List.length_cons, pow_succ]
            ring
    · simp only [Prod.mk.injEq] at h
      obtain ⟨_, rfl⟩ := h
      simp at hr

theorem time.atoi_bound (s : List Nat) (x : Int) (h : atoi s = some x) (hx : 0 ≤ x) :
    x < 10 ^ s.length := by
  unfold atoi at h
  simp only at h
  generalize hs' : (if s.head? = some 0x2D ∨ s.head? = some 0x2B then s.tail else s) = s' at h
  have hlen : s'.length ≤ s.length := by
    rw [← hs']
    split_ifs <;> simp
  have hp : (10 : Nat) ^ s'.length ≤ 10 ^ s.length := Nat.pow_le_pow_right (by norm_num) hlen
  split_ifs at h with h1 h2
  · simp only [Option.some.injEq] at h
    have : (0 : Int) ≤ (leadingInt 0 s').1 := Int.ofNat_nonneg _
    have hz : x = 0 := by omega
    rw [hz]
    positivity
  · simp only [Option.some.injEq] at h
    have hb := time.leadingInt_bound s' 0 _ _ rfl (by omega : (leadingInt 0 s').2.length = 0)
    rw [← h]
    have h3 : (leadingInt 0 s').1 < 10 ^ s.length := by omega
    exact_mod_cast h3

theorem time.parseNanoseconds_range (value : List Nat) (nbytes : Nat) (ns : Int)
    (h : parseNanoseconds value nbytes = .ok ns) : 0 ≤ ns ∧ ns < 1000000000 := by
  unfold parseNanoseconds at h
  cases value with
  | nil => simp at h
  | cons c t =>
    simp only at h
    generalize hn : (if nbytes > 10 then 10 else nbytes) = n at h
    split_ifs at h with h1
    have hn10 : n ≤ 10 := by rw [← hn]; split_ifs <;> omega
    split at h
    · simp at h
    · rename_i x hx
      split_ifs at h with h2
      simp only [Except.ok.injEq] at h
      have hx0 : 0 ≤ x := by omega
      have hb := time.atoi_bound _ x hx hx0
      have hlen : (List.drop 1 (List.take n (c :: t))).length ≤ n - 1 := by
        simp only [List.length_drop, List.length_take]
        omega
      have hp : (10 : Int) ^ (List.drop 1 (List.take n (c :: t))).length ≤ 10 ^ (n - 1) :=
        pow_le_pow_right₀ (by norm_num) hlen
      have hx1 : x < 10 ^ (n - 1) := lt_of_lt_of_le hb hp
      rw [← h]
      refine ⟨by positivity, ?_⟩
      interval_cases n <;> norm_num at hx1 ⊢ <;> omega

theorem time.lookup_index (tab : List (List Nat)) (val rest : List Nat) (i : Nat)
    (h : lookup tab val = some (i, rest)) : i < tab.length := by
  unfold lookup at h
  split at h
  · rename_i j hj
    simp only [Option.some.injEq, Prod.mk.injEq] at h
    obtain ⟨rfl, _⟩ := h
    exact (List.findIdx?_eq_some_iff_findIdx_eq.mp hj).1
  · simp at h

/-- Every element read keeps the fields within range. -/
theorem time.parseStd_inRange (std : Std) (next : Option Std) (f f' : Fields)
    (v v' : List Nat) (hf : f.inRange) (h : parseStd std next f v = .ok (f', v')) :
    f'.inRange := by
  unfold Fields.inRange at hf ⊢
  obtain ⟨h1, h2, h3, h4, h5, h6, h7, h8, h9⟩ := hf
  cases std
  case stdMonth =>
    simp only [parseStd] at h
    split at h
    · simp at h
    · rename_i i value hl
      have := time.lookup_index _ _ _ _ hl
      simp only [shortMonthNames, List.length_cons, List.length_nil] at this
      simp only [Except.ok.injEq, Prod.mk.injEq] at h
      obtain ⟨rfl, _⟩ := h
      simp only
      exact ⟨h1, h2, h3, h4, h5, h6, h7, h8, Or.inr ⟨by omega, by omega⟩⟩
  case stdZeroSecond =>
    simp only [parseStd] at h
    split at h
    · simp at h
    · rename_i sec value hg
      split_ifs at h with hs hfr
      · split at h
        · simp at h
        · rename_i ns hns
          have := time.parseNanoseconds_range _ _ _ hns
          simp only [Except.ok.injEq, Prod.mk.injEq] at h
          obtain ⟨rfl, _⟩ := h
          simp only
          exact ⟨h1, h2, h3, h4, by omega, by omega, this.1, this.2, h9⟩
      · simp only [Except.ok.injEq, Prod.mk.injEq] at h
        obtain ⟨rfl, _⟩ := h
        simp only
        exact ⟨h1, h2, h3, h4, by omega, by omega, h7, h8, h9⟩
  case stdFracSecond0 n =>
    simp only [parseStd] at h
    split_ifs at h with hl
    split at h
    · simp at h
    · rename_i ns hns
      have := time.parseNanoseconds_range _ _ _ hns
      simp only [Except.ok.injEq, Prod.mk.injEq] at h
      obtain ⟨rfl, _⟩ := h
      exact ⟨h1, h2, h3, h4, h5, h6, this.1, this.2, h9⟩
  case stdFracSecond9 n =>
    simp only [parseStd] at h
    split_ifs at h with hl
    · simp only [Except.ok.injEq, Prod.mk.injEq] at h
      obtain ⟨rfl, _⟩ := h
      exact ⟨h1, h2, h3, h4, h5, h6, h7, h8, h9⟩
    · split at h
      · simp at h
      · rename_i ns hns
        have := time.parseNanoseconds_range _ _ _ hns
        simp only [Except.ok.injEq, Prod.mk.injEq] at h
        obtain ⟨rfl, _⟩ := h
        exact ⟨h1, h2, h3, h4, h5, h6, this.1, this.2, h9⟩
  all_goals
    simp only [parseStd] at h
    (repeat' split at h) <;> simp_all <;>
      (try (obtain ⟨rfl, _⟩ := h; simp only; refine ⟨?_, ?_, ?_, ?_, ?_, ?_, ?_, ?_, ?_⟩ <;> first | assumption | omega))

theorem time.parseLoop_invariants (suffix : List Nat) (chunks : List (List Nat × Std))
    (f f' : Fields) (v : List Nat) (h : parseLoop suffix chunks f v = .ok f') :
    (f.inRange → f'.inRange)
    ∧ (chunks.all (fun c => !c.2.isYear) = true → f'.year = f.year)
    ∧ (chunks.all (fun c => !c.2.isZone) = true →
        f'.z = f.z ∧ f'.zoneOffset = f.zoneOffset ∧ f'.zoneName = f.zoneName) := by
  induction chunks generalizing f v with
  | nil =>
    unfold parseLoop at h
    split at h
    · simp at h
    · split_ifs at h
      simp only [Except.ok.injEq] at h
      subst h
      exact ⟨id, fun _ => rfl, fun _ => ⟨rfl, rfl, rfl⟩⟩
  | cons c rest ih =>
    obtain ⟨pre, std⟩ := c
    unfold parseLoop at h
    split at h
    · simp at h
    · rename_i value hskip
      split at h
      · simp at h
      · rename_i f1 v1 hstd
        obtain ⟨i1, i2, i3⟩ := ih f1 v1 h
        refine ⟨fun hf => i1 (time.parseStd_inRange _ _ _ _ _ _ hf hstd), ?_, ?_⟩
        · intro hall
          simp only [List.all_cons, Bool.and_eq_true, Bool.not_eq_true'] at hall
          rw [i2 hall.2, time.parseStd_year _ _ _ _ _ _ hall.1 hstd]
        · intro hall
          simp only [List.all_cons, Bool.and_eq_true, Bool.not_eq_true'] at hall
          obtain ⟨j1, j2, j3⟩ := time.parseStd_zone _ _ _ _ _ _ hall.1 hstd
          obtain ⟨k1, k2, k3⟩ := i3 hall.2
          exact ⟨k1.trans j1, k2.trans j2, k3.trans j3⟩

theorem time.init_inRange : Fields.init.inRange := by
  unfold Fields.inRange Fields.init
  simp

theorem time.buildTime_naive (f : Fields) (dl loc : Location) (z1 : f.z = none)
    (z2 : f.zoneOffset = -1) (z3 : f.zoneName = []) :
    buildTime f dl loc
      = if (if f.day < 0 then 1 else f.day) < 1 ∨ (if f.day < 0 then 1 else f.day)
            > daysIn (if f.month < 0 then 1 else f.month) f.year then .error .dayOutOfRange
        else .ok (Date f.year (if f.month < 0 then 1 else f.month)
          (if f.day < 0 then 1 else f.day) f.hour f.min f.sec f.nsec dl) := by
  simp only [buildTime, z1, z2, z3]
  simp

/-- What `ParseInLocation` returns for a layout without zone element: the fields read,
when the day exists in the month, given to `Date` with the location passed in. -/
theorem time.ParseInLocation_zoneNaive (layout : Layout) (value : List Nat) (loc : Location)
    (t : Time) (hz : layout.zoneNaive = true) (h : ParseInLocation layout value loc = .ok t) :
    ∃ f : Fields, parseLoop layout.suffix layout.chunks Fields.init value = .ok f
      ∧ f.inRange
      ∧ 1 ≤ (if f.month < 0 then 1 else f.month) ∧ (if f.month < 0 then 1 else f.month) ≤ 12
      ∧ 1 ≤ (if f.day < 0 then 1 else f.day)
      ∧ (if f.day < 0 then 1 else f.day) ≤ daysIn (if f.month < 0 then 1 else f.month) f.year
      ∧ (layout.yearless = true → f.year = 0)
      ∧ ∀ l : Location, ParseInLocation layout value l
          = .ok ⟨l.unixOfWall (wallSeconds f.year (if f.month < 0 then 1 else f.month)
              (if f.day < 0 then 1 else f.day) f.hour f.min f.sec), f.nsec, l⟩ := by
  unfold ParseInLocation parse at h
  cases hp : parseLoop layout.suffix layout.chunks Fields.init value with
  | error e => simp [hp] at h
  | ok f =>
    obtain ⟨i1, i2, i3⟩ := time.parseLoop_invariants _ _ _ _ _ hp
    have hr := i1 time.init_inRange
    obtain ⟨z1, z2, z3⟩ := i3 hz
    simp only [Fields.init] at z1 z2 z3
    have hr' := hr
    obtain ⟨h1, h2, h3, h4, h5, h6, h7, h8, h9⟩ := hr'
    have hm : 1 ≤ (if f.month < 0 then 1 else f.month)
        ∧ (if f.month < 0 then 1 else f.month) ≤ 12 := by
      split_ifs <;> omega
    simp only [hp, time.buildTime_naive f _ _ z1 z2 z3] at h
    by_cases hday : (if f.day < 0 then 1 else f.day) < 1 ∨ (if f.day < 0 then 1 else f.day)
            > daysIn (if f.month < 0 then 1 else f.month) f.year
    · simp [hday] at h
    · have hd : 1 ≤ (if f.day < 0 then 1 else f.day) ∧ (if f.day < 0 then 1 else f.day)
          ≤ daysIn (if f.month < 0 then 1 else f.month) f.year := by
        constructor <;> omega
      refine ⟨f, rfl, hr, hm.1, hm.2, hd.1, hd.2, ?_, ?_⟩
      · intro hy
        have := i2 hy
        simpa [Fields.init] using this
      · intro l
        unfold ParseInLocation parse
        simp only [hp, time.buildTime_naive f _ _ z1 z2 z3, hday, if_false]
        rw [time.Date_inRange _ _ _ _ _ _ _ l hm.1 hm.2 h1 h2 h3 h4 h5 h6 h7 h8]

/-! ## Zone-naive variants under two locations; the year-inferring processor -/

theorem time.unixOfWall_offset (loc : Location) (w : Int) :
    ∃ u, w - loc.unixOfWall w = (loc.lookup u).offset := by
  unfold Location.unixOfWall
  simp only
  split_ifs with h1 h2
  · exact ⟨w - (loc.lookup w).offset, by omega⟩
  · exact ⟨w, by omega⟩
  · exact ⟨w, by simp only [ne_eq, not_not] at h1; omega⟩

theorem timegrinder.Extract_found (a : processor) (d : List Nat) (loc : Location) (t : Time)
    (h : a.Extract d loc = (t, true)) :
    ∃ sub, a.rxp.Find d = some sub ∧ sub ≠ [] ∧ ParseInLocation a.format sub loc = .ok t := by
  unfold processor.Extract at h
  simp only at h
  cases hf : a.rxp.Find d with
  | none => simp [hf, regexp.len] at h
  | some sub =>
    simp only [hf, regexp.len, Option.getD_some] at h
    split_ifs at h with h0
    · simp at h
    · cases hp : ParseInLocation a.format sub loc with
      | error e => simp [hp] at h
      | ok t' =>
        simp only [hp, Prod.mk.injEq, and_true] at h
        subst h
        exact ⟨sub, rfl, by intro hs; simp [hs] at h0, hp⟩

theorem timegrinder.Extract_of_parse (a : processor) (d sub : List Nat) (loc : Location)
    (t : Time) (hf : a.rxp.Find d = some sub) (hne : sub ≠ [])
    (hp : ParseInLocation a.format sub loc = .ok t) : a.Extract d loc = (t, true) := by
  unfold processor.Extract
  have h0 : ¬ sub.length = 0 := by
    intro h
    exact hne (List.length_eq_zero.mp h)
  simp [hf, regexp.len, h0, hp]

/-- C7, as the code has it.  For a standard processor with a zone-naive layout and an
input on which it finds a timestamp under UTC, it finds one under any location `loc`
too, with the same nanoseconds; the instant under UTC minus the instant under `loc` is an
offset of the zone of `loc`.  Whenever the zone shows the wall-clock reading parsed (no
transition skips it), that offset is the zone's offset at the returned instant and the two
results have identical wall-clock fields. -/
theorem Extract_zoneNaive_shift (a : processor) (d : List Nat) (loc : Location) (tU : Time)
    (hz : a.format.zoneNaive = true) (h : a.Extract d UTC = (tU, true)) :
    ∃ tL, a.Extract d loc = (tL, true)
      ∧ tL.nsec = tU.nsec ∧ tL.loc = loc
      ∧ tL.sec = loc.unixOfWall tU.sec
      ∧ (∃ u, tU.sec - tL.sec = (loc.lookup u).offset)
      ∧ (loc.shows tU.sec →
          tU.sec - tL.sec = (loc.lookup tL.sec).offset
          ∧ tL.abs = tU.abs ∧ tL.Date = tU.Date ∧ tL.Clock = tU.Clock) := by
  obtain ⟨sub, hf, hne, hp⟩ := timegrinder.Extract_found a d UTC tU h
  obtain ⟨f, _, _, _, _, _, _, _, hall⟩ := time.ParseInLocation_zoneNaive _ _ _ _ hz hp
  generalize wallSeconds f.year (if f.month < 0 then 1 else f.month)
    (if f.day < 0 then 1 else f.day) f.hour f.min f.sec = W at hall
  have hU := hall UTC
  rw [hp, time.unixOfWall_UTC] at hU
  simp only [Except.ok.injEq] at hU
  subst hU
  refine ⟨_, timegrinder.Extract_of_parse a d sub loc _ hf hne (hall loc), rfl, rfl, rfl,
    time.unixOfWall_offset loc _, ?_⟩
  intro hs
  have hs' : loc.shows W := hs
  have habs : (⟨loc.unixOfWall W, f.nsec, loc⟩ : Time).abs = W + unixToAbsolute :=
    time.abs_of_shows loc W f.nsec hs'
  have habsU : (⟨W, f.nsec, UTC⟩ : Time).abs = W + unixToAbsolute := by
    have := time.abs_of_shows UTC W f.nsec (time.shows_UTC W)
    rwa [time.unixOfWall_UTC] at this
  refine ⟨?_, ?_, ?_, ?_⟩
  · unfold Location.shows at hs'
    show W - loc.unixOfWall W = (loc.lookup (loc.unixOfWall W)).offset
    omega
  · show (⟨loc.unixOfWall W, f.nsec, loc⟩ : Time).abs = (⟨W, f.nsec, UTC⟩ : Time).abs
    rw [habs, habsU]
  · show (⟨loc.unixOfWall W, f.nsec, loc⟩ : Time).Date = (⟨W, f.nsec, UTC⟩ : Time).Date
    unfold Time.Date
    rw [habs, habsU]
  · show (⟨loc.unixOfWall W, f.nsec, loc⟩ : Time).Clock = (⟨W, f.nsec, UTC⟩ : Time).Clock
    unfold Time.Clock
    rw [habs, habsU]

/-- C7 at the line "Mar 12 01:30:00 2023" for the ANSI C processor, under UTC and under
a zone five hours behind UTC at that reading. -/
theorem Extract_zoneNaive_shift_witness :
    NewAnsiCProcessor.format.zoneNaive = true
    ∧ NewAnsiCProcessor.Extract (ascii "Mar 12 01:30:00 2023") UTC
        = (⟨1678584600, 0, UTC⟩, true)
    ∧ ∃ tL, NewAnsiCProcessor.Extract (ascii "Mar 12 01:30:00 2023") springForward = (tL, true)
      ∧ tL.nsec = (⟨1678584600, 0, UTC⟩ : Time).nsec ∧ tL.loc = springForward
      ∧ tL.sec = springForward.unixOfWall (⟨1678584600, 0, UTC⟩ : Time).sec
      ∧ (∃ u, (⟨1678584600, 0, UTC⟩ : Time).sec - tL.sec = (springForward.lookup u).offset)
      ∧ (springForward.shows (⟨1678584600, 0, UTC⟩ : Time).sec →
          (⟨1678584600, 0, UTC⟩ : Time).sec - tL.sec = (springForward.lookup tL.sec).offset
          ∧ tL.abs = (⟨1678584600, 0, UTC⟩ : Time).abs
          ∧ tL.Date = (⟨1678584600, 0, UTC⟩ : Time).Date
          ∧ tL.Clock = (⟨1678584600, 0, UTC⟩ : Time).Clock) :=
  ⟨by decide!, by decide!,
   Extract_zoneNaive_shift NewAnsiCProcessor (ascii "Mar 12 01:30:00 2023") springForward
     ⟨1678584600, 0, UTC⟩ (by decide!) (by decide!)⟩

/-- C7 as stated fails: for the ANSI C processor, whose layout `Jan _2 15:04:05 2006` is
zone-naive, and the line "Mar 12 02:30:00 2023", the instant under UTC minus the instant
under a zone whose clocks go forward from 02:00 to 03:00 that day is -14400 seconds, while
the offset of the zone at the returned instant is -18000 seconds; the wall clock of the
returned instant reads 01:30:00, not 02:30:00. -/
theorem Extract_zoneNaive_gap :
    NewAnsiCProcessor.format.zoneNaive = true
    ∧ (NewAnsiCProcessor.Extract (ascii "Mar 12 02:30:00 2023") UTC).2 = true
    ∧ (NewAnsiCProcessor.Extract (ascii "Mar 12 02:30:00 2023") springForward).2 = true
    ∧ (NewAnsiCProcessor.Extract (ascii "Mar 12 02:30:00 2023") UTC).1.sec
        - (NewAnsiCProcessor.Extract (ascii "Mar 12 02:30:00 2023") springForward).1.sec
        = -14400
    ∧ (springForward.lookup
        (NewAnsiCProcessor.Extract (ascii "Mar 12 02:30:00 2023") springForward).1.sec).offset
        = -18000
    ∧ (NewAnsiCProcessor.Extract (ascii "Mar 12 02:30:00 2023") UTC).1.Clock = (2, 30, 0)
    ∧ (NewAnsiCProcessor.Extract (ascii "Mar 12 02:30:00 2023") springForward).1.Clock
        = (1, 30, 0) := by
  have hU : NewAnsiCProcessor.Extract (ascii "Mar 12 02:30:00 2023") UTC
      = (⟨1678588200, 0, UTC⟩, true) := by decide!
  have hL : NewAnsiCProcessor.Extract (ascii "Mar 12 02:30:00 2023") springForward
      = (⟨1678602600, 0, springForward⟩, true) := by decide!
  rw [hU, hL]
  refine ⟨by decide!, rfl, rfl, by decide!, by decide!, by decide!, by decide!⟩

/-- `AddDate` of whole years on a time that `Date` built for a valid date and time of day,
in a zone that shows its wall-clock reading: `Date` again, with the year moved. -/
theorem time.AddDate_years (loc : Location) (y m d h mi s ns years : Int) (hm : 1 ≤ m)
    (hm2 : m ≤ 12) (hd : 1 ≤ d) (hd2 : d ≤ daysIn m y) (hh : 0 ≤ h) (hh2 : h < 24)
    (hmi : 0 ≤ mi) (hmi2 : mi < 60) (hs : 0 ≤ s) (hs2 : s < 60) (hns : 0 ≤ ns)
    (hns2 : ns < 1000000000) (hshow : loc.shows (wallSeconds y m d h mi s)) :
    (⟨loc.unixOfWall (wallSeconds y m d h mi s), ns, loc⟩ : Time).AddDate years 0 0
      = ⟨loc.unixOfWall (wallSeconds (y + years) m d h mi s), ns, loc⟩ := by
  have habs := time.abs_of_shows loc _ ns hshow
  obtain ⟨e1, e2, e3, e4⟩ := time.absDate_wallSeconds y m d h mi s hm hm2 hd hd2 hh hh2 hmi
    hmi2 hs hs2
  unfold Time.AddDate Time.Date Time.Clock
  rw [habs]
  simp only [e1, e2, e3, e4, add_zero]
  exact time.Date_inRange _ _ _ _ _ _ _ loc hm hm2 hh hh2 hmi hmi2 hs hs2 hns hns2

/-- The year of a time that `Date` built, in a zone that shows its wall-clock reading. -/
theorem time.Year_of_shows (loc : Location) (y m d h mi s ns : Int) (hm : 1 ≤ m)
    (hm2 : m ≤ 12) (hd : 1 ≤ d) (hd2 : d ≤ daysIn m 0) (hh : 0 ≤ h) (hh2 : h < 24)
    (hmi : 0 ≤ mi) (hmi2 : mi < 60) (hs : 0 ≤ s) (hs2 : s < 60)
    (hshow : loc.shows (wallSeconds y m d h mi s)) :
    (⟨loc.unixOfWall (wallSeconds y m d h mi s), ns, loc⟩ : Time).Year = y := by
  unfold Time.Year
  rw [time.abs_of_shows loc _ ns hshow]
  exact time.absYearDay_wallSeconds y m d h mi s hm hm2 hd hd2 hh hh2 hmi hmi2 hs hs2

/-- C2, as the code has it.  Let the layout of the year-inferring processor have neither a
year nor a zone element, and let the line be one on which its pattern matches and its
layout parses, `w` being the wall-clock reading parsed (the result under UTC, in year 0).
In every location whose zone shows that reading both in year 0 and in the current year
(no transition skips it), `Extract` reports found and returns an instant whose year is
the current year. -/
theorem syslog_Extract_year (c : Formats) (now : Time) (d : List Nat) (loc : Location)
    (w : Time) (hy : c.SYSLOG_FORMAT.yearless = true) (hz : c.SYSLOG_FORMAT.zoneNaive = true)
    (hw : (NewSyslogProcessor c).toProcessor.Extract d UTC = (w, true))
    (h0 : loc.shows w.sec) (h1 : loc.shows (w.AddDate now.Year 0 0).sec) :
    ∃ t, (NewSyslogProcessor c).Extract now d loc = (t, true) ∧ t.Year = now.Year := by
  obtain ⟨sub, hf, hne, hp⟩ := timegrinder.Extract_found _ d UTC w hw
  have hz' : (NewSyslogProcessor c).toProcessor.format.zoneNaive = true := hz
  obtain ⟨f, _, hr, m1, m2, d1, d2, hyear, hall⟩ :=
    time.ParseInLocation_zoneNaive _ _ _ _ hz' hp
  have hy0 : f.year = 0 := hyear hy
  rw [hy0] at d2 hall
  obtain ⟨r1, r2, r3, r4, r5, r6, r7, r8, _⟩ := hr
  generalize (if f.month < 0 then 1 else f.month) = M at m1 m2 d2 hall
  generalize (if f.day < 0 then 1 else f.day) = D at d1 d2 hall
  have hU := hall UTC
  rw [hp, time.unixOfWall_UTC] at hU
  simp only [Except.ok.injEq] at hU
  subst hU
  have h0' : loc.shows (wallSeconds 0 M D f.hour f.min f.sec) := h0
  have hwY := time.AddDate_years UTC 0 M D f.hour f.min f.sec f.nsec now.Year m1 m2 d1 d2
    r1 r2 r3 r4 r5 r6 r7 r8 (time.shows_UTC _)
  simp only [time.unixOfWall_UTC, zero_add] at hwY
  rw [hwY] at h1
  have h1' : loc.shows (wallSeconds now.Year M D f.hour f.min f.sec) := h1
  have hE := timegrinder.Extract_of_parse _ d sub loc _ hf hne (hall loc)
  have hY0 := time.Year_of_shows loc 0 M D f.hour f.min f.sec f.nsec m1 m2 d1 d2
    r1 r2 r3 r4 r5 r6 h0'
  have hA := time.AddDate_years loc 0 M D f.hour f.min f.sec f.nsec now.Year m1 m2 d1 d2
    r1 r2 r3 r4 r5 r6 r7 r8 h0'
  rw [zero_add] at hA
  refine ⟨_, ?_, time.Year_of_shows loc now.Year M D f.hour f.min f.sec f.nsec m1 m2 d1 d2
    r1 r2 r3 r4 r5 r6 h1'⟩
  unfold syslogProcessor.Extract
  simp only [hE, hY0, Bool.not_true, Bool.false_eq_true, if_false, if_true, hA]

/-- C2 at the line "<13>Feb 29 15:04:05 host" read under UTC in 2023: the instant returned
is in 2023 (on 1 March). -/
theorem syslog_Extract_year_witness :
    sampleFormats.SYSLOG_FORMAT.yearless = true ∧ sampleFormats.SYSLOG_FORMAT.zoneNaive = true
    ∧ (NewSyslogProcessor sampleFormats).toProcessor.Extract
        (ascii "<13>Feb 29 15:04:05 host") UTC = (⟨-62162067355, 0, UTC⟩, true)
    ∧ ∃ t, (NewSyslogProcessor sampleFormats).Extract (Unix 1700000000 0)
        (ascii "<13>Feb 29 15:04:05 host") UTC = (t, true) ∧ t.Year = (Unix 1700000000 0).Year :=
  ⟨by decide!, by decide!, by decide!,
   syslog_Extract_year sampleFormats (Unix 1700000000 0) (ascii "<13>Feb 29 15:04:05 host") UTC
     ⟨-62162067355, 0, UTC⟩ (by decide!) (by decide!) (by decide!) (time.shows_UTC _)
     (time.shows_UTC _)⟩

/-- C2 as stated fails: with the classic syslog layout `Jan _2 15:04:05`, the line
"Dec 31 12:00:00 host", on which the pattern matches and the layout parses, read in 1994
in a zone that skipped 31 December 1994, gives found and an instant of the year 1995. -/
theorem syslog_Extract_year_skipped_day :
    (Unix 788000000 0).Year = 1994
    ∧ (NewSyslogProcessor sampleFormats).toProcessor.rxp.Find (ascii "Dec 31 12:00:00 host")
        = some (ascii "Dec 31 12:00:00")
    ∧ (ParseInLocation (NewSyslogProcessor sampleFormats).toProcessor.format
        (ascii "Dec 31 12:00:00") dateLineMove).toOption.isSome = true
    ∧ ((NewSyslogProcessor sampleFormats).Extract (Unix 788000000 0)
        (ascii "Dec 31 12:00:00 host") dateLineMove).2 = true
    ∧ ((NewSyslogProcessor sampleFormats).Extract (Unix 788000000 0)
        (ascii "Dec 31 12:00:00 host") dateLineMove).1.Year = 1995 := by
  refine ⟨by decide!, by decide!, by decide!, by decide!, by decide!⟩

/-! ## The pattern matcher -/

theorem regexp.DecodeRune_ascii (b : Nat) (rest : List Nat) (hb : b < 0x80) :
    DecodeRune (b :: rest) = (b, 1) := by
  simp [DecodeRune, hb]

theorem regexp.decodeMulti_spec (p0 lo hi : Nat) (rest : List Nat) (h0 : 0xC2 ≤ p0)
    (h1 : p0 ≤ 0xF4) (hlo : 0x80 ≤ lo) (hhi : hi ≤ 0xBF) (hE : p0 = 0xE0 → 0xA0 ≤ lo)
    (hF : p0 = 0xF0 → 0x90 ≤ lo) :
    1 ≤ (decodeMulti p0 lo hi rest).2 ∧ (decodeMulti p0 lo hi rest).2 ≤ rest.length + 1
      ∧ 0x80 ≤ (decodeMulti p0 lo hi rest).1 := by
  unfold decodeMulti
  rcases rest with _ | ⟨b1, rest⟩
  · simp [RuneError]
  · simp only
    by_cases c1 : b1 < lo ∨ hi < b1
    · simp [c1, RuneError]
    · simp only [c1, if_false]
      by_cases c2 : p0 < 0xE0
      · simp only [c2, if_true, List.length_cons]
        omega
      · simp only [c2, if_false]
        rcases rest with _ | ⟨b2, rest⟩
        · simp [RuneError]
        · simp only
          by_cases c3 : b2 < 0x80 ∨ 0xBF < b2
          · simp [c3, RuneError]
          · simp only [c3, if_false]
            by_cases c4 : p0 < 0xF0
            · simp only [c4, if_true, List.length_cons]
              have : p0 = 0xE0 ∨ 0xE0 < p0 := by omega
              rcases this with h | h
              · have := hE h
                omega
              · omega
            · simp only [c4, if_false]
              rcases rest with _ | ⟨b3, rest⟩
              · simp [RuneError]
              · simp only
                by_cases c5 : b3 < 0x80 ∨ 0xBF < b3
                · simp [c5, RuneError]
                · simp only [c5, if_false, List.length_cons]
                  have : p0 = 0xF0 ∨ 0xF0 < p0 := by omega
                  rcases this with h | h
                  · have := hF h
                    omega
                  · omega

theorem regexp.DecodeRune_multi (p0 : Nat) (rest : List Nat) (h0 : ¬ p0 < 0x80) :
    1 ≤ (DecodeRune (p0 :: rest)).2 ∧ (DecodeRune (p0 :: rest)).2 ≤ rest.length + 1
      ∧ 0x80 ≤ (DecodeRune (p0 :: rest)).1 := by
  unfold DecodeRune
  simp only [h0, if_false]
  by_cases h1 : p0 < 0xC2 ∨ 0xF4 < p0
  · simp [h1, RuneError]
  · simp only [h1, if_false]
    exact regexp.decodeMulti_spec p0 _ _ rest (by omega) (by omega)
      (by split_ifs <;> omega) (by split_ifs <;> omega) (by intro h; simp [h])
      (by intro h; simp [h])

theorem regexp.DecodeRune_width (b : Nat) (rest : List Nat) :
    1 ≤ (DecodeRune (b :: rest)).2 ∧ (DecodeRune (b :: rest)).2 ≤ (b :: rest).length := by
  by_cases h0 : b < 0x80
  · simp [regexp.DecodeRune_ascii b rest h0]
  · have := regexp.DecodeRune_multi b rest h0
    simp only [List.length_cons]
    exact ⟨this.1, this.2.1⟩

/-- A rune below `0x80` is decoded from one byte only, that byte. -/
theorem regexp.DecodeRune_lt (p : List Nat) (h : (DecodeRune p).1 < 0x80) (hp : p ≠ []) :
    ∃ b rest, p = b :: rest ∧ b < 0x80 ∧ DecodeRune p = (b, 1) := by
  rcases p with _ | ⟨p0, rest⟩
  · exact absurd rfl hp
  · by_cases h0 : p0 < 0x80
    · exact ⟨p0, rest, rfl, h0, regexp.DecodeRune_ascii p0 rest h0⟩
    · have := regexp.DecodeRune_multi p0 rest h0
      omega

/-- A class is ASCII-only: it holds no rune from `0x80` on. -/
theorem regexp.stepClass_ascii (cls : CharClass) (hcls : ∀ r, cls.has r = true → r < 0x80)
    (inp : List Nat) (w : Nat) (h : stepClass cls inp = some w) :
    ∃ b rest, inp = b :: rest ∧ b < 0x80 ∧ cls.has b = true ∧ w = 1 := by
  unfold stepClass at h
  rcases inp with _ | ⟨b, rest⟩
  · simp at h
  · simp only at h
    split_ifs at h with hc
    have hlt := hcls _ hc
    obtain ⟨b', rest', e1, e2, e3⟩ := regexp.DecodeRune_lt _ hlt (by simp)
    simp only [List.cons.injEq] at e1
    obtain ⟨rfl, rfl⟩ := e1
    rw [e3] at hc h
    simp only [Option.some.injEq] at h
    exact ⟨b, rest, rfl, e2, hc, h.symm⟩

theorem regexp.stepClass_byte (cls : CharClass) (b : Nat) (rest : List Nat) (hb : b < 0x80) :
    stepClass cls (b :: rest) = if cls.has b then some 1 else none := by
  simp [stepClass, regexp.DecodeRune_ascii b rest hb]

theorem regexp.matchRep_stop (cls : CharClass) (min : Nat) (max : Option Nat)
    (cont : List Nat → Option (List (List Nat))) (fuel k : Nat) (acc inp : List Nat)
    (hstep : stepClass cls inp = none) :
    matchRep cls min max cont fuel k acc inp
      = if min ≤ k then (cont inp).map (fun m => acc :: m) else none := by
  cases fuel with
  | zero => simp [matchRep]
  | succ n =>
    unfold matchRep
    simp [hstep]

/-- What a successful greedy repetition of an ASCII-only class has done: taken some bytes
of the class, at least `min` runes in all, and handed the rest to the continuation. -/
theorem regexp.matchRep_sound (cls : CharClass) (hcls : ∀ r, cls.has r = true → r < 0x80)
    (min : Nat) (max : Option Nat) (cont : List Nat → Option (List (List Nat)))
    (fuel k : Nat) (acc inp : List Nat) (r : List (List Nat))
    (h : matchRep cls min max cont fuel k acc inp = some r) :
    ∃ taken rest m, inp = taken ++ rest ∧ (∀ b ∈ taken, cls.has b = true ∧ b < 0x80)
      ∧ min ≤ k + taken.length ∧ (∀ hi, max = some hi → k ≤ hi → k + taken.length ≤ hi)
      ∧ cont rest = some m ∧ r = (acc ++ taken) :: m := by
  have stop : ∀ k acc inp r, (if min ≤ k then (cont inp).map (fun m => acc :: m) else none)
      = some r → ∃ taken rest m, inp = taken ++ rest ∧ (∀ b ∈ taken, cls.has b = true ∧ b < 0x80)
      ∧ min ≤ k + taken.length ∧ (∀ hi, max = some hi → k ≤ hi → k + taken.length ≤ hi)
      ∧ cont rest = some m ∧ r = (acc ++ taken) :: m := by
    intro k acc inp r h
    split_ifs at h with hk
    cases hc : cont inp with
    | none => simp [hc] at h
    | some m =>
      simp only [hc, Option.map_some', Option.some.injEq] at h
      exact ⟨[], inp, m, rfl, by simp, by simpa using hk, by intro hi _ h2; simpa using h2,
        hc, by simp [← h]⟩
  induction fuel generalizing k acc inp r with
  | zero =>
    unfold matchRep at h
    exact stop k acc inp r h
  | succ n ih =>
    unfold matchRep at h
    simp only at h
    split at h
    · rename_i m hmore
      simp only [Option.some.injEq] at h
      subst h
      split_ifs at hmore with hlim
      split at hmore
      · rename_i w hw
        obtain ⟨b, rest, rfl, hb, hcb, rfl⟩ := regexp.stepClass_ascii cls hcls inp w hw
        obtain ⟨taken, rest', m', e1, e2, e3, e4, e5, e6⟩ := ih _ _ _ _ hmore
        simp only [List.take_succ_cons, List.take_zero, List.drop_succ_cons, List.drop_zero] at e1 e6
        refine ⟨b :: taken, rest', m', by simp [e1], ?_, by simp only [List.length_cons]; omega,
          ?_, e5, by simp [e6]⟩
        · intro x hx
          rcases List.mem_cons.mp hx with rfl | hx
          · exact ⟨hcb, hb⟩
          · exact e2 x hx
        · intro hi hmax hk
          have := e4 hi hmax (by
            subst hmax
            simp only [decide_eq_true_eq] at hlim
            omega)
          simp only [List.length_cons]
          omega
      · simp at hmore
    · exact stop k acc inp r h

/-- Greedy repetition without upper bound takes the whole run of bytes of the class when
the rest of the pattern then matches. -/
theorem regexp.matchRep_greedy (cls : CharClass) (min : Nat)
    (cont : List Nat → Option (List (List Nat))) (run rest : List Nat) (m : List (List Nat))
    (hrun : ∀ b ∈ run, cls.has b = true ∧ b < 0x80) (hrest : stepClass cls rest = none)
    (hcont : cont rest = some m) (fuel k : Nat) (acc : List Nat) (hfuel : run.length ≤ fuel)
    (hmin : min ≤ k + run.length) :
    matchRep cls min none cont fuel k acc (run ++ rest) = some ((acc ++ run) :: m) := by
  induction run generalizing fuel k acc with
  | nil =>
    simp only [List.nil_append, List.append_nil]
    rw [regexp.matchRep_stop _ _ _ _ _ _ _ _ hrest]
    simp only [List.length_nil, Nat.add_zero] at hmin
    simp [hmin, hcont]
  | cons b run ih =>
    cases fuel with
    | zero => simp at hfuel
    | succ n =>
      have hb := hrun b (List.mem_cons_self _ _)
      unfold matchRep
      simp only [List.cons_append, regexp.stepClass_byte cls b _ hb.2, hb.1, if_true,
        List.take_succ_cons, List.take_zero, List.drop_succ_cons, List.drop_zero]
      rw [ih (fun x hx => hrun x (List.mem_cons_of_mem _ hx)) n (k + 1) (acc ++ [b])
        (by simpa using hfuel) (by simp only [List.length_cons] at hmin; omega)]
      simp

/-- A single occurrence of an ASCII class. -/
theorem regexp.matchRep_one (cls : CharClass) (cont : List Nat → Option (List (List Nat)))
    (b : Nat) (rest : List Nat) (hb : b < 0x80) (hc : cls.has b = true) (fuel : Nat) :
    matchRep cls 1 (some 1) cont (fuel + 1) 0 [] (b :: rest)
      = (cont rest).map (fun m => [b] :: m) := by
  unfold matchRep
  simp only [regexp.stepClass_byte cls b _ hb, hc, if_true, List.take_succ_cons, List.take_zero,
    List.drop_succ_cons, List.drop_zero, List.nil_append, Nat.lt_one_iff, decide_True,
    zero_add]
  have inner : matchRep cls 1 (some 1) cont fuel 1 [b] rest
      = (cont rest).map (fun m => [b] :: m) := by
    cases fuel with
    | zero => simp [matchRep]
    | succ n =>
      unfold matchRep
      simp
  rw [inner]
  cases cont rest <;> simp

theorem regexp.Boundary_inv (d : List Nat) (j : Nat) (h : Boundary d j) :
    j = 0 ∨ (d ≠ [] ∧ ∃ k, j = (DecodeRune d).2 + k ∧ Boundary (d.drop (DecodeRune d).2) k) := by
  cases h with
  | start => exact Or.inl rfl
  | next _ k hd hb => exact Or.inr ⟨hd, k, rfl, hb⟩

theorem regexp.DecodeRune_width' (d : List Nat) (hd : d ≠ []) :
    1 ≤ (DecodeRune d).2 ∧ (DecodeRune d).2 ≤ d.length := by
  rcases d with _ | ⟨b, rest⟩
  · exact absurd rfl hd
  · exact regexp.DecodeRune_width b rest

/-- What the search returns: the match at the first offset tried at which there is one. -/
theorem regexp.searchFrom_iff (prog : List Inst) (fuel : Nat) (atStart : Bool)
    (skipped inp : List Nat) (sk : List Nat) (m : List (List Nat)) (hfuel : inp.length ≤ fuel) :
    searchFrom prog fuel atStart skipped inp = some (sk, m) ↔
      ∃ k, Boundary inp k ∧ sk = skipped ++ inp.take k
        ∧ matchHere prog (atStart && k == 0) (inp.drop k) = some m
        ∧ ∀ j, j < k → Boundary inp j → matchHere prog (atStart && j == 0) (inp.drop j) = none := by
  induction fuel generalizing atStart skipped inp with
  | zero =>
    have hnil : inp = [] := List.length_eq_zero.mp (by omega)
    subst hnil
    unfold searchFrom
    constructor
    · intro h
      cases hm : matchHere prog atStart [] with
      | none => simp [hm] at h
      | some m' =>
        simp only [hm, Option.map_some', Option.some.injEq, Prod.mk.injEq] at h
        obtain ⟨rfl, rfl⟩ := h
        exact ⟨0, Boundary.start _, by simp, by simpa using hm, by intro j hj; omega⟩
    · rintro ⟨k, hb, rfl, hm, _⟩
      rcases regexp.Boundary_inv _ _ hb with rfl | ⟨hne, _⟩
      · simp only [beq_self_eq_true, Bool.and_true, List.drop_zero] at hm
        simp [hm]
      · exact absurd rfl hne
  | succ n ih =>
    unfold searchFrom
    cases hm0 : matchHere prog atStart inp with
    | some m' =>
      simp only [Option.some.injEq, Prod.mk.injEq]
      constructor
      · rintro ⟨rfl, rfl⟩
        exact ⟨0, Boundary.start _, by simp, by simpa using hm0, by intro j hj; omega⟩
      · rintro ⟨k, hb, rfl, hm, hleft⟩
        have hk : k = 0 := by
          by_contra hk
          have := hleft 0 (by omega) (Boundary.start _)
          simp only [beq_self_eq_true, Bool.and_true, List.drop_zero] at this
          rw [this] at hm0
          exact Option.noConfusion hm0
        subst hk
        simp only [beq_self_eq_true, Bool.and_true, List.drop_zero] at hm
        rw [hm0] at hm
        simp only [Option.some.injEq] at hm
        simp [hm]
    | none =>
      simp only
      rcases inp with _ | ⟨b, rest⟩
      · simp only [List.length_nil, if_true]
        constructor
        · intro h; exact Option.noConfusion h
        · rintro ⟨k, hb, rfl, hm, _⟩
          rcases regexp.Boundary_inv _ _ hb with rfl | ⟨hne, _⟩
          · simp only [beq_self_eq_true, Bool.and_true, List.drop_zero] at hm
            rw [hm0] at hm
            exact Option.noConfusion hm
          · exact absurd rfl hne
      · simp only [List.length_cons, Nat.add_one_ne_zero, if_false]
        obtain ⟨w1, w2⟩ := regexp.DecodeRune_width b rest
        generalize hw : (DecodeRune (b :: rest)).2 = w at w1 w2
        have hlen : (List.drop w (b :: rest)).length ≤ n := by
          simp only [List.length_drop, List.length_cons] at hfuel ⊢
          omega
        have hdd : ∀ j, List.drop (w + j) (b :: rest) = List.drop j (List.drop w (b :: rest)) := by
          intro j
          simp [List.drop_drop, Nat.add_comm]
        rw [ih false (skipped ++ List.take w (b :: rest)) (List.drop w (b :: rest)) hlen]
        constructor
        · rintro ⟨k, hb, rfl, hm, hleft⟩
          refine ⟨w + k, ?_, ?_, ?_, ?_⟩
          · rw [← hw]
            exact Boundary.next _ k (by simp) (by rw [hw]; exact hb)
          · rw [List.append_assoc, List.take_add]
          · have : (w + k == 0) = false := by
              simp only [beq_eq_false_iff_ne, ne_eq]
              omega
            simp only [this, Bool.and_false]
            simp only [Bool.false_and] at hm
            rw [hdd]
            exact hm
          · intro j hj hbj
            rcases regexp.Boundary_inv _ _ hbj with rfl | ⟨_, k', rfl, hbk⟩
            · simpa using hm0
            · rw [hw] at hbk hj ⊢
              have := hleft k' (by omega) hbk
              have hne : (w + k' == 0) = false := by
                simp only [beq_eq_false_iff_ne, ne_eq]
                omega
              simp only [hne, Bool.and_false]
              simp only [Bool.false_and] at this
              rw [hdd]
              exact this
        · rintro ⟨k, hb, rfl, hm, hleft⟩
          rcases regexp.Boundary_inv _ _ hb with rfl | ⟨_, k', rfl, hbk⟩
          · simp only [beq_self_eq_true, Bool.and_true, List.drop_zero] at hm
            rw [hm0] at hm
            exact Option.noConfusion hm
          · rw [hw] at hbk hm hleft ⊢
            have hne : (w + k' == 0) = false := by
              simp only [beq_eq_false_iff_ne, ne_eq]
              omega
            refine ⟨k', hbk, ?_, ?_, ?_⟩
            · rw [List.append_assoc, List.take_add]
            · simp only [hne, Bool.and_false] at hm
              simp only [Bool.false_and]
              rw [hdd] at hm
              exact hm
            · intro j hj hbj
              have hbj' : Boundary (b :: rest) (w + j) := by
                rw [← hw]
                exact Boundary.next _ j (by simp) (by rw [hw]; exact hbj)
              have := hleft (w + j) (by omega) hbj'
              have hne' : (w + j == 0) = false := by
                simp only [beq_eq_false_iff_ne, ne_eq]
                omega
              simp only [hne', Bool.and_false] at this
              simp only [Bool.false_and]
              rw [hdd] at this
              exact this

/-- A successful repetition has consumed a prefix of the input. -/
theorem regexp.matchRep_split (cls : CharClass) (min : Nat) (max : Option Nat)
    (cont : List Nat → Option (List (List Nat))) (fuel k : Nat) (acc inp : List Nat)
    (r : List (List Nat)) (h : matchRep cls min max cont fuel k acc inp = some r) :
    ∃ taken rest m, inp = taken ++ rest ∧ cont rest = some m ∧ r = (acc ++ taken) :: m := by
  have stop : ∀ k acc inp r, (if min ≤ k then (cont inp).map (fun m => acc :: m) else none)
      = some r → ∃ taken rest m, inp = taken ++ rest ∧ cont rest = some m
        ∧ r = (acc ++ taken) :: m := by
    intro k acc inp r h
    split_ifs at h with hk
    cases hc : cont inp with
    | none => simp [hc] at h
    | some m =>
      simp only [hc, Option.map_some', Option.some.injEq] at h
      exact ⟨[], inp, m, rfl, hc, by simp [← h]⟩
  induction fuel generalizing k acc inp r with
  | zero =>
    unfold matchRep at h
    exact stop k acc inp r h
  | succ n ih =>
    unfold matchRep at h
    simp only at h
    split at h
    · rename_i m hmore
      simp only [Option.some.injEq] at h
      subst h
      split_ifs at hmore with hlim
      split at hmore
      · rename_i w hw
        obtain ⟨taken, rest', m', e1, e2, e3⟩ := ih (k + 1) _ _ _ hmore
        refine ⟨inp.take w ++ taken, rest', m', ?_, e2, by rw [e3, List.append_assoc]⟩
        rw [List.append_assoc, ← e1, List.take_append_drop]
      · simp at hmore
    · exact stop k acc inp r h

/-- The texts matched by the items of a pattern make up a prefix of the input. -/
theorem regexp.matchHere_prefix (prog : List Inst) (atStart : Bool) (inp : List Nat)
    (m : List (List Nat)) (h : matchHere prog atStart inp = some m) : m.flatten <+: inp := by
  induction prog generalizing atStart inp m with
  | nil =>
    simp only [matchHere, Option.some.injEq] at h
    subst h
    simp
  | cons i rest ih =>
    cases i with
    | beginText =>
      simp only [matchHere] at h
      split_ifs at h with hs
      cases hm : matchHere rest atStart inp with
      | none => simp [hm] at h
      | some m' =>
        simp only [hm, Option.map_some', Option.some.injEq] at h
        subst h
        simpa using ih _ _ _ hm
    | rep cls min max =>
      simp only [matchHere] at h
      obtain ⟨taken, rest', m', e1, e2, e3⟩ := regexp.matchRep_split _ _ _ _ _ _ _ _ _ h
      subst e3
      have := ih _ _ _ e2
      simp only [List.nil_append, List.flatten_cons]
      rw [e1]
      exact (List.prefix_append_right_inj taken).mpr this

/-- What `search` returns: the leftmost match, and the bytes before it. -/
theorem regexp.search_iff (re : Regexp) (d sk : List Nat) (m : List (List Nat)) :
    re.search d = some (sk, m) ↔ ∃ k, sk = d.take k ∧ re.LeftmostAt d k m := by
  unfold Regexp.search Regexp.LeftmostAt Regexp.MatchesAt
  rw [regexp.searchFrom_iff re.prog d.length true [] d sk m (le_refl _)]
  simp only [Bool.true_and, List.nil_append]
  constructor
  · rintro ⟨k, h1, h2, h3, h4⟩
    exact ⟨k, h2, h1, h3, h4⟩
  · rintro ⟨k, h2, h1, h3, h4⟩
    exact ⟨k, h1, h2, h3, h4⟩

theorem regexp.Find_eq_some (re : Regexp) (d sub : List Nat) (h : re.Find d = some sub) :
    ∃ k m, re.LeftmostAt d k m ∧ sub = m.flatten := by
  unfold Regexp.Find at h
  cases hs : re.search d with
  | none => simp [hs] at h
  | some r =>
    obtain ⟨sk, m⟩ := r
    simp only [hs, Option.map_some', Option.some.injEq] at h
    obtain ⟨k, _, hl⟩ := (regexp.search_iff re d sk m).mp hs
    exact ⟨k, m, hl, h.symm⟩

theorem regexp.Find_of_leftmost (re : Regexp) (d : List Nat) (k : Nat) (m : List (List Nat))
    (h : re.LeftmostAt d k m) : re.Find d = some m.flatten := by
  unfold Regexp.Find
  rw [(regexp.search_iff re d (d.take k) m).mpr ⟨k, rfl, h⟩]
  rfl

theorem regexp.FindSubmatch_of_leftmost (re : Regexp) (d : List Nat) (k : Nat)
    (m : List (List Nat)) (h : re.LeftmostAt d k m) :
    re.FindSubmatch d
      = some (m.flatten :: re.groups.map (fun g => ((m.take g.2).drop g.1).flatten)) := by
  unfold Regexp.FindSubmatch
  rw [(regexp.search_iff re d (d.take k) m).mpr ⟨k, rfl, h⟩]
  rfl

/-! ## The numeric-epoch pattern -/

theorem regexp.digit_has (b : Nat) : digit.has b = isDigitByte b := by
  simp [digit, CharClass.has, isDigitByte]

theorem regexp.digit_ascii (r : Nat) (h : digit.has r = true) : r < 0x80 := by
  simp [digit, CharClass.has] at h
  omega

theorem regexp.space_ascii (r : Nat) (h : space.has r = true) : r < 0x80 := by
  simp [space, CharClass.has] at h
  omega

theorem regexp.period_has (b : Nat) :
    CharClass.has [(('.' : Char).toNat, ('.' : Char).toNat)] b = decide (b = 0x2E) := by
  have : ('.' : Char).toNat = 0x2E := by decide
  simp only [this, CharClass.has, List.any_cons, List.any_nil, Bool.or_false]
  by_cases h : b = 0x2E
  · simp [h]
  · simp only [h, decide_False, Bool.and_eq_false_imp, decide_eq_true_eq, decide_eq_false_iff_not]
    omega

theorem regexp.period_ascii (r : Nat)
    (h : CharClass.has [(('.' : Char).toNat, ('.' : Char).toNat)] r = true) : r < 0x80 := by
  rw [regexp.period_has] at h
  simp at h
  omega

theorem regexp.matchHere_rep_sound (cls : CharClass) (hcls : ∀ r, cls.has r = true → r < 0x80)
    (min : Nat) (max : Option Nat) (rest : List Inst) (atStart : Bool) (inp : List Nat)
    (m : List (List Nat)) (h : matchHere (.rep cls min max :: rest) atStart inp = some m) :
    ∃ taken r flag m', inp = taken ++ r ∧ (∀ b ∈ taken, cls.has b = true ∧ b < 0x80)
      ∧ min ≤ taken.length ∧ (∀ hi, max = some hi → taken.length ≤ hi)
      ∧ matchHere rest flag r = some m' ∧ m = taken :: m' := by
  simp only [matchHere] at h
  obtain ⟨taken, r, m', e1, e2, e3, e4, e5, e6⟩ :=
    regexp.matchRep_sound cls hcls _ _ _ _ _ _ _ _ h
  refine ⟨taken, r, _, m', e1, e2, by omega, ?_, e5, by simpa using e6⟩
  intro hi hmax
  have := e4 hi hmax (by omega)
  omega

theorem regexp.matchHere_plus_complete (cls : CharClass) (rest : List Inst) (atStart : Bool)
    (run r : List Nat) (m' : List (List Nat))
    (hrun : ∀ b ∈ run, cls.has b = true ∧ b < 0x80) (hne : run ≠ [])
    (hstop : stepClass cls r = none) (hrest : ∀ flag, matchHere rest flag r = some m') :
    matchHere (plus cls :: rest) atStart (run ++ r) = some (run :: m') := by
  simp only [plus, matchHere]
  have hlen := List.length_pos.mpr hne
  rw [regexp.matchRep_greedy cls 1
    (fun inp' => matchHere rest (atStart && inp'.length == (run ++ r).length) inp')
    run r m' hrun hstop (hrest _) _ 0 [] (by simp) (by omega)]
  simp

theorem regexp.matchHere_one_complete (cls : CharClass) (rest : List Inst) (atStart : Bool)
    (b : Nat) (r : List Nat) (m' : List (List Nat)) (hb : b < 0x80) (hc : cls.has b = true)
    (hrest : ∀ flag, matchHere rest flag r = some m') :
    matchHere (one cls :: rest) atStart (b :: r) = some ([b] :: m') := by
  simp only [one, matchHere, List.length_cons]
  rw [regexp.matchRep_one cls
    (fun inp' => matchHere rest (atStart && inp'.length == r.length + 1) inp') b r hb hc]
  simp only [hrest]
  rfl

/-- A line on which the numeric-epoch pattern `(\A\d+\.\d+)\s` matches at its start has
the form digits, period, digits, white-space byte, and the items match just those. -/
theorem timegrinder.epoch_match_sound (d : List Nat) (m : List (List Nat))
    (h : matchHere NewUnixMilliTimeProcessor.re.prog true d = some m) :
    ∃ ip fp ws rest, ip ≠ [] ∧ fp ≠ [] ∧ (∀ b ∈ ip, isDigitByte b = true)
      ∧ (∀ b ∈ fp, isDigitByte b = true) ∧ space.has ws = true
      ∧ d = ip ++ 0x2E :: (fp ++ ws :: rest) ∧ m = [[], ip, [0x2E], fp, [ws]] := by
  have hprog : NewUnixMilliTimeProcessor.re.prog
      = .beginText :: plus digit :: lit '.' :: plus digit :: one space :: [] := rfl
  rw [hprog] at h
  rw [matchHere] at h
  simp only [if_true] at h
  cases h1 : matchHere (plus digit :: lit '.' :: plus digit :: one space :: []) true d with
  | none => simp [h1] at h
  | some m1 =>
    simp only [h1, Option.map_some', Option.some.injEq] at h
    subst h
    obtain ⟨ip, r1, f1, m2, e1, p1, l1, _, c1, rfl⟩ :=
      regexp.matchHere_rep_sound digit regexp.digit_ascii _ _ _ _ _ _ h1
    obtain ⟨dot, r2, f2, m3, e2, p2, l2, u2, c2, rfl⟩ :=
      regexp.matchHere_rep_sound _ regexp.period_ascii _ _ _ _ _ _ c1
    obtain ⟨fp, r3, f3, m4, e3, p3, l3, _, c3, rfl⟩ :=
      regexp.matchHere_rep_sound digit regexp.digit_ascii _ _ _ _ _ _ c2
    obtain ⟨sp, r4, f4, m5, e4, p4, l4, u4, c4, rfl⟩ :=
      regexp.matchHere_rep_sound space regexp.space_ascii _ _ _ _ _ _ c3
    simp only [matchHere, Option.some.injEq] at c4
    subst c4
    have hdot : dot = [0x2E] := by
      have hl := u2 1 rfl
      rcases dot with _ | ⟨x, _ | ⟨y, t⟩⟩
      · simp at l2
      · have := (p2 x (List.mem_cons_self _ _)).1
        rw [regexp.period_has] at this
        simp only [decide_eq_true_eq] at this
        rw [this]
      · simp only [List.length_cons] at hl
        omega
    have hsp : ∃ ws, sp = [ws] ∧ space.has ws = true := by
      have hl := u4 1 rfl
      rcases sp with _ | ⟨x, _ | ⟨y, t⟩⟩
      · simp at l4
      · exact ⟨x, rfl, (p4 x (List.mem_cons_self _ _)).1⟩
      · simp only [List.length_cons] at hl
        omega
    obtain ⟨ws, rfl, hws⟩ := hsp
    subst hdot
    refine ⟨ip, fp, ws, r4, ?_, ?_, ?_, ?_, hws, ?_, rfl⟩
    · intro hnil; subst hnil; simp at l1
    · intro hnil; subst hnil; simp at l3
    · intro b hb
      rw [← regexp.digit_has]
      exact (p1 b hb).1
    · intro b hb
      rw [← regexp.digit_has]
      exact (p3 b hb).1
    · rw [e1, e2, e3, e4]
      simp

/-- A line of the form digits, period, digits, white-space byte is matched at its start by
the numeric-epoch pattern, the digits being taken whole. -/
theorem timegrinder.epoch_match_complete (ip fp rest : List Nat) (ws : Nat) (hip : ip ≠ [])
    (hfp : fp ≠ []) (hipd : ∀ b ∈ ip, isDigitByte b = true)
    (hfpd : ∀ b ∈ fp, isDigitByte b = true) (hws : space.has ws = true) :
    matchHere NewUnixMilliTimeProcessor.re.prog true (ip ++ 0x2E :: (fp ++ ws :: rest))
      = some [[], ip, [0x2E], fp, [ws]] := by
  have hdig : ∀ l : List Nat, (∀ b ∈ l, isDigitByte b = true) →
      ∀ b ∈ l, digit.has b = true ∧ b < 0x80 := by
    intro l hl b hb
    have := hl b hb
    rw [← regexp.digit_has] at this
    exact ⟨this, regexp.digit_ascii b this⟩
  have hwsa := regexp.space_ascii ws hws
  have hndot : stepClass digit (0x2E :: (fp ++ ws :: rest)) = none := by
    rw [regexp.stepClass_byte _ _ _ (by norm_num)]
    simp [regexp.digit_has, isDigitByte]
  have hnws : stepClass digit (ws :: rest) = none := by
    rw [regexp.stepClass_byte _ _ _ hwsa]
    have : digit.has ws = false := by
      simp only [space, CharClass.has, List.any_cons, List.any_nil, Bool.or_false,
        Bool.or_eq_true, Bool.and_eq_true, decide_eq_true_eq] at hws
      simp only [digit, CharClass.has, List.any_cons, List.any_nil, Bool.or_false,
        Bool.and_eq_false_imp, decide_eq_true_eq, decide_eq_false_iff_not]
      omega
    simp [this]
  have s4 : ∀ flag, matchHere (one space :: []) flag (ws :: rest) = some [[ws]] := fun flag =>
    regexp.matchHere_one_complete space [] flag ws rest [] hwsa hws (fun _ => rfl)
  have s3 : ∀ flag, matchHere (plus digit :: one space :: []) flag (fp ++ ws :: rest)
      = some [fp, [ws]] := fun flag =>
    regexp.matchHere_plus_complete digit _ flag fp (ws :: rest) _ (hdig fp hfpd) hfp hnws s4
  have s2 : ∀ flag, matchHere (lit '.' :: plus digit :: one space :: []) flag
      (0x2E :: (fp ++ ws :: rest)) = some [[0x2E], fp, [ws]] := fun flag =>
    regexp.matchHere_one_complete _ _ flag 0x2E _ _ (by norm_num)
      (by rw [regexp.period_has]; simp) s3
  have s1 := regexp.matchHere_plus_complete digit _ true ip (0x2E :: (fp ++ ws :: rest)) _
    (hdig ip hipd) hip hndot s2
  have hprog : NewUnixMilliTimeProcessor.re.prog
      = .beginText :: plus digit :: lit '.' :: plus digit :: one space :: [] := rfl
  rw [hprog, matchHere]
  simp only [if_true, s1]
  rfl

/-! ## Exact and rounded `float64` arithmetic -/

theorem strconv.bitLenAux_le (fuel n b : Nat) (h : n < 2 ^ b) : bitLenAux fuel n ≤ b := by
  induction fuel generalizing n b with
  | zero => simp [bitLenAux]
  | succ fuel ih =>
    unfold bitLenAux
    split_ifs with h0
    · exact Nat.zero_le _
    · rcases b with _ | b
      · simp at h
        exact absurd h h0
      · have := ih (n / 2) b (by rw [pow_succ] at h; omega)
        omega

theorem strconv.bitLen_le (n b : Nat) (h : n < 2 ^ b) : bitLen n ≤ b :=
  strconv.bitLenAux_le n n b h

theorem strconv.bitLenAux_gt (fuel n : Nat) (h : n ≤ fuel) : n < 2 ^ bitLenAux fuel n := by
  induction fuel generalizing n with
  | zero =>
    have : n = 0 := by omega
    simp [bitLenAux, this]
  | succ fuel ih =>
    unfold bitLenAux
    split_ifs with h0
    · simp [h0]
    · have := ih (n / 2) (by omega)
      rw [pow_succ]
      omega

theorem strconv.bitLen_gt (n : Nat) : n < 2 ^ bitLen n :=
  strconv.bitLenAux_gt n n (le_refl _)

/-- A quotient that has at most 53 significant bits is not changed by rounding. -/
theorem strconv.roundMag_exact (n d Y e : Nat) (hd : 0 < d) (hY : Y < 2 ^ 53)
    (hn : n = d * (Y * 2 ^ e)) : roundMag n d = Y * 2 ^ e := by
  subst hn
  unfold roundMag
  have hq : d * (Y * 2 ^ e) / d = Y * 2 ^ e := Nat.mul_div_cancel_left _ hd
  simp only [hq]
  generalize hs : bitLen (Y * 2 ^ e) - 53 = s
  have hle : s ≤ e := by
    have := strconv.bitLen_le (Y * 2 ^ e) (53 + e)
      (by rw [pow_add]; exact Nat.mul_lt_mul_of_pos_right hY (by positivity))
    omega
  obtain ⟨c, rfl⟩ := Nat.exists_eq_add_of_le hle
  have hfac : d * (Y * 2 ^ (s + c)) = (d * 2 ^ s) * (Y * 2 ^ c) := by
    rw [pow_add]
    ring
  have hpos : 0 < d * 2 ^ s := by positivity
  rw [hfac, Nat.mul_div_cancel_left _ hpos, Nat.mul_mod_right]
  have hne : ¬ (0 = d * 2 ^ s) := by omega
  simp only [Nat.mul_zero, gt_iff_lt, Nat.not_lt_zero, hne, false_and, or_self, if_false]
  rw [pow_add]
  ring

/-- Rounding goes no further than the next power of two. -/
theorem strconv.roundMag_le (n d : Nat) : roundMag n d ≤ 2 ^ bitLen (n / d) := by
  unfold roundMag
  simp only
  generalize hB : bitLen (n / d) = B
  have hN : n / d < 2 ^ B := by
    rw [← hB]
    exact strconv.bitLen_gt _
  generalize hs : B - 53 = s
  have hq : n / (d * 2 ^ s) < 2 ^ (B - s) := by
    rw [← Nat.div_div_eq_div_mul]
    rw [Nat.div_lt_iff_lt_mul (by positivity), ← pow_add]
    have : B - s + s = B := by omega
    rw [this]
    exact hN
  have hsplit : 2 ^ B = 2 ^ (B - s) * 2 ^ s := by
    rw [← pow_add]
    congr 1
    omega
  rw [hsplit]
  apply Nat.mul_le_mul_right
  split_ifs <;> omega

theorem strconv.roundUnits_exact (d Y e : Nat) (hd : 0 < d) (hY : Y < 2 ^ 53)
    (he : e ≤ 2045) :
    roundUnits ((d * (Y * 2 ^ e) : Nat) : Int) d = some ⟨((Y * 2 ^ e : Nat) : Int)⟩ := by
  unfold roundUnits
  simp only [Int.natAbs_ofNat]
  rw [strconv.roundMag_exact _ d Y e hd hY rfl]
  have hfin : ¬ (Y * 2 ^ e ≥ 2 ^ 2098) := by
    have h1 : Y * 2 ^ e < 2 ^ 53 * 2 ^ e := Nat.mul_lt_mul_of_pos_right hY (by positivity)
    have h2 : 2 ^ 53 * 2 ^ e ≤ 2 ^ 2098 := by
      rw [← pow_add]
      exact Nat.pow_le_pow_right (by norm_num) (by omega)
    omega
  have hnn : ¬ (((d * (Y * 2 ^ e) : Nat) : Int) < 0) := by
    have := Int.ofNat_nonneg (d * (Y * 2 ^ e))
    omega
  simp only [hfin, hnn, if_false]

theorem strconv.roundUnits_finite (n d : Nat) (hd : 0 < d) (h : n < 2 ^ 2097 * d) :
    ∃ x, roundUnits (n : Int) d = some x := by
  unfold roundUnits
  simp only [Int.natAbs_ofNat]
  have hN : n / d < 2 ^ 2097 := (Nat.div_lt_iff_lt_mul hd).mpr h
  have hB := strconv.bitLen_le _ _ hN
  have hle := strconv.roundMag_le n d
  have hp : 2 ^ bitLen (n / d) ≤ 2 ^ 2097 := Nat.pow_le_pow_right (by norm_num) hB
  have hlt : (2 : Nat) ^ 2097 < 2 ^ 2098 := Nat.pow_lt_pow_right (by norm_num) (by norm_num)
  have hfin : ¬ (roundMag n d ≥ 2 ^ 2098) := by omega
  simp only [hfin, if_false]
  exact ⟨_, rfl⟩

theorem strconv.int64_nat (impl : Int) (u : Nat) (h : u / 2 ^ 1074 ≤ 9223372036854775807) :
    int64 impl (some ⟨(u : Int)⟩) = ((u / 2 ^ 1074 : Nat) : Int) := by
  unfold int64
  have ht : Int.tdiv (u : Int) (2 ^ 1074) = ((u / 2 ^ 1074 : Nat) : Int) := by
    have : ((2 : Int) ^ 1074) = (((2 : Nat) ^ 1074 : Nat) : Int) := by push_cast; rfl
    rw [this, ← Int.ofNat_tdiv]
  simp only [ht]
  have h1 : (-9223372036854775808 : Int) ≤ ((u / 2 ^ 1074 : Nat) : Int) := by
    have := Int.ofNat_nonneg (u / 2 ^ 1074)
    omega
  have h2 : ((u / 2 ^ 1074 : Nat) : Int) ≤ 9223372036854775807 := by exact_mod_cast h
  simp only [h1, h2, and_self, if_true]

/-! ## Decimal digits -/

theorem strconv.digitsVal_fold (ds : List Nat) (a : Nat) :
    ds.foldl (fun x c => x * 10 + (c - 0x30)) a = a * 10 ^ ds.length + digitsVal ds := by
  unfold digitsVal
  induction ds generalizing a with
  | nil => simp
  | cons c ds ih =>
    simp only [List.foldl_cons, List.length_cons]
    rw [ih (a * 10 + (c - 48)), ih (0 * 10 + (c - 48))]
    rw [pow_succ]
    ring

theorem strconv.digitsVal_append (ip fp : List Nat) :
    digitsVal (ip ++ fp) = digitsVal ip * 10 ^ fp.length + digitsVal fp := by
  have := strconv.digitsVal_fold fp (digitsVal ip)
  unfold digitsVal at this ⊢
  rw [List.foldl_append]
  exact this

theorem strconv.digitsVal_lt (ds : List Nat) (h : ∀ b ∈ ds, time.isDigitByte b = true) :
    digitsVal ds < 10 ^ ds.length := by
  induction ds using List.reverseRecOn with
  | nil => simp [digitsVal]
  | append_singleton ds c ih =>
    have hc : c - 0x30 < 10 := by
      have := h c (by simp)
      simp only [time.isDigitByte, Bool.and_eq_true, decide_eq_true_eq] at this
      omega
    have := ih (fun b hb => h b (by simp [hb]))
    rw [strconv.digitsVal_append]
    simp only [List.length_singleton, pow_one, List.length_append, pow_succ]
    have h1 : digitsVal [c] = c - 0x30 := by simp [digitsVal]
    rw [h1]
    omega

theorem strconv.ParseFloat_decimal (ip fp : List Nat) (hip : ip ≠ []) (hfp : fp ≠ [])
    (hipd : ∀ b ∈ ip, time.isDigitByte b = true) (hfpd : ∀ b ∈ fp, time.isDigitByte b = true)
    (x : float64)
    (hx : roundUnits ((digitsVal (ip ++ fp) : Int) * 2 ^ 1074) (10 ^ fp.length) = some x) :
    ParseFloat (ip ++ 0x2E :: fp) = .ok x := by
  have hdot : time.isDigitByte 0x2E = false := by decide
  have hall : fp.all time.isDigitByte = true := List.all_eq_true.mpr hfpd
  unfold ParseFloat
  simp only
  rw [List.takeWhile_append_of_pos hipd, List.dropWhile_append_of_pos hipd,
    List.takeWhile_cons, List.dropWhile_cons]
  simp only [hdot, Bool.false_eq_true, if_false, List.append_nil]
  simp only [ne_eq, hip, not_false_eq_true, hfp, hall, and_self, if_true, hx]

/-! ## The numeric-epoch processor on a leading token -/

/-- What `FindSubmatch` gives on a line with a leading token `<digits>.<digits>` and a
white-space byte after it: the match and the token. -/
theorem timegrinder.epoch_FindSubmatch (ip fp rest : List Nat) (ws : Nat) (hip : ip ≠ [])
    (hfp : fp ≠ []) (hipd : ∀ b ∈ ip, isDigitByte b = true)
    (hfpd : ∀ b ∈ fp, isDigitByte b = true) (hws : space.has ws = true) :
    NewUnixMilliTimeProcessor.re.FindSubmatch (ip ++ 0x2E :: (fp ++ ws :: rest))
      = some [ip ++ 0x2E :: (fp ++ [ws]), ip ++ 0x2E :: fp] := by
  have hm := timegrinder.epoch_match_complete ip fp rest ws hip hfp hipd hfpd hws
  have hl : NewUnixMilliTimeProcessor.re.LeftmostAt (ip ++ 0x2E :: (fp ++ ws :: rest)) 0
      [[], ip, [0x2E], fp, [ws]] :=
    ⟨Boundary.start _, by unfold Regexp.MatchesAt; simpa using hm,
      fun j hj _ => absurd hj (Nat.not_lt_zero _)⟩
  rw [regexp.FindSubmatch_of_leftmost _ _ _ _ hl]
  simp [NewUnixMilliTimeProcessor]

theorem timegrinder.epoch_Extract_ok (impl : Int) (loc : Location) (ip fp rest : List Nat)
    (ws : Nat) (hip : ip ≠ []) (hfp : fp ≠ []) (hipd : ∀ b ∈ ip, isDigitByte b = true)
    (hfpd : ∀ b ∈ fp, isDigitByte b = true) (hws : space.has ws = true) (x : float64)
    (hx : ParseFloat (ip ++ 0x2E :: fp) = .ok x) :
    NewUnixMilliTimeProcessor.Extract impl (ip ++ 0x2E :: (fp ++ ws :: rest)) loc
      = ((Unix (int64 impl (some x))
            (int64 impl ((x.sub (float64.ofInt (int64 impl (some x)))).mul billion))).In loc,
          true) := by
  unfold unixProcessor.Extract
  simp only [timegrinder.epoch_FindSubmatch ip fp rest ws hip hfp hipd hfpd hws, regexp.len,
    Option.getD_some, List.length_cons, List.length_nil, List.getD_cons_succ,
    List.getD_cons_zero, hx]
  have hlen : ¬ ((ip ++ 0x2E :: fp).length = 0) := by simp
  simp [hlen]

theorem strconv.pow_two_split (a b : Nat) (h : b ≤ a) : 2 ^ a = 2 ^ (a - b) * 2 ^ b := by
  rw [← pow_add, Nat.sub_add_cancel h]

theorem strconv.epoch_arith (impl : Int) (I F L j : Nat) (hj : j ≤ 32) (hI : I < 2 ^ (53 - j))
    (hF : F < 10 ^ L) (hdiv : 10 ^ L ∣ 2 ^ j * F) :
    ∃ x, roundUnits (((I * 10 ^ L + F : Nat) : Int) * 2 ^ 1074) (10 ^ L) = some x
      ∧ int64 impl (some x) = (I : Int)
      ∧ int64 impl ((x.sub (float64.ofInt (I : Int))).mul timegrinder.billion)
          = ((F * 10 ^ 9 / 10 ^ L : Nat) : Int) := by
  obtain ⟨K, hK⟩ := hdiv
  have hTpos : 0 < 10 ^ L := by positivity
  have hApos : 0 < 2 ^ j := by positivity
  have hKlt : K < 2 ^ j := by
    have h1 : 10 ^ L * K < 10 ^ L * 2 ^ j := by
      rw [← hK, Nat.mul_comm]
      exact Nat.mul_lt_mul_of_pos_right hF hApos
    exact Nat.lt_of_mul_lt_mul_left h1
  have hU : 2 ^ 1074 = 2 ^ j * 2 ^ (1074 - j) := by
    rw [Nat.mul_comm]
    exact strconv.pow_two_split 1074 j (by omega)
  have h53 : 2 ^ 53 = 2 ^ (53 - j) * 2 ^ j := strconv.pow_two_split 53 j (by omega)
  have hA32 : 2 ^ j ≤ 2 ^ 32 := Nat.pow_le_pow_right (by norm_num) hj
  have hY : I * 2 ^ j + K < 2 ^ 53 := by
    have h1 : (I + 1) * 2 ^ j ≤ 2 ^ (53 - j) * 2 ^ j := Nat.mul_le_mul_right _ hI
    rw [h53]
    have h2 : (I + 1) * 2 ^ j = I * 2 ^ j + 2 ^ j := by ring
    omega
  have hI53 : I < 2 ^ 53 := by
    have h1 : I * 1 ≤ I * 2 ^ j := Nat.mul_le_mul_left _ hApos
    omega
  have hK53 : K < 2 ^ 53 := by
    have : (2 : Nat) ^ 32 < 2 ^ 53 := by norm_num
    omega
  have hKY : K * 1953125 < 2 ^ 53 := by
    have h32 : (2 : Nat) ^ 32 = 4294967296 := by norm_num
    have h53' : (2 : Nat) ^ 53 = 9007199254740992 := by norm_num
    rw [h53']
    omega
  generalize hP : 2 ^ (1074 - j) = P at hU
  have hPpos : 0 < P := by rw [← hP]; positivity
  -- the value parsed
  have e1 : (((I * 10 ^ L + F : Nat) : Int) * 2 ^ 1074)
      = ((10 ^ L * ((I * 2 ^ j + K) * 2 ^ (1074 - j)) : Nat) : Int) := by
    have hn : (I * 10 ^ L + F) * 2 ^ 1074 = 10 ^ L * ((I * 2 ^ j + K) * 2 ^ (1074 - j)) := by
      rw [hP, hU]
      have : 10 ^ L * ((I * 2 ^ j + K) * P) = I * 10 ^ L * (2 ^ j * P) + (10 ^ L * K) * P := by
        ring
      rw [this, ← hK]
      ring
    rw [← hn]
    push_cast
    rfl
  have r1 := strconv.roundUnits_exact (10 ^ L) (I * 2 ^ j + K) (1074 - j) hTpos hY (by omega)
  rw [← e1] at r1
  refine ⟨_, r1, ?_, ?_⟩
  · -- the whole seconds
    have hq : (I * 2 ^ j + K) * 2 ^ (1074 - j) / 2 ^ 1074 = I := by
      rw [hP, hU, Nat.mul_div_mul_right _ _ hPpos]
      exact Nat.div_eq_of_lt_le (by omega) (by rw [Nat.add_mul]; omega)
    rw [strconv.int64_nat impl _ (by rw [hq]; have : (2:Nat) ^ 53 = 9007199254740992 := by norm_num
                                     omega), hq]
  · -- the fraction, scaled
    have o1 : float64.ofInt (I : Int) = ⟨((I * 2 ^ 1074 : Nat) : Int)⟩ := by
      unfold float64.ofInt
      have : ((I : Int) * 2 ^ 1074) = ((1 * (I * 2 ^ 1074) : Nat) : Int) := by
        push_cast
        ring
      rw [this, strconv.roundUnits_exact 1 I 1074 (by norm_num) hI53 (by norm_num)]
      rfl
    have s1 : float64.sub ⟨(((I * 2 ^ j + K) * 2 ^ (1074 - j) : Nat) : Int)⟩
        ⟨((I * 2 ^ 1074 : Nat) : Int)⟩ = ⟨((K * 2 ^ (1074 - j) : Nat) : Int)⟩ := by
      unfold float64.sub
      have : ((((I * 2 ^ j + K) * 2 ^ (1074 - j) : Nat) : Int) - ((I * 2 ^ 1074 : Nat) : Int))
          = ((1 * (K * 2 ^ (1074 - j)) : Nat) : Int) := by
        rw [hU, hP]
        push_cast
        ring
      simp only
      rw [this, strconv.roundUnits_exact 1 K (1074 - j) (by norm_num) hK53 (by omega)]
      rfl
    have m1 : float64.mul ⟨((K * 2 ^ (1074 - j) : Nat) : Int)⟩ timegrinder.billion
        = some ⟨((K * 1953125 * 2 ^ (9 + (1074 - j)) : Nat) : Int)⟩ := by
      unfold float64.mul timegrinder.billion
      have : (((K * 2 ^ (1074 - j) : Nat) : Int) * (1000000000 * 2 ^ 1074))
          = ((2 ^ 1074 * (K * 1953125 * 2 ^ (9 + (1074 - j))) : Nat) : Int) := by
        rw [pow_add, hP]
        push_cast
        ring
      simp only
      rw [this, strconv.roundUnits_exact (2 ^ 1074) (K * 1953125) (9 + (1074 - j))
        (by positivity) hKY (by omega)]
    rw [o1, s1, m1]
    have hq : K * 1953125 * 2 ^ (9 + (1074 - j)) / 2 ^ 1074 = F * 10 ^ 9 / 10 ^ L := by
      have h1 : K * 1953125 * 2 ^ (9 + (1074 - j)) = (K * 10 ^ 9) * P := by
        rw [pow_add, hP]
        ring
      rw [h1, hU, Nat.mul_div_mul_right _ _ hPpos]
      rw [← Nat.mul_div_mul_left (K * 10 ^ 9) (2 ^ j) hTpos]
      have h2 : 10 ^ L * (K * 10 ^ 9) = 2 ^ j * (F * 10 ^ 9) := by
        rw [← Nat.mul_assoc, ← hK]
        ring
      rw [h2, Nat.mul_comm (10 ^ L) (2 ^ j), Nat.mul_div_mul_left _ _ hApos]
    have hlt : F * 10 ^ 9 / 10 ^ L < 10 ^ 9 := by
      rw [Nat.div_lt_iff_lt_mul hTpos, Nat.mul_comm]
      exact Nat.mul_lt_mul_of_pos_left hF (by positivity)
    rw [strconv.int64_nat impl _ (by rw [hq]; norm_num at hlt ⊢; omega), hq]

theorem time.Unix_normal (sec nsec : Int) (h0 : 0 ≤ nsec) (h1 : nsec < 1000000000) :
    Unix sec nsec = ⟨sec, nsec, UTC⟩ := by
  unfold Unix
  have : ¬ (nsec < 0 ∨ nsec ≥ 1000000000) := by omega
  simp only [this, if_false]

/-! ## The three `Extract` methods -/

/-- C3.  For each of the three kinds of processor, every input and every location:
`Extract` is a total function (no operation of the Go code can fail on the way: the only
indexing, `subs[1]`, is guarded by the test on `len(subs)`), and whenever the recognition
pattern does not match the input, or what it matched fails to parse, the result is the
zero instant with found = false.  `now` is the clock reading and `impl` the
implementation-defined result of an out-of-range conversion, neither of which matters. -/
theorem Extract_miss_returns_zero_not_found (now : Time) (impl : Int) (p : Processor)
    (d : List Nat) (loc : Location) (h : p.misses d loc) :
    p.Extract now impl d loc = (Time.zero, false) := by
  have std : ∀ a : processor, (a.rxp.Find d = none
      ∨ ∃ sub e, a.rxp.Find d = some sub ∧ ParseInLocation a.format sub loc = .error e) →
      a.Extract d loc = (Time.zero, false) := by
    intro a h
    unfold processor.Extract
    rcases h with h | ⟨sub, e, h1, h2⟩
    · simp [h, regexp.len]
    · simp only [h1, regexp.len, Option.getD_some, h2]
      split_ifs <;> rfl
  cases p with
  | standard a => exact std a h
  | syslog sp =>
    unfold Processor.Extract syslogProcessor.Extract
    simp only [std sp.toProcessor h]
    rfl
  | unix up =>
    unfold Processor.Extract unixProcessor.Extract
    rcases h with h | ⟨subs, e, h1, h2⟩
    · simp [h, regexp.len]
    · simp only [h1, regexp.len, Option.getD_some, h2]
      split_ifs <;> rfl

/-- C3 at three misses: a line without `<digits>.<digits>` at its start for the
numeric-epoch processor, a line without a month name for the year-inferring processor, and
a line whose month name is no month for the ANSI C processor. -/
theorem Extract_miss_returns_zero_not_found_witness :
    (Processor.unix NewUnixMilliTimeProcessor).Extract (Unix 1700000000 0) 0
        (ascii "at 1700000000.500 some message") UTC = (Time.zero, false)
    ∧ (Processor.syslog (NewSyslogProcessor sampleFormats)).Extract (Unix 1700000000 0) 0
        (ascii "no timestamp here") UTC = (Time.zero, false)
    ∧ (Processor.standard NewAnsiCProcessor).Extract (Unix 1700000000 0) 0
        (ascii "Jaa  2 15:04:05 2006") springForward = (Time.zero, false) :=
  ⟨Extract_miss_returns_zero_not_found (Unix 1700000000 0) 0 (.unix NewUnixMilliTimeProcessor)
      (ascii "at 1700000000.500 some message") UTC (Or.inl (by decide!)),
   Extract_miss_returns_zero_not_found (Unix 1700000000 0) 0
      (.syslog (NewSyslogProcessor sampleFormats)) (ascii "no timestamp here") UTC
      (Or.inl (by decide!)),
   Extract_miss_returns_zero_not_found (Unix 1700000000 0) 0 (.standard NewAnsiCProcessor)
      (ascii "Jaa  2 15:04:05 2006") springForward
      (Or.inr ⟨ascii "Jaa  2 15:04:05 2006", .bad, by decide!, by decide!⟩)⟩

/-- C6.  For every standard processor, input and location: when `Extract` reports found,
the pattern has a leftmost match in the input (at some offset `k`, its text a part of the
input from there on), `Find` returns the text of that match, and the instant returned is
exactly what `ParseInLocation` gives for that text with the processor's layout in the
location supplied: nothing is adjusted afterwards. -/
theorem Extract_is_parse_of_leftmost_match (a : processor) (d : List Nat) (loc : Location)
    (t : Time) (h : a.Extract d loc = (t, true)) :
    ∃ k m, a.rxp.LeftmostAt d k m ∧ m.flatten <+: d.drop k
      ∧ a.rxp.Find d = some m.flatten
      ∧ ParseInLocation a.format m.flatten loc = .ok t := by
  obtain ⟨sub, hf, _, hp⟩ := timegrinder.Extract_found a d loc t h
  obtain ⟨k, m, hl, rfl⟩ := regexp.Find_eq_some a.rxp d sub hf
  exact ⟨k, m, hl, regexp.matchHere_prefix _ _ _ _ hl.2.1, hf, hp⟩

/-- C6 at a line with an ANSI C timestamp after a prefix, read in a zone five hours
behind UTC. -/
theorem Extract_is_parse_of_leftmost_match_witness :
    NewAnsiCProcessor.Extract (ascii "at Mar 12 01:30:00 2023 up") springForward
        = (⟨1678602600, 0, springForward⟩, true)
    ∧ ∃ k m, NewAnsiCProcessor.rxp.LeftmostAt (ascii "at Mar 12 01:30:00 2023 up") k m
      ∧ m.flatten <+: (ascii "at Mar 12 01:30:00 2023 up").drop k
      ∧ NewAnsiCProcessor.rxp.Find (ascii "at Mar 12 01:30:00 2023 up") = some m.flatten
      ∧ ParseInLocation NewAnsiCProcessor.format m.flatten springForward
          = .ok ⟨1678602600, 0, springForward⟩ :=
  ⟨by decide!,
   Extract_is_parse_of_leftmost_match NewAnsiCProcessor (ascii "at Mar 12 01:30:00 2023 up")
     springForward ⟨1678602600, 0, springForward⟩ (by decide!)⟩

/-! ## Anchored and unanchored search -/

theorem timegrinder.epoch_leftmost_start (d : List Nat) (k : Nat) (m : List (List Nat))
    (h : NewUnixMilliTimeProcessor.re.LeftmostAt d k m) :
    k = 0 ∧ matchHere NewUnixMilliTimeProcessor.re.prog true d = some m := by
  have hm := h.2.1
  unfold Regexp.MatchesAt at hm
  have hprog : NewUnixMilliTimeProcessor.re.prog
      = .beginText :: plus digit :: lit '.' :: plus digit :: one space :: [] := rfl
  by_cases hk : k = 0
  · subst hk
    exact ⟨rfl, by simpa using hm⟩
  · have hf : (k == 0) = false := by simp [hk]
    rw [hprog, hf, matchHere] at hm
    simp at hm

theorem timegrinder.beginsWithEpochToken_form (ip fp rest : List Nat) (ws : Nat)
    (hip : ip ≠ []) (hfp : fp ≠ []) (hipd : ∀ b ∈ ip, isDigitByte b = true)
    (hfpd : ∀ b ∈ fp, isDigitByte b = true) :
    beginsWithEpochToken (ip ++ 0x2E :: (fp ++ ws :: rest)) = true := by
  have hdot : isDigitByte 0x2E = false := by decide
  unfold beginsWithEpochToken
  rw [List.takeWhile_append_of_pos hipd, List.dropWhile_append_of_pos hipd,
    List.takeWhile_cons, List.dropWhile_cons]
  simp only [hdot, Bool.false_eq_true, if_false, List.append_nil, List.head?_cons,
    List.drop_succ_cons, List.drop_zero]
  rw [List.takeWhile_append_of_pos hfpd]
  have h1 := List.length_pos.mpr hip
  have h2 := List.length_pos.mpr hfp
  simp only [List.length_append, ne_eq, Bool.and_eq_true, decide_eq_true_eq, beq_self_eq_true,
    and_true, decide_not, Bool.not_eq_true', decide_eq_false_iff_not]
  constructor <;> omega

/-- Without a token `<digits>.<digits>` at its start, a line has no match of the
numeric-epoch pattern. -/
theorem timegrinder.epoch_search_none (d : List Nat) (h : beginsWithEpochToken d = false) :
    NewUnixMilliTimeProcessor.re.search d = none := by
  cases hs : NewUnixMilliTimeProcessor.re.search d with
  | none => rfl
  | some r =>
    obtain ⟨sk, m⟩ := r
    obtain ⟨k, _, hl⟩ := (regexp.search_iff _ d sk m).mp hs
    obtain ⟨_, hm⟩ := timegrinder.epoch_leftmost_start d k m hl
    obtain ⟨ip, fp, ws, rest, h1, h2, h3, h4, _, rfl, _⟩ := timegrinder.epoch_match_sound d m hm
    rw [timegrinder.beginsWithEpochToken_form ip fp rest ws h1 h2 h3 h4] at h
    exact absurd h (by simp)

theorem regexp.Boundary_le (d : List Nat) (k : Nat) (h : Boundary d k) : k ≤ d.length := by
  induction h with
  | start d => exact Nat.zero_le _
  | next d k hd _ ih =>
    have hw := regexp.DecodeRune_width' d hd
    rw [List.length_drop] at ih
    omega

theorem regexp.leftmost_of_search (re : Regexp) (d sk : List Nat) (m : List (List Nat))
    (h : re.search d = some (sk, m)) : re.LeftmostAt d sk.length m ∧ sk <+: d := by
  obtain ⟨k, hk, hl⟩ := (regexp.search_iff re d sk m).mp h
  have hb : k ≤ d.length := regexp.Boundary_le d k hl.1
  subst hk
  rw [List.length_take, Nat.min_eq_left hb]
  exact ⟨hl, List.take_prefix _ _⟩

/-- C4.  The numeric-epoch processor wants its token first: on every line that does not
begin with `<digits>.<digits>`, whatever comes later in the line, `Extract` returns the
zero instant with found = false.  A standard processor searches the whole input: whenever
its pattern has its leftmost match at an offset `k` of the line, whatever `k` is, and the
text matched is not empty and parses with the layout, `Extract` returns the instant parsed
with found = true. -/
theorem Extract_anchored_epoch_unanchored_standard (impl : Int) (loc : Location) :
    (∀ d : List Nat, beginsWithEpochToken d = false →
        NewUnixMilliTimeProcessor.Extract impl d loc = (Time.zero, false))
    ∧ (∀ (a : processor) (d : List Nat) (k : Nat) (m : List (List Nat)) (t : Time),
        a.rxp.LeftmostAt d k m → m.flatten ≠ [] →
        ParseInLocation a.format m.flatten loc = .ok t → a.Extract d loc = (t, true)) := by
  constructor
  · intro d h
    unfold unixProcessor.Extract Regexp.FindSubmatch
    rw [timegrinder.epoch_search_none d h]
    simp [regexp.len]
  · intro a d k m t hl hne hp
    exact timegrinder.Extract_of_parse a d _ loc t (regexp.Find_of_leftmost a.rxp d k m hl) hne hp

/-- C4 at a line with an epoch token at offset 3, which the numeric-epoch processor does
not find, and a line with an ANSI C timestamp at offset 3, which the ANSI C processor
finds. -/
theorem Extract_anchored_epoch_unanchored_standard_witness :
    beginsWithEpochToken (ascii "at 1700000000.500 some message") = false
    ∧ NewUnixMilliTimeProcessor.Extract 0 (ascii "at 1700000000.500 some message") UTC
        = (Time.zero, false)
    ∧ NewAnsiCProcessor.rxp.LeftmostAt (ascii "at Mar 12 01:30:00 2023 up") 3
        [ascii "M", ascii "ar", ascii " ", ascii "12", ascii " ", ascii "0", ascii "1",
          ascii ":", ascii "3", ascii "0", ascii ":", ascii "0", ascii "0", ascii " ",
          ascii "2023"]
    ∧ NewAnsiCProcessor.Extract (ascii "at Mar 12 01:30:00 2023 up") UTC
        = (⟨1678584600, 0, UTC⟩, true) :=
  have hl := (regexp.leftmost_of_search NewAnsiCProcessor.rxp (ascii "at Mar 12 01:30:00 2023 up")
    (ascii "at ") _ (by decide!)).1
  ⟨by decide!,
   (Extract_anchored_epoch_unanchored_standard 0 UTC).1 _ (by decide!),
   hl,
   (Extract_anchored_epoch_unanchored_standard 0 UTC).2 NewAnsiCProcessor _ 3 _ _ hl
     (by decide!) (by decide!)⟩

/-- C1, as the code has it.  Take a line that begins with a token `<digits>.<digits>`
followed by a white-space byte, and any location.  When the token's value is below
`2^1023`, `Extract` returns found = true.  When moreover the token is a number that
`float64` arithmetic carries without rounding error, namely for some `j ≤ 32` the
fraction is a whole multiple of `2^-j` and the integer part is below `2^(53-j)`, the
instant returned has the integer part as its Unix seconds, the fractional digits scaled
to nanoseconds (rounded down) as its nanoseconds, and the location supplied. -/
theorem Extract_epoch_token (impl : Int) (loc : Location) (ip fp rest : List Nat) (ws : Nat)
    (hip : ip ≠ []) (hfp : fp ≠ []) (hipd : ∀ b ∈ ip, isDigitByte b = true)
    (hfpd : ∀ b ∈ fp, isDigitByte b = true) (hws : space.has ws = true) :
    (digitsVal (ip ++ fp) < 2 ^ 1023 * 10 ^ fp.length →
      (NewUnixMilliTimeProcessor.Extract impl (ip ++ 0x2E :: (fp ++ ws :: rest)) loc).2 = true)
    ∧ (∀ j, j ≤ 32 → digitsVal ip < 2 ^ (53 - j) → 10 ^ fp.length ∣ 2 ^ j * digitsVal fp →
      NewUnixMilliTimeProcessor.Extract impl (ip ++ 0x2E :: (fp ++ ws :: rest)) loc
        = (⟨(digitsVal ip : Int), ((digitsVal fp * 10 ^ 9 / 10 ^ fp.length : Nat) : Int), loc⟩,
            true)) := by
  constructor
  · intro hfin
    have hn : digitsVal (ip ++ fp) * 2 ^ 1074 < 2 ^ 2097 * 10 ^ fp.length := by
      have h1 : (2 : Nat) ^ 2097 = 2 ^ 1023 * 2 ^ 1074 := by rw [← pow_add]
      rw [h1]
      have h2 := Nat.mul_lt_mul_of_pos_right hfin (show 0 < 2 ^ 1074 by positivity)
      calc digitsVal (ip ++ fp) * 2 ^ 1074 < 2 ^ 1023 * 10 ^ fp.length * 2 ^ 1074 := h2
        _ = 2 ^ 1023 * 2 ^ 1074 * 10 ^ fp.length := by ring
    obtain ⟨x, hx⟩ := strconv.roundUnits_finite _ _ (by positivity) hn
    have hx' : roundUnits ((digitsVal (ip ++ fp) : Int) * 2 ^ 1074) (10 ^ fp.length) = some x := by
      have e : ((digitsVal (ip ++ fp) : Int) * 2 ^ 1074)
          = ((digitsVal (ip ++ fp) * 2 ^ 1074 : Nat) : Int) := by
        push_cast
        rfl
      rw [e, hx]
    rw [timegrinder.epoch_Extract_ok impl loc ip fp rest ws hip hfp hipd hfpd hws x
      (strconv.ParseFloat_decimal ip fp hip hfp hipd hfpd x hx')]
  · intro j hj hI hdiv
    obtain ⟨x, hx, hsec, hnsec⟩ := strconv.epoch_arith impl (digitsVal ip) (digitsVal fp)
      fp.length j hj hI (strconv.digitsVal_lt fp hfpd) hdiv
    rw [← strconv.digitsVal_append] at hx
    rw [timegrinder.epoch_Extract_ok impl loc ip fp rest ws hip hfp hipd hfpd hws x
      (strconv.ParseFloat_decimal ip fp hip hfp hipd hfpd x hx)]
    rw [hsec, hnsec]
    have hlt : digitsVal fp * 10 ^ 9 / 10 ^ fp.length < 10 ^ 9 := by
      rw [Nat.div_lt_iff_lt_mul (by positivity), Nat.mul_comm]
      exact Nat.mul_lt_mul_of_pos_left (strconv.digitsVal_lt fp hfpd) (by positivity)
    rw [time.Unix_normal _ _ (Int.ofNat_nonneg _) (by norm_num at hlt; exact_mod_cast hlt)]
    rfl

/-- C1 at the example of the specification: the line `1700000000.500 some message`, whose
fraction is one half, gives 1700000000 seconds and 500 milliseconds, in any zone. -/
theorem Extract_epoch_token_witness :
    ascii "1700000000" ++ 0x2E :: (ascii "500" ++ 32 :: ascii "some message")
        = ascii "1700000000.500 some message"
    ∧ (NewUnixMilliTimeProcessor.Extract 0
        (ascii "1700000000" ++ 0x2E :: (ascii "500" ++ 32 :: ascii "some message"))
        springForward).2 = true
    ∧ NewUnixMilliTimeProcessor.Extract 0
        (ascii "1700000000" ++ 0x2E :: (ascii "500" ++ 32 :: ascii "some message"))
        springForward
      = (⟨(digitsVal (ascii "1700000000") : Int),
          ((digitsVal (ascii "500") * 10 ^ 9 / 10 ^ (ascii "500").length : Nat) : Int),
          springForward⟩, true)
    ∧ digitsVal (ascii "1700000000") = 1700000000
    ∧ digitsVal (ascii "500") * 10 ^ 9 / 10 ^ (ascii "500").length = 500000000 :=
  ⟨by decide!,
   (Extract_epoch_token 0 springForward (ascii "1700000000") (ascii "500")
      (ascii "some message") 32 (by decide!) (by decide!) (by decide!) (by decide!)
      (by decide!)).1 (by decide!),
   (Extract_epoch_token 0 springForward (ascii "1700000000") (ascii "500")
      (ascii "some message") 32 (by decide!) (by decide!) (by decide!) (by decide!)
      (by decide!)).2 1 (by decide!) (by decide!) (by decide!),
   by decide!, by decide!⟩

/-- C1 fails on the line `1700000000.123 x`: the nearest `float64` to the token is a little
below it, and the nanoseconds returned are 122999906 where the fractional digits scaled
to nanoseconds are 123000000.  It fails on `1700000000.9999999 x` too: the nearest
`float64` is 1700000001, which is returned as the seconds, with no nanoseconds. -/
theorem Extract_epoch_rounds_token :
    NewUnixMilliTimeProcessor.Extract (-9223372036854775808) (ascii "1700000000.123 x") UTC
        = (⟨1700000000, 122999906, UTC⟩, true)
    ∧ (NewUnixMilliTimeProcessor.Extract (-9223372036854775808)
        (ascii "1700000000.123 x") UTC).1.Nanosecond
          ≠ ((digitsVal (ascii "123") * 10 ^ 9 / 10 ^ 3 : Nat) : Int)
    ∧ NewUnixMilliTimeProcessor.Extract (-9223372036854775808)
        (ascii "1700000000.9999999 x") UTC = (⟨1700000001, 0, UTC⟩, true)
    ∧ (NewUnixMilliTimeProcessor.Extract (-9223372036854775808)
        (ascii "1700000000.9999999 x") UTC).1.Unix
          ≠ (digitsVal (ascii "1700000000") : Int) :=
  ⟨by decide!, by decide!, by decide!, by decide!⟩

/-! ## Patterns and layouts of the built-in variants -/

/-- C5, as the code has it.  Each standard variant whose layout is given in
`processors.go` has an illustrative timestamp that its pattern matches in full and that
its layout parses: on that timestamp alone `Find` returns the whole of it, and `Extract`
reports found with the very instant that `ParseInLocation` gives for it. -/
theorem illustration_matches_and_parses (e : processor × List Nat) (he : e ∈ illustrations) :
    e.1.rxp.Find e.2 = some e.2
    ∧ ∃ t, ParseInLocation e.1.format e.2 UTC = .ok t ∧ e.1.Extract e.2 UTC = (t, true) := by
  have hall : ∀ e ∈ illustrations,
      e.1.rxp.Find e.2 = some e.2 ∧ (e.1.Extract e.2 UTC).2 = true := by decide!
  obtain ⟨h1, h2⟩ := hall e he
  refine ⟨h1, (e.1.Extract e.2 UTC).1, ?_, ?_⟩
  · obtain ⟨sub, hf, _, hp⟩ := timegrinder.Extract_found e.1 e.2 UTC (e.1.Extract e.2 UTC).1
      (by rw [← h2])
    rw [h1] at hf
    cases hf
    exact hp
  · rw [← h2]

/-- C5 at the RFC 3339 variant, whose illustration is `2006-01-02T15:04:05Z`. -/
theorem illustration_matches_and_parses_witness :
    (NewRFC3339Processor, ascii "2006-01-02T15:04:05Z") ∈ illustrations
    ∧ NewRFC3339Processor.rxp.Find (ascii "2006-01-02T15:04:05Z")
        = some (ascii "2006-01-02T15:04:05Z")
    ∧ ∃ t, ParseInLocation NewRFC3339Processor.format (ascii "2006-01-02T15:04:05Z") UTC = .ok t
        ∧ NewRFC3339Processor.Extract (ascii "2006-01-02T15:04:05Z") UTC = (t, true) :=
  ⟨by decide!,
   illustration_matches_and_parses (NewRFC3339Processor, ascii "2006-01-02T15:04:05Z")
     (by decide!)⟩

/-- C5 fails in both directions at the RFC 3339 variant.  Its pattern
`\d{4}-\d{2}-\d{2}T\d\d:\d\d:\d\dZ` matches the whole of `2006-13-02T15:04:05Z`, which the
layout does not parse (there is no month 13); and the layout parses
`2006-01-02T15:04:05+07:00`, in which the pattern, wanting a `Z` at the end, has no
match. -/
theorem pattern_and_layout_disagree :
    NewRFC3339Processor.rxp.Find (ascii "2006-13-02T15:04:05Z")
        = some (ascii "2006-13-02T15:04:05Z")
    ∧ ParseInLocation NewRFC3339Processor.format (ascii "2006-13-02T15:04:05Z") UTC
        = .error (.range "month")
    ∧ (ParseInLocation NewRFC3339Processor.format (ascii "2006-01-02T15:04:05+07:00") UTC).toOption.map
          Time.Unix = some 1136189045
    ∧ NewRFC3339Processor.rxp.Find (ascii "2006-01-02T15:04:05+07:00") = none :=
  ⟨by decide!, by decide!, by decide!, by decide!⟩

/-! ## `trimQuotes` -/

theorem singleFile.getLast?_quoted (mid : List Nat) (a b : Nat) :
    (a :: (mid ++ [b])).getLast? = some b := by
  rw [← List.cons_append, List.getLast?_append]
  simp

/-- A slice of length two or more with given first and last byte is those two bytes
around a middle part. -/
theorem singleFile.ends_split (data : List Nat) (a b : Nat) (hlen : 2 ≤ data.length)
    (hh : data.head? = some a) (hl : data.getLast? = some b) :
    ∃ mid, data = a :: (mid ++ [b]) := by
  rcases data with _ | ⟨x, rest⟩
  · simp at hlen
  · simp only [List.head?_cons, Option.some.injEq] at hh
    subst hh
    rcases List.eq_nil_or_concat rest with h | ⟨mid, c, h⟩
    · subst h
      simp at hlen
    · subst h
      rw [List.concat_eq_append, singleFile.getLast?_quoted] at hl
      simp only [Option.some.injEq] at hl
      subst hl
      exact ⟨mid, by simp⟩

theorem singleFile.trimQuotes_quoted (mid : List Nat) :
    singleFile.trimQuotes (0x22 :: (mid ++ [0x22])) = mid := by
  unfold singleFile.trimQuotes
  have hlen : (0x22 :: (mid ++ [0x22])).length ≥ 2 := by simp
  simp only [hlen, if_true, List.head?_cons, singleFile.getLast?_quoted, and_self,
    List.drop_succ_cons, List.drop_zero, List.dropLast_concat]

/-- C16.  `trimQuotes` on every byte slice `data`: when `data` has two bytes or more and
its first and last byte are both a double quote, the result is `data` without its first
and its last byte (`data` is then a quote, a middle part and a quote, and the result is
the middle part); in every other case, the empty slice and the slice of one quote among
them, the result is `data`.  The result is always a stretch of consecutive bytes of
`data`, of the length of `data` or two bytes shorter. -/
theorem trimQuotes_strips_one_pair (data : List Nat) :
    (2 ≤ data.length → data.head? = some 0x22 → data.getLast? = some 0x22 →
      singleFile.trimQuotes data = (data.drop 1).take (data.length - 2)
      ∧ data = 0x22 :: (singleFile.trimQuotes data ++ [0x22]))
    ∧ (¬ (2 ≤ data.length ∧ data.head? = some 0x22 ∧ data.getLast? = some 0x22) →
      singleFile.trimQuotes data = data)
    ∧ singleFile.trimQuotes [] = []
    ∧ singleFile.trimQuotes [0x22] = [0x22]
    ∧ singleFile.trimQuotes data <:+: data
    ∧ ((singleFile.trimQuotes data).length = data.length
        ∨ (singleFile.trimQuotes data).length + 2 = data.length) := by
  have hq : 2 ≤ data.length → data.head? = some 0x22 → data.getLast? = some 0x22 →
      ∃ mid, data = 0x22 :: (mid ++ [0x22]) ∧ singleFile.trimQuotes data = mid := by
    intro h1 h2 h3
    obtain ⟨mid, rfl⟩ := singleFile.ends_split data _ _ h1 h2 h3
    exact ⟨mid, rfl, singleFile.trimQuotes_quoted mid⟩
  have hn : ¬ (2 ≤ data.length ∧ data.head? = some 0x22 ∧ data.getLast? = some 0x22) →
      singleFile.trimQuotes data = data := by
    intro h
    unfold singleFile.trimQuotes
    by_cases h1 : data.length ≥ 2
    · have h2 : ¬ (data.head? = some 0x22 ∧ data.getLast? = some 0x22) := fun h' => h ⟨h1, h'⟩
      simp only [h1, if_true, h2, if_false]
    · simp only [h1, if_false]
  refine ⟨?_, hn, by decide, by decide, ?_, ?_⟩
  · intro h1 h2 h3
    obtain ⟨mid, hd, ht⟩ := hq h1 h2 h3
    rw [ht]
    refine ⟨?_, hd⟩
    rw [hd]
    simp
  · by_cases h : 2 ≤ data.length ∧ data.head? = some 0x22 ∧ data.getLast? = some 0x22
    · obtain ⟨mid, hd, ht⟩ := hq h.1 h.2.1 h.2.2
      rw [ht, hd]
      exact ⟨[0x22], [0x22], by simp⟩
    · exact (hn h).symm ▸ List.infix_refl data
  · by_cases h : 2 ≤ data.length ∧ data.head? = some 0x22 ∧ data.getLast? = some 0x22
    · obtain ⟨mid, hd, ht⟩ := hq h.1 h.2.1 h.2.2
      right
      rw [ht, hd]
      simp
    · left
      rw [hn h]

/-- C16 at a quoted line, a line with a quote at its start only, and a line of two
quotes. -/
theorem trimQuotes_strips_one_pair_witness :
    singleFile.trimQuotes (ascii "\"a b\"") = ascii "a b"
    ∧ ascii "\"a b\"" = 0x22 :: (singleFile.trimQuotes (ascii "\"a b\"") ++ [0x22])
    ∧ singleFile.trimQuotes (ascii "\"a b") = ascii "\"a b"
    ∧ singleFile.trimQuotes (ascii "\"\"") = [] :=
  ⟨by decide,
   ((trimQuotes_strips_one_pair (ascii "\"a b\"")).1 (by decide) (by decide) (by decide)).2,
   (trimQuotes_strips_one_pair (ascii "\"a b")).2.1 (by decide),
   by decide⟩

/-! ## Outcomes of `TimestampDelimited` -/

theorem fileFollow.fixupRegex_ne_empty (rex : String) (h : rex ≠ "") :
    fileFollow.fixupRegex rex ≠ "" := by
  have hn : ∀ t : String, "\\n" ++ t ≠ "" := by
    intro t ht
    have := congrArg String.data ht
    simp [String.data_append] at this
  cases h1 : HasPrefix rex "\\A" with
  | true => rw [fixupRegex_beginText rex h1]; exact hn _
  | false =>
    cases h2 : HasPrefix rex "^" with
    | true => rw [fixupRegex_caret rex h1 h2]; exact hn _
    | false => rw [fixupRegex_other rex h1 h2]; exact h

theorem fileFollow.verifyFollower_delimited (x : fileFollow.Externals) (k : String)
    (v : fileFollow.follower) (hd : v.Timestamp_Delimited = true)
    (ho : v.Timestamp_Format_Override = "") : fileFollow.verifyFollower x k v ≠ none := by
  unfold fileFollow.verifyFollower
  by_cases hb : v.Base_Directory.length = 0
  · simp [hb]
  · simp [hb, hd, ho]

theorem fileFollow.verifyFollowers_delimited (x : fileFollow.Externals)
    (l : List (String × fileFollow.follower))
    (h : ∃ kv ∈ l, kv.2.Timestamp_Delimited = true ∧ kv.2.Timestamp_Format_Override = "") :
    fileFollow.verifyFollowers x l ≠ none := by
  induction l with
  | nil => simp at h
  | cons hd tl ih =>
    obtain ⟨k, v⟩ := hd
    unfold fileFollow.verifyFollowers
    cases hv : fileFollow.verifyFollower x k v with
    | some e => simp
    | none =>
      simp only
      apply ih
      obtain ⟨kv, hmem, h1, h2⟩ := h
      rcases List.mem_cons.mp hmem with rfl | hmem
      · exact absurd hv (fileFollow.verifyFollower_delimited x _ _ h1 h2)
      · exact ⟨kv, hmem, h1, h2⟩

/-- C11.  `TimestampDelimited` returns the empty pattern, false and nil when
`Timestamp_Delimited` is false; it returns `ErrTimestampDelimiterMissingOverride` with
false when `Timestamp_Delimited` is true and `Timestamp_Format_Override` is empty; and
whenever it returns true, the error with it is nil and the pattern is not empty.
`verifyConfig` returns a non-nil error for every configuration in which some follower has
`Timestamp_Delimited` set and an empty override, in whatever order the followers are gone
through. -/
theorem TimestampDelimited_outcomes {TG P : Type} (api : fileFollow.GrinderAPI TG P)
    (f : fileFollow.follower) :
    (f.Timestamp_Delimited = false → f.TimestampDelimited api = ("", false, none))
    ∧ (f.Timestamp_Delimited = true → f.Timestamp_Format_Override = "" →
        f.TimestampDelimited api
          = ("", false, some fileFollow.ErrTimestampDelimiterMissingOverride))
    ∧ (∀ rex err, f.TimestampDelimited api = (rex, true, err) → err = none ∧ rex ≠ "")
    ∧ (∀ (x : fileFollow.Externals) (c : fileFollow.cfgType),
        (∃ kv ∈ c.Follower, kv.2.Timestamp_Delimited = true
          ∧ kv.2.Timestamp_Format_Override = "") →
        fileFollow.verifyConfig x c ≠ none) := by
  refine ⟨?_, ?_, ?_, ?_⟩
  · intro h
    simp [fileFollow.follower.TimestampDelimited, h]
  · intro h1 h2
    simp [fileFollow.follower.TimestampDelimited, h1, h2]
  · intro rex err h
    unfold fileFollow.follower.TimestampDelimited at h
    split_ifs at h with h1 h2
    · simp at h
    · simp at h
    · cases hn : api.New f.Timestamp_Format_Override with
      | error e => simp [hn] at h
      | ok tg =>
        cases ho : api.OverrideProcessor tg with
        | error e => simp [hn, ho] at h
        | ok proc =>
          simp only [hn, ho] at h
          split_ifs at h with h3
          · simp at h
          · cases hc : api.Compile (fileFollow.fixupRegex (api.ExtractionRegex proc)) with
            | some e => simp [hc] at h
            | none =>
              simp only [hc, Prod.mk.injEq, true_and] at h
              obtain ⟨hr, he⟩ := h
              subst hr
              exact ⟨he.symm, fileFollow.fixupRegex_ne_empty _ h3⟩
  · intro x c h
    unfold fileFollow.verifyConfig
    cases hg : c.toGlobal.Verify x with
    | some e => simp
    | none =>
      simp only
      split_ifs with hlen
      · simp
      · cases hp : x.preprocessorValidate with
        | some e => simp
        | none => exact fileFollow.verifyFollowers_delimited x _ h

/-- C11 at a follower in delimited mode without an override, at one with an override
whose pattern comes back, and at a configuration that holds the first after a sound
follower. -/
theorem TimestampDelimited_outcomes_witness :
    ({ delimitedFollower with Timestamp_Format_Override := "" }
        : fileFollow.follower).TimestampDelimited anchoredGrinder
      = ("", false, some "Timestamp delimiting requires a defined timestamp override")
    ∧ delimitedFollower.TimestampDelimited anchoredGrinder = ("\\n\\d+\\.\\d+\\s", true, none)
    ∧ ((none : error) = none ∧ "\\n\\d+\\.\\d+\\s" ≠ "")
    ∧ fileFollow.verifyConfig lenientFollow ⟨⟨0, "/tmp/state"⟩, [("a", plainFollower),
        ("b", { delimitedFollower with Timestamp_Format_Override := "" })]⟩ ≠ none :=
  ⟨(TimestampDelimited_outcomes anchoredGrinder
      { delimitedFollower with Timestamp_Format_Override := "" }).2.1 rfl rfl,
   by decide,
   (TimestampDelimited_outcomes anchoredGrinder delimitedFollower).2.2.1
     "\\n\\d+\\.\\d+\\s" none (by decide),
   (TimestampDelimited_outcomes anchoredGrinder delimitedFollower).2.2.2 lenientFollow
     ⟨⟨0, "/tmp/state"⟩, [("a", plainFollower),
        ("b", { delimitedFollower with Timestamp_Format_Override := "" })]⟩
     ⟨("b", { delimitedFollower with Timestamp_Format_Override := "" }), by simp, rfl, rfl⟩⟩

/-! ## The client: login token, request timeout, redirects -/

theorem client.length_ne_zero (s : String) (h : s ≠ "") : s.length ≠ 0 := by
  intro h0
  apply h
  cases s with
  | mk d =>
    simp only [String.length, List.length_eq_zero] at h0
    subst h0
    rfl

/-- C13.  `ImportLoginToken` takes any token that is not empty, whatever state the client
is in: it returns nil; afterwards `LoggedIn` returns true, `SessionData` returns nil and a
session whose JWT is the token, and the header map is the one before with `add` called
on `Authorization` and `Bearer ` followed by the token, so that a header map which gives
back under a key what `add` put there gives back just that.  For the empty token it
returns an error and the client is as it was before. -/
theorem ImportLoginToken_takes_any_token {H : Type} (ops : client.headerMapOps H)
    (st : client.States) (c : client.Client H) (token : String) :
    (token ≠ "" →
      (c.ImportLoginToken ops st token).2 = none
      ∧ (c.ImportLoginToken ops st token).1.LoggedIn st = true
      ∧ (c.ImportLoginToken ops st token).1.SessionData st = (⟨token, 0⟩, none)
      ∧ ((c.ImportLoginToken ops st token).1.SessionData st).1.JWT = token
      ∧ (c.ImportLoginToken ops st token).1.hm
          = ops.add c.hm "Authorization" ("Bearer " ++ token)
      ∧ ∀ get : H → String → Option String, (∀ h k v, get (ops.add h k v) k = some v) →
          get (c.ImportLoginToken ops st token).1.hm "Authorization"
            = some ("Bearer " ++ token))
    ∧ (token = "" →
      (c.ImportLoginToken ops st token).2 = some "invalid token"
      ∧ (c.ImportLoginToken ops st token).1 = c) := by
  constructor
  · intro hne
    have hl := client.length_ne_zero token hne
    have hr : c.ImportLoginToken ops st token
        = ({ c with
              hm := ops.add c.hm client.authHeaderName ("Bearer " ++ token)
              sessionData := { JWT := token, LastNotificationID := 0 }
              state := st.STATE_AUTHED }, none) := by
      simp only [client.Client.ImportLoginToken, client.Client.importLoginToken, hl, if_false]
    rw [hr]
    refine ⟨rfl, ?_, ?_, ?_, rfl, ?_⟩
    · simp [client.Client.LoggedIn]
    · simp [client.Client.SessionData]
    · simp [client.Client.SessionData]
    · intro get hget
      exact hget _ _ _
  · intro he
    subst he
    exact ⟨rfl, rfl⟩

/-- C13 at a client that was closed before, with a header map kept as a list: once the
token is loaded the client is logged in and carries the token in its headers. -/
theorem ImportLoginToken_takes_any_token_witness :
    "tok" ≠ ""
    ∧ ((⟨[], "host", 5, 5, 2, 0, true, ⟨"", 0⟩, "wss", "https", "GravwellCLI"⟩ :
        client.Client (List (String × String))).ImportLoginToken listHeaders numberedStates
          "tok").2 = none
    ∧ ((⟨[], "host", 5, 5, 2, 0, true, ⟨"", 0⟩, "wss", "https", "GravwellCLI"⟩ :
        client.Client (List (String × String))).ImportLoginToken listHeaders numberedStates
          "tok").1.LoggedIn numberedStates = true
    ∧ ((⟨[], "host", 5, 5, 2, 0, true, ⟨"", 0⟩, "wss", "https", "GravwellCLI"⟩ :
        client.Client (List (String × String))).ImportLoginToken listHeaders numberedStates
          "tok").1.hm = [("Authorization", "Bearer tok")] :=
  ⟨by decide,
   ((ImportLoginToken_takes_any_token listHeaders numberedStates
      ⟨[], "host", 5, 5, 2, 0, true, ⟨"", 0⟩, "wss", "https", "GravwellCLI"⟩ "tok").1
      (by decide)).1,
   by decide, by decide⟩

/-- What `NewClient` returns for a server name that is not empty, when `url.Parse` and
`cookiejar.New` return no error: a client in `STATE_NEW` with the default timeout, in the
HTTP client too. -/
theorem client.NewClient_returns {H : Type} (ops : client.headerMapOps H) (st : client.States)
    (urlParse : String → error) (server : String) (enforceCertificate useHttps : Bool)
    (hs : server ≠ "")
    (hu : urlParse ((if useHttps = true then "https" else "http") ++ "://" ++ server) = none) :
    ∃ fresh, client.NewClient ops st urlParse none server enforceCertificate useHttps
        = .client fresh
      ∧ fresh.state = st.STATE_NEW ∧ fresh.timeout = client.defaultRequestTimeout
      ∧ fresh.clntTimeout = client.defaultRequestTimeout ∧ fresh.server = server := by
  unfold client.NewClient
  simp only [hs, if_false, hu]
  exact ⟨_, rfl, rfl, rfl, rfl, rfl⟩

/-- C14.  On a client that is not closed, `SetRequestTimeout` of a duration above zero
returns nil and `RequestTimeout` then returns that duration and nil.  For a duration of
zero or less, and on a closed client, `SetRequestTimeout` returns an error and the client
is as it was before, its timeout too.  `NewClient` returns a client whenever the server
name is not empty and `url.Parse` and `cookiejar.New` return no error, and every client
it returns gives the default of 24 hours as its `RequestTimeout`; the constants
`STATE_NEW` and `STATE_CLOSED`, which the sources do not give, are taken to differ. -/
theorem RequestTimeout_round_trip {H : Type} (st : client.States) (c : client.Client H)
    (to' : Int) :
    (c.state ≠ st.STATE_CLOSED → 0 < to' →
      (c.SetRequestTimeout st to').2 = none
      ∧ (c.SetRequestTimeout st to').1.RequestTimeout st = (to', none))
    ∧ ((to' ≤ 0 ∨ c.state = st.STATE_CLOSED) →
      (c.SetRequestTimeout st to').2 ≠ none
      ∧ (c.SetRequestTimeout st to').1 = c
      ∧ (c.SetRequestTimeout st to').1.timeout = c.timeout)
    ∧ (∀ (ops : client.headerMapOps H) (urlParse : String → error) (jar : error)
        (server : String) (enforceCertificate useHttps : Bool) (fresh : client.Client H),
        st.STATE_NEW ≠ st.STATE_CLOSED →
        client.NewClient ops st urlParse jar server enforceCertificate useHttps
          = .client fresh →
        fresh.RequestTimeout st = (24 * 3600 * 1000000000, none))
    ∧ (∀ (ops : client.headerMapOps H) (urlParse : String → error) (server : String)
        (enforceCertificate useHttps : Bool),
        st.STATE_NEW ≠ st.STATE_CLOSED → server ≠ "" →
        urlParse ((if useHttps = true then "https" else "http") ++ "://" ++ server) = none →
        ∃ fresh, client.NewClient ops st urlParse none server enforceCertificate useHttps
            = .client fresh
          ∧ fresh.RequestTimeout st = (24 * 3600 * 1000000000, none)) := by
  have hfresh : ∀ (ops : client.headerMapOps H) (urlParse : String → error) (jar : error)
      (server : String) (enforceCertificate useHttps : Bool) (fresh : client.Client H),
      st.STATE_NEW ≠ st.STATE_CLOSED →
      client.NewClient ops st urlParse jar server enforceCertificate useHttps
        = .client fresh →
      fresh.RequestTimeout st = (24 * 3600 * 1000000000, none) := by
    intro ops urlParse jar server ec https fresh hne hnew
    unfold client.NewClient at hnew
    by_cases hs : server = ""
    · simp [hs] at hnew
    · simp only [hs, if_false] at hnew
      revert hnew
      generalize urlParse ((if https = true then "https" else "http") ++ "://" ++ server) = u
      intro hnew
      cases u with
      | some e => simp at hnew
      | none =>
        cases jar with
        | some e => simp at hnew
        | none =>
          simp only [client.Constructed.client.injEq] at hnew
          subst hnew
          simp [client.Client.RequestTimeout, hne, client.defaultRequestTimeout]
  refine ⟨?_, ?_, hfresh, ?_⟩
  · intro hs hto
    have hle : ¬ to' ≤ 0 := by omega
    simp [client.Client.SetRequestTimeout, client.Client.RequestTimeout, hs, hle]
  · intro h
    unfold client.Client.SetRequestTimeout
    by_cases hs : c.state = st.STATE_CLOSED
    · simp [hs]
    · have hle : to' ≤ 0 := by
        rcases h with h | h
        · exact h
        · exact absurd h hs
      simp [hs, hle]
  · intro ops urlParse server ec https hne hs hu
    obtain ⟨fresh, hnew, _⟩ := client.NewClient_returns ops st urlParse server ec https hs hu
    exact ⟨fresh, hnew, hfresh ops urlParse none server ec https fresh hne hnew⟩

/-- C14 at a client in state `STATE_AUTHED` with a timeout of 5: set to 30 seconds, the
timeout read back is 30 seconds; and at `NewClient` for the server `localhost:8080`: it
returns a client, whose timeout reads 24 hours. -/
theorem RequestTimeout_round_trip_witness :
    (((⟨[], "host", 5, 5, 1, 0, true, ⟨"", 0⟩, "wss", "https", "GravwellCLI"⟩ :
        client.Client (List (String × String))).SetRequestTimeout numberedStates
          30000000000).2 = none
      ∧ ((⟨[], "host", 5, 5, 1, 0, true, ⟨"", 0⟩, "wss", "https", "GravwellCLI"⟩ :
        client.Client (List (String × String))).SetRequestTimeout numberedStates
          30000000000).1.RequestTimeout numberedStates = (30000000000, none))
    ∧ (∃ fresh, client.NewClient listHeaders numberedStates (fun _ => none) none
          "localhost:8080" true true = .client fresh
        ∧ fresh.RequestTimeout numberedStates = (24 * 3600 * 1000000000, none))
    ∧ ((⟨[], "host", 5, 5, 2, 0, true, ⟨"", 0⟩, "wss", "https", "GravwellCLI"⟩ :
        client.Client (List (String × String))).SetRequestTimeout numberedStates
          30000000000).2 ≠ none :=
  ⟨(RequestTimeout_round_trip numberedStates
      (⟨[], "host", 5, 5, 1, 0, true, ⟨"", 0⟩, "wss", "https", "GravwellCLI"⟩ :
        client.Client (List (String × String))) 30000000000).1 (by decide) (by decide),
   (RequestTimeout_round_trip numberedStates
      (⟨[], "host", 5, 5, 1, 0, true, ⟨"", 0⟩, "wss", "https", "GravwellCLI"⟩ :
        client.Client (List (String × String))) 30000000000).2.2.2 listHeaders
      (fun _ => none) "localhost:8080" true true (by decide) (by decide) rfl,
   ((RequestTimeout_round_trip numberedStates
      (⟨[], "host", 5, 5, 2, 0, true, ⟨"", 0⟩, "wss", "https", "GravwellCLI"⟩ :
        client.Client (List (String × String))) 30000000000).2.1 (Or.inr rfl)).1⟩

/-- What the loop over the headers of the request before leaves in the headers of the new
request: under every key what the new request had, and without that what the request
before had. -/
theorem client.copyHeaders_lookup (src dst : client.Header) (k : String) :
    (client.copyHeaders src dst).lookup k
      = match dst.lookup k with
        | some v => some v
        | none => src.lookup k := by
  unfold client.copyHeaders
  induction src generalizing dst with
  | nil =>
    simp only [List.foldl_nil, List.lookup_nil]
    cases dst.lookup k <;> rfl
  | cons kv rest ih =>
    obtain ⟨k0, v0⟩ := kv
    simp only [List.foldl_cons]
    rw [ih]
    have hcons : ∀ (l : client.Header), List.lookup k ((k0, v0) :: l)
        = if k = k0 then some v0 else List.lookup k l := by
      intro l
      rw [List.lookup_cons]
      by_cases e : k = k0
      · simp [e]
      · have hk : (k == k0) = false := by simpa using e
        simp [hk, e]
    by_cases hp : (dst.lookup k0).isSome = true
    · simp only [hp, if_true]
      cases hd : dst.lookup k with
      | some v => rfl
      | none =>
        simp only
        have e : ¬ k = k0 := by
          intro e
          subst e
          rw [hd] at hp
          simp at hp
        rw [hcons, if_neg e]
    · simp only [hp, Bool.false_eq_true, if_false]
      rw [hcons dst]
      by_cases e : k = k0
      · subst e
        have hn : dst.lookup k = none := by
          cases h : dst.lookup k with
          | none => rfl
          | some v => simp [h] at hp
        simp only [if_true, hn]
        rw [hcons, if_pos rfl]
      · simp only [e, if_false]
        cases dst.lookup k with
        | some v => rfl
        | none =>
          simp only
          rw [hcons, if_neg e]

/-- C15.  `redirectPolicy` returns nil exactly when there is one request before and its
cleaned path is the cleaned path of the new request.  The headers of the new request are
then, under every key, what the new request had there and, where it had nothing, what the
request before had: what was missing is copied and nothing set is overwritten.  With no
request before, or with two or more, it returns an error.  `Clean` is `path.Clean`, of
which nothing is assumed, and the order in which the headers are gone through is any. -/
theorem redirectPolicy_allows_one_equivalent_redirect (Clean : String → String)
    (req : client.Request) (via : List client.Request) :
    ((client.redirectPolicy Clean req via).2 = none
        ↔ ∃ prior, via = [prior] ∧ Clean req.Path = Clean prior.Path)
    ∧ (∀ prior, via = [prior] → Clean req.Path = Clean prior.Path →
        (client.redirectPolicy Clean req via).1.Path = req.Path
        ∧ ∀ k, (client.redirectPolicy Clean req via).1.Header.lookup k
            = match req.Header.lookup k with
              | some v => some v
              | none => prior.Header.lookup k)
    ∧ ((via.length = 0 ∨ 2 ≤ via.length) → (client.redirectPolicy Clean req via).2 ≠ none) := by
  rcases via with _ | ⟨p, _ | ⟨q, rest⟩⟩
  · refine ⟨⟨fun h => ?_, fun ⟨_, h, _⟩ => by simp at h⟩, fun _ h => by simp at h, fun _ => ?_⟩
    · simp [client.redirectPolicy] at h
    · simp [client.redirectPolicy]
  · have hr : client.redirectPolicy Clean req [p]
        = if Clean req.Path = Clean p.Path then
            ({ req with Header := client.copyHeaders p.Header req.Header }, none)
          else (req, some "Disallowed non-equivelent redirects") := by
      simp [client.redirectPolicy]
    rw [hr]
    refine ⟨⟨fun h => ?_, fun ⟨prior, h, hc⟩ => ?_⟩, fun prior h hc => ?_, fun h => ?_⟩
    · by_cases hc : Clean req.Path = Clean p.Path
      · exact ⟨p, rfl, hc⟩
      · simp [hc] at h
    · simp only [List.cons.injEq, and_true] at h
      subst h
      simp [hc]
    · simp only [List.cons.injEq, and_true] at h
      subst h
      rw [if_pos hc]
      exact ⟨rfl, fun k => client.copyHeaders_lookup _ _ k⟩
    · simp at h
  · refine ⟨⟨fun h => ?_, fun ⟨_, h, _⟩ => by simp at h⟩, fun _ h => by simp at h, fun _ => ?_⟩
    · simp [client.redirectPolicy] at h
    · simp [client.redirectPolicy]

/-- C15 at the redirect from `//api/test` to `/api/test`: it is allowed, the new request
keeps its own `Accept` and gets the `Authorization` of the request before. -/
theorem redirectPolicy_allows_one_equivalent_redirect_witness :
    (client.redirectPolicy cleanSlashes ⟨"/api/test", [("Accept", ["text/plain"])]⟩
      [⟨"//api/test", [("Accept", ["*/*"]), ("Authorization", ["Bearer tok"])]⟩]).2 = none
    ∧ (client.redirectPolicy cleanSlashes ⟨"/api/test", [("Accept", ["text/plain"])]⟩
      [⟨"//api/test", [("Accept", ["*/*"]), ("Authorization", ["Bearer tok"])]⟩]).1.Header
        = [("Authorization", ["Bearer tok"]), ("Accept", ["text/plain"])]
    ∧ ∀ k, (client.redirectPolicy cleanSlashes ⟨"/api/test", [("Accept", ["text/plain"])]⟩
      [⟨"//api/test", [("Accept", ["*/*"]), ("Authorization", ["Bearer tok"])]⟩]).1.Header.lookup k
        = match List.lookup k [("Accept", ["text/plain"])] with
          | some v => some v
          | none => List.lookup k [("Accept", ["*/*"]), ("Authorization", ["Bearer tok"])] :=
  ⟨by decide, by decide,
   ((redirectPolicy_allows_one_equivalent_redirect cleanSlashes
      ⟨"/api/test", [("Accept", ["text/plain"])]⟩
      [⟨"//api/test", [("Accept", ["*/*"]), ("Authorization", ["Bearer tok"])]⟩]).2.1
      ⟨"//api/test", [("Accept", ["*/*"]), ("Authorization", ["Bearer tok"])]⟩ rfl
      (by decide)).2⟩

/-! ## The split function `quotableSplitter` -/

/-- The bytes of a rune that does not begin with an ASCII byte are none of them ASCII. -/
theorem regexp.decodeMulti_bytes (p0 lo hi : Nat) (rest : List Nat) (h0 : 0x80 ≤ p0)
    (hlo : 0x80 ≤ lo) (k : Nat) (hk : k < (decodeMulti p0 lo hi rest).2) :
    0x80 ≤ (p0 :: rest).getD k 0 := by
  unfold decodeMulti at hk
  rcases rest with _ | ⟨b1, rest⟩
  · simp only [Nat.lt_one_iff] at hk
    subst hk
    simpa using h0
  · simp only at hk
    by_cases c1 : b1 < lo ∨ hi < b1
    · simp only [c1, if_true, Nat.lt_one_iff] at hk
      subst hk
      simpa using h0
    · simp only [c1, if_false] at hk
      have hb1 : 0x80 ≤ b1 := by omega
      by_cases c2 : p0 < 0xE0
      · simp only [c2, if_true] at hk
        rcases k with _ | _ | k
        · simpa using h0
        · simpa using hb1
        · omega
      · simp only [c2, if_false] at hk
        rcases rest with _ | ⟨b2, rest⟩
        · simp only [Nat.lt_one_iff] at hk
          subst hk
          simpa using h0
        · simp only at hk
          by_cases c3 : b2 < 0x80 ∨ 0xBF < b2
          · simp only [c3, if_true, Nat.lt_one_iff] at hk
            subst hk
            simpa using h0
          · simp only [c3, if_false] at hk
            have hb2 : 0x80 ≤ b2 := by omega
            by_cases c4 : p0 < 0xF0
            · simp only [c4, if_true] at hk
              rcases k with _ | _ | _ | k
              · simpa using h0
              · simpa using hb1
              · simpa using hb2
              · omega
            · simp only [c4, if_false] at hk
              rcases rest with _ | ⟨b3, rest⟩
              · simp only [Nat.lt_one_iff] at hk
                subst hk
                simpa using h0
              · simp only at hk
                by_cases c5 : b3 < 0x80 ∨ 0xBF < b3
                · simp only [c5, if_true, Nat.lt_one_iff] at hk
                  subst hk
                  simpa using h0
                · simp only [c5, if_false] at hk
                  have hb3 : 0x80 ≤ b3 := by omega
                  rcases k with _ | _ | _ | _ | k
                  · simpa using h0
                  · simpa using hb1
                  · simpa using hb2
                  · simpa using hb3
                  · omega

theorem regexp.DecodeRune_bytes (p0 : Nat) (rest : List Nat) (h0 : ¬ p0 < 0x80) (k : Nat)
    (hk : k < (DecodeRune (p0 :: rest)).2) : 0x80 ≤ (p0 :: rest).getD k 0 := by
  unfold DecodeRune at hk
  simp only [h0, if_false] at hk
  by_cases h1 : p0 < 0xC2 ∨ 0xF4 < p0
  · simp only [h1, if_true, Nat.lt_one_iff] at hk
    subst hk
    simp only [List.getD_cons_zero]
    omega
  · simp only [h1, if_false] at hk
    exact regexp.decodeMulti_bytes p0 _ _ rest (by omega) (by split_ifs <;> omega) k hk

theorem singleFile.escapedAt_succ (d : List Nat) (n : Nat) :
    singleFile.escapedAt d (n + 1)
      = if d.getD n 0 = 0x5C then !singleFile.escapedAt d n else false := by
  unfold singleFile.escapedAt
  rw [singleFile.backslashRun]
  split_ifs with h
  · rcases Nat.mod_two_eq_zero_or_one (singleFile.backslashRun d n) with e | e
    · have : (singleFile.backslashRun d n + 1) % 2 = 1 := by omega
      simp [e, this]
    · have : (singleFile.backslashRun d n + 1) % 2 = 0 := by omega
      simp [e, this]
  · rfl

theorem singleFile.insideQuotes_succ (d : List Nat) (n : Nat) :
    singleFile.insideQuotes d (n + 1)
      = if d.getD n 0 = 0x22 ∧ singleFile.escapedAt d n = false
        then !singleFile.insideQuotes d n else singleFile.insideQuotes d n := by
  unfold singleFile.insideQuotes
  rw [singleFile.quoteCount]
  split_ifs with h
  · rcases Nat.mod_two_eq_zero_or_one (singleFile.quoteCount d n) with e | e
    · have : (singleFile.quoteCount d n + 1) % 2 = 1 := by omega
      simp [e, this]
    · have : (singleFile.quoteCount d n + 1) % 2 = 0 := by omega
      simp [e, this]
  · simp

theorem singleFile.splitPoint_false (d : List Nat) (i : Nat)
    (h : d.getD i 0 ≠ 0x0A ∨ singleFile.escapedAt d i = true
      ∨ singleFile.insideQuotes d i = true) : singleFile.splitPoint d i = false := by
  unfold singleFile.splitPoint
  rcases h with h | h | h
  · rw [beq_eq_false_iff_ne.mpr h]
    simp
  · rw [h]
    simp
  · rw [h]
    simp

theorem singleFile.splitPoint_true (d : List Nat) (i : Nat) (h0 : i < d.length)
    (h1 : d.getD i 0 = 0x0A) (h2 : singleFile.escapedAt d i = false)
    (h3 : singleFile.insideQuotes d i = false) : singleFile.splitPoint d i = true := by
  unfold singleFile.splitPoint
  rw [decide_eq_true h0, h1, h2, h3]
  rfl

theorem singleFile.splitPoint_beyond (d : List Nat) (j : Nat) (h : d.length ≤ j) :
    singleFile.splitPoint d j = false := by
  unfold singleFile.splitPoint
  have : ¬ j < d.length := by omega
  rw [decide_eq_false this]
  rfl

/-- Over bytes that are not ASCII nothing is escaped, no quote opens or closes, and no
line ends. -/
theorem singleFile.stretch (d : List Nat) (i w : Nat)
    (h : ∀ k, k < w → 0x80 ≤ d.getD (i + k) 0) :
    (1 ≤ w → singleFile.escapedAt d (i + w) = false)
    ∧ singleFile.insideQuotes d (i + w) = singleFile.insideQuotes d i
    ∧ ∀ k, k < w → singleFile.splitPoint d (i + k) = false := by
  induction w with
  | zero => exact ⟨fun h0 => absurd h0 (by omega), rfl, fun k hk => absurd hk (by omega)⟩
  | succ w ih =>
    obtain ⟨_, ih2, ih3⟩ := ih (fun k hk => h k (by omega))
    have hw := h w (by omega)
    refine ⟨fun _ => ?_, ?_, ?_⟩
    · rw [← Nat.add_assoc, singleFile.escapedAt_succ]
      have : ¬ d.getD (i + w) 0 = 0x5C := by omega
      simp only [this, if_false]
    · rw [← Nat.add_assoc, singleFile.insideQuotes_succ]
      have : ¬ d.getD (i + w) 0 = 0x22 := by omega
      simp only [this, false_and, if_false, ih2]
    · intro k hk
      by_cases e : k = w
      · subst e
        exact singleFile.splitPoint_false d _ (Or.inl (by omega))
      · exact ih3 k (by omega)

/-- What the loop of `quotableSplitter` returns from the index `i` on, when its variables
hold what the words "inside quotes" and "escaped" say of `i`: the first split point from
`i` on, or nothing when there is none. -/
theorem singleFile.quotableLoop_spec (d : List Nat) (fuel i : Nat) (hi : i ≤ d.length)
    (hfuel : d.length - i ≤ fuel) :
    match singleFile.quotableLoop d fuel i (singleFile.insideQuotes d i)
        (singleFile.escapedAt d i) with
    | some k => i ≤ k ∧ singleFile.splitPoint d k = true
        ∧ ∀ j, i ≤ j → j < k → singleFile.splitPoint d j = false
    | none => ∀ j, i ≤ j → singleFile.splitPoint d j = false := by
  induction fuel generalizing i with
  | zero =>
    have : i = d.length := by omega
    subst this
    simp only [singleFile.quotableLoop]
    intro j hj
    exact singleFile.splitPoint_beyond d j hj
  | succ fuel ih =>
    rw [singleFile.quotableLoop]
    by_cases hlt : i < d.length
    · simp only [hlt, if_true]
      have hdrop : d.drop i = d.getD i 0 :: d.drop (i + 1) := by
        rw [List.getD_eq_getElem _ _ hlt]
        exact List.drop_eq_getElem_cons hlt
      -- going on to a later index, given that no line ends in between
      have go : ∀ w, 1 ≤ w → i + w ≤ d.length →
          (∀ k, k < w → singleFile.splitPoint d (i + k) = false) →
          match singleFile.quotableLoop d fuel (i + w) (singleFile.insideQuotes d (i + w))
              (singleFile.escapedAt d (i + w)) with
          | some k => i ≤ k ∧ singleFile.splitPoint d k = true
              ∧ ∀ j, i ≤ j → j < k → singleFile.splitPoint d j = false
          | none => ∀ j, i ≤ j → singleFile.splitPoint d j = false := by
        intro w hw hle hno
        have h := ih (i + w) hle (by omega)
        have hbetween : ∀ j, i ≤ j → j < i + w → singleFile.splitPoint d j = false := by
          intro j h1 h2
          have := hno (j - i) (by omega)
          rwa [Nat.add_sub_cancel' h1] at this
        cases hr : singleFile.quotableLoop d fuel (i + w) (singleFile.insideQuotes d (i + w))
            (singleFile.escapedAt d (i + w)) with
        | none =>
          rw [hr] at h
          simp only at h ⊢
          intro j hj
          by_cases hjw : j < i + w
          · exact hbetween j hj hjw
          · exact h j (by omega)
        | some k =>
          rw [hr] at h
          simp only at h ⊢
          obtain ⟨h1, h2, h3⟩ := h
          refine ⟨by omega, h2, fun j hj hjk => ?_⟩
          by_cases hjw : j < i + w
          · exact hbetween j hj hjw
          · exact h3 j (by omega) hjk
      by_cases hb : d.getD i 0 < 0x80
      · -- an ASCII byte
        rw [hdrop, regexp.DecodeRune_ascii _ _ hb]
        simp only
        have hE := singleFile.escapedAt_succ d i
        have hQ := singleFile.insideQuotes_succ d i
        have one : singleFile.splitPoint d i = false →
            ∀ k, k < 1 → singleFile.splitPoint d (i + k) = false := by
          intro h k hk
          have : k = 0 := by omega
          subst this
          exact h
        cases he : singleFile.escapedAt d i with
        | true =>
          simp only [if_true]
          have h := go 1 (le_refl _) (by omega)
            (one (singleFile.splitPoint_false d i (Or.inr (Or.inl he))))
          rw [he] at hE hQ
          have hE' : singleFile.escapedAt d (i + 1) = false := by
            rw [hE]
            split_ifs <;> rfl
          have hQ' : singleFile.insideQuotes d (i + 1) = singleFile.insideQuotes d i := by
            rw [hQ, if_neg (by intro h; exact absurd h.2 (by decide))]
          rw [hE', hQ'] at h
          exact h
        | false =>
          rw [he] at hE hQ
          simp only [Bool.false_eq_true, if_false]
          by_cases h5C : d.getD i 0 = 0x5C
          · simp only [h5C, if_true]
            have h := go 1 (le_refl _) (by omega)
              (one (singleFile.splitPoint_false d i (Or.inl (by omega))))
            have hE' : singleFile.escapedAt d (i + 1) = true := by
              rw [hE, if_pos h5C]
              rfl
            have hQ' : singleFile.insideQuotes d (i + 1) = singleFile.insideQuotes d i := by
              rw [hQ, if_neg (by intro h; omega)]
            rw [hE', hQ'] at h
            exact h
          · have hE' : singleFile.escapedAt d (i + 1) = false := by
              rw [hE, if_neg h5C]
            simp only [h5C, if_false]
            by_cases h22 : d.getD i 0 = 0x22
            · simp only [h22, if_true]
              have h := go 1 (le_refl _) (by omega)
                (one (singleFile.splitPoint_false d i (Or.inl (by omega))))
              have hQ' : singleFile.insideQuotes d (i + 1)
                  = !singleFile.insideQuotes d i := by
                rw [hQ, if_pos ⟨h22, rfl⟩]
              rw [hE', hQ'] at h
              exact h
            · have hQ' : singleFile.insideQuotes d (i + 1) = singleFile.insideQuotes d i := by
                rw [hQ, if_neg (by intro h; exact h22 h.1)]
              simp only [h22, if_false]
              by_cases hnl : d.getD i 0 = 0x0A ∧ singleFile.insideQuotes d i = false
              · simp only [hnl, and_self, if_true]
                exact ⟨le_refl _, singleFile.splitPoint_true d i hlt hnl.1 he hnl.2,
                  fun j h1 h2 => absurd h2 (by omega)⟩
              · simp only [hnl, if_false]
                have hsp : singleFile.splitPoint d i = false := by
                  by_cases e : d.getD i 0 = 0x0A
                  · have : singleFile.insideQuotes d i = true := by
                      cases hq : singleFile.insideQuotes d i with
                      | true => rfl
                      | false => exact absurd ⟨e, hq⟩ hnl
                    exact singleFile.splitPoint_false d i (Or.inr (Or.inr this))
                  · exact singleFile.splitPoint_false d i (Or.inl e)
                have h := go 1 (le_refl _) (by omega) (one hsp)
                rw [hE', hQ'] at h
                exact h
      · -- the first byte of a rune that is not ASCII, or a stray byte
        have hw := regexp.DecodeRune_multi (d.getD i 0) (d.drop (i + 1)) hb
        have hbytes := regexp.DecodeRune_bytes (d.getD i 0) (d.drop (i + 1)) hb
        rw [← hdrop] at hw hbytes
        generalize hW : (regexp.DecodeRune (d.drop i)).2 = w at hw hbytes ⊢
        generalize hR : (regexp.DecodeRune (d.drop i)).1 = r at hw ⊢
        have hlen : i + w ≤ d.length := by
          have := hw.2.1
          rw [List.length_drop] at this
          omega
        have hall : ∀ k, k < w → 0x80 ≤ d.getD (i + k) 0 := by
          intro k hk
          have := hbytes k hk
          rwa [List.getD_eq_getElem?_getD, List.getElem?_drop,
            ← List.getD_eq_getElem?_getD] at this
        obtain ⟨s1, s2, s3⟩ := singleFile.stretch d i w hall
        have h := go w hw.1 hlen s3
        rw [s1 hw.1, s2] at h
        have r1 : ¬ r = 0x5C := by omega
        have r2 : ¬ r = 0x22 := by omega
        have r3 : ¬ r = 0x0A := by omega
        cases he : singleFile.escapedAt d i with
        | true =>
          simp only [if_true]
          exact h
        | false =>
          simp only [Bool.false_eq_true, if_false, r1, r2, r3, false_and]
          exact h
    · simp only [hlt, if_false]
      intro j hj
      exact singleFile.splitPoint_beyond d j (by omega)

theorem singleFile.quotableLoop_start (d : List Nat) :
    match singleFile.quotableLoop d d.length 0 false false with
    | some k => singleFile.splitPoint d k = true
        ∧ ∀ j, j < k → singleFile.splitPoint d j = false
    | none => ∀ j, singleFile.splitPoint d j = false := by
  have h := singleFile.quotableLoop_spec d d.length 0 (Nat.zero_le _) (by omega)
  have e1 : singleFile.insideQuotes d 0 = false := rfl
  have e2 : singleFile.escapedAt d 0 = false := rfl
  rw [e1, e2] at h
  cases hr : singleFile.quotableLoop d d.length 0 false false with
  | none =>
    rw [hr] at h
    exact fun j => h j (Nat.zero_le _)
  | some k =>
    rw [hr] at h
    exact ⟨h.2.1, fun j hj => h.2.2 j (Nat.zero_le _) hj⟩

/-- C12.  `quotableSplitter` on every buffer `data`, a split point being an index that
holds a newline which is neither escaped (an odd number of backslashes right before it)
nor inside an open double-quoted region (an odd number of unescaped double quotes before
it).  When `data` has a split point, `i` being the first, the advance is `i + 1` and the
token is what `dropCR` makes of the bytes before `i`: those bytes, newlines inside quotes
among them, less one trailing carriage return.  When `data` has none, the result is the
length of `data` and `dropCR` of all of it if `atEOF` is set and `data` is not empty, and
otherwise 0 and a nil token.  The error is nil throughout. -/
theorem quotableSplitter_ends_token_at_first_free_newline (data : List Nat) (atEOF : Bool) :
    (∀ i, singleFile.splitPoint data i = true →
        (∀ j, j < i → singleFile.splitPoint data j = false) →
        singleFile.quotableSplitter data atEOF
          = (i + 1, some (singleFile.dropCR (data.take i)), none))
    ∧ ((∀ i, singleFile.splitPoint data i = false) → atEOF = true → data ≠ [] →
        singleFile.quotableSplitter data atEOF
          = (data.length, some (singleFile.dropCR data), none))
    ∧ ((∀ i, singleFile.splitPoint data i = false) → (atEOF = false ∨ data = []) →
        singleFile.quotableSplitter data atEOF = (0, none, none)) := by
  have hloop := singleFile.quotableLoop_start data
  refine ⟨?_, ?_, ?_⟩
  · intro i hi hleast
    have hlen : ¬ (atEOF = true ∧ data.length = 0) := by
      intro h
      have := singleFile.splitPoint_beyond data i (by omega)
      rw [hi] at this
      exact absurd this (by decide)
    unfold singleFile.quotableSplitter
    simp only [hlen, if_false]
    cases hr : singleFile.quotableLoop data data.length 0 false false with
    | none =>
      rw [hr] at hloop
      have := hloop i
      rw [hi] at this
      exact absurd this (by decide)
    | some k =>
      rw [hr] at hloop
      obtain ⟨hk, hkleast⟩ := hloop
      have hik : k = i := by
        rcases Nat.lt_trichotomy k i with h | h | h
        · have := hleast k h
          rw [hk] at this
          exact absurd this (by decide)
        · exact h
        · have := hkleast i h
          rw [hi] at this
          exact absurd this (by decide)
      subst hik
      rfl
  · intro hnone hEOF hne
    have hlen : ¬ (atEOF = true ∧ data.length = 0) := by
      intro h
      exact hne (List.length_eq_zero.mp h.2)
    unfold singleFile.quotableSplitter
    simp only [hlen, if_false]
    cases hr : singleFile.quotableLoop data data.length 0 false false with
    | none => simp only [hEOF, if_true]
    | some k =>
      rw [hr] at hloop
      have := hnone k
      rw [hloop.1] at this
      exact absurd this (by decide)
  · intro hnone hcase
    unfold singleFile.quotableSplitter
    by_cases hlen : atEOF = true ∧ data.length = 0
    · simp only [hlen, and_self, if_true]
    · simp only [hlen, if_false]
      cases hr : singleFile.quotableLoop data data.length 0 false false with
      | none =>
        have hE : atEOF = false := by
          rcases hcase with h | h
          · exact h
          · subst h
            cases atEOF with
            | false => rfl
            | true => exact absurd ⟨rfl, rfl⟩ hlen
        simp only [hE, Bool.false_eq_true, if_false]
      | some k =>
        rw [hr] at hloop
        have := hnone k
        rw [hloop.1] at this
        exact absurd this (by decide)

/-- C12 at a buffer that holds `a,` and a quoted field with a newline in it, then a
carriage return, a newline and `rest`: the newline inside the quotes, at index 4, is no
split point, the one after the carriage return, at index 8, is the first, and the token
is the first seven bytes, the quoted field whole. -/
theorem quotableSplitter_ends_token_at_first_free_newline_witness :
    singleFile.splitPoint quotedRecord 4 = false
    ∧ singleFile.splitPoint quotedRecord 8 = true
    ∧ singleFile.quotableSplitter quotedRecord false
        = (8 + 1, some (singleFile.dropCR (quotedRecord.take 8)), none)
    ∧ singleFile.dropCR (quotedRecord.take 8) = ascii "a,\"x\ny\"" :=
  ⟨by decide, by decide,
   (quotableSplitter_ends_token_at_first_free_newline quotedRecord false).1 8 (by decide)
     (by decide),
   by decide⟩
